import Mathlib

/-! mash: tokenizer, parser, redirections and pipeline driver

A shallow embedding of `src/mash.c`.  C strings are lists of characters (the
bytes before the terminating NUL), the cursor `i` of a loop over the input is
the list of characters not yet consumed, and the word buffer `word[0..word_pos)`
is the list of characters written so far (so `word_pos = word.length`).
-/

namespace Mash

/-! ## Constants and character classes -/

/-- `#define TOKENS 128` (mash.c:15). -/
def TOKENS : Nat := 128

/-- `#define SIZE 4096` (mash.c:16). -/
def SIZE : Nat := 4096

/-- The single quote character. -/
def squote : Char := Char.ofNat 39

/-- The double quote character. -/
def dquote : Char := Char.ofNat 34

/-- The backslash character. -/
def backslash : Char := Char.ofNat 92

/-- The dollar character. -/
def dollar : Char := Char.ofNat 36

/-- The function `isspace` of the C locale: space, `\t`, `\n`, `\v`, `\f`, `\r`. -/
def isspace (c : Char) : Bool :=
  c = ' ' || c = Char.ofNat 9 || c = Char.ofNat 10 || c = Char.ofNat 11 ||
    c = Char.ofNat 12 || c = Char.ofNat 13

/-! ## tokenize (mash.c:41-113) -/

/-- The quoted-region loop of mash.c:70-79,
`while (i < len && input[i] != quote && word_pos < SIZE - 1)`.
Arguments: the opening quote, the input from the cursor on, the word written so
far.  Result: the word and the input left when the loop exits. -/
def quoteLoop (quote : Char) : List Char → List Char → List Char × List Char
  | [], word => (word, [])
  | [c], word =>
    if c ≠ quote ∧ word.length < SIZE - 1 then
      -- `(i + 1) < len` fails: the else branch copies `input[i]`
      quoteLoop quote [] (word ++ [c])
    else (word, [c])
  | c :: d :: rest, word =>
    if c ≠ quote ∧ word.length < SIZE - 1 then
      if quote = dquote ∧ c = backslash ∧ (d = dquote ∨ d = dollar ∨ d = backslash) then
        quoteLoop quote rest (word ++ [d])
      else
        quoteLoop quote (d :: rest) (word ++ [c])
    else (word, c :: d :: rest)

/-- The line `if (i < len && input[i] == quote) i++;` of mash.c:80-82. -/
def skipClosing (quote : Char) : List Char → List Char
  | [] => []
  | c :: rest => if c = quote then rest else c :: rest

/-- The assignment `word_pos = SIZE - 1` of mash.c:100 on a buffer of which only
`word` was written: the cells in between were never assigned, they are shown as
NUL.  Only the branch of mash.c:94-101 uses it. -/
def setWordPos (word : List Char) : List Char :=
  word.take (SIZE - 1) ++ List.replicate (SIZE - 1 - word.length) (Char.ofNat 0)

/-- The word loop of mash.c:61-102, `while (i < len && !isspace(input[i]))`.
Arguments: fuel (every iteration consumes a character, so the length of the
input is enough), the input from the cursor on, the word written so far and the
variable `overflow`.  Result: the word and the input left at loop exit. -/
def wordLoop : Nat → List Char → List Char → Bool → List Char × List Char
  | 0, inp, word, _ => (word, inp)
  | _ + 1, [], word, _ => (word, [])
  | fuel + 1, c :: rest, word, overflow =>
    if isspace c then (word, c :: rest)
    else if SIZE - 1 ≤ word.length then
      -- `overflow = 1; break;`
      (word, c :: rest)
    else
      let step : List Char × List Char :=
        if c = squote ∨ c = dquote then
          let r := quoteLoop c rest word
          (r.1, skipClosing c r.2)
        else
          match rest with
          | d :: rest1 =>
            if c = backslash ∧ word.length < SIZE - 1 then (word ++ [d], rest1)
            else (word ++ [c], d :: rest1)
          | [] => (word ++ [c], [])
      if overflow then
        -- mash.c:94-101: skip to the next whitespace, `word_pos = SIZE - 1`
        wordLoop fuel (step.2.dropWhile (fun x => !isspace x)) (setWordPos step.1) overflow
      else
        wordLoop fuel step.2 step.1 overflow

/-- The outer loop of mash.c:47-105, `while (i < len && argc < TOKENS)`.
Arguments: fuel, the input from the cursor on, the tokens stored so far. -/
def tokenLoop : Nat → List Char → List String → List String
  | 0, _, args => args
  | fuel + 1, inp, args =>
    if inp ≠ [] ∧ args.length < TOKENS then
      let inp1 := inp.dropWhile isspace
      if inp1 = [] then args
      else
        let r := wordLoop inp1.length inp1 [] false
        tokenLoop fuel r.2 (args ++ [String.mk r.1])
    else args

/-- The function `tokenize` of mash.c:41-113: the tokens `args[0..argc)`. -/
def tokenize (input : List Char) : List String :=
  tokenLoop input.length input []

/-! ## parse_command (mash.c:115-200) -/

/-- The structure `command_t` of mash.c:18-27.  A `NULL` file name is `none`; the
link `next` is the order of the list that `parse_command` returns. -/
structure Command where
  argv : List String := []
  stdout_file : Option String := none
  stdin_file : Option String := none
  stderr_file : Option String := none
  append_bool : Bool := false
  bground_bool : Bool := false
  merge_err : Bool := false
deriving DecidableEq, Repr

/-- The loop `for (int i = 0; i < num_toks; i++)` of mash.c:127-187 with the
finalisation of mash.c:189-191.  Arguments: the tokens from index `i` on, and
the command `current`, whose `argv` field holds `argv_buf[0..argc_buf)`.
The first two equations are `i == num_toks` and `i == num_toks - 1`, the third
one is `i + 1 < num_toks`. -/
def parseLoop : List String → Command → List Command
  | [], current => [current]
  | [t], current =>
    if t = "2>&1" then
      parseLoop [] { current with merge_err := true }
    else if t = "&" then
      parseLoop [] { current with bground_bool := true }
    else
      parseLoop [] { current with argv := current.argv ++ [t] }
  | t :: f :: rest, current =>
    if t = "|" then
      -- close `current`, the next one is zeroed by calloc and reset
      current :: parseLoop (f :: rest) {}
    else if t = ">" ∨ t = "1>" then
      parseLoop rest { current with stdout_file := some f, append_bool := false }
    else if t = ">>" ∨ t = "1>>" then
      parseLoop rest { current with stdout_file := some f, append_bool := true }
    else if t = "2>" then
      parseLoop rest { current with stderr_file := some f, append_bool := false }
    else if t = "2>>" then
      parseLoop rest { current with stderr_file := some f, append_bool := true }
    else if t = "&>" ∨ t = ">&" then
      parseLoop rest
        { current with stdout_file := some f, stderr_file := some f, append_bool := false }
    else if t = "<" then
      parseLoop rest { current with stdin_file := some f }
    else if t = "2>&1" then
      parseLoop (f :: rest) { current with merge_err := true }
    else
      -- `&` is not the last token here: it is copied like any other word
      parseLoop (f :: rest) { current with argv := current.argv ++ [t] }

/-- The function `parse_command` of mash.c:115-200: the chain from `cmd` on. -/
def parse_command (tokens : List String) : List Command :=
  parseLoop tokens {}

/-- The operators that take a following token as operand (mash.c:149-177). -/
def isRedirect (t : String) : Bool :=
  t = ">" || t = "1>" || t = ">>" || t = "1>>" || t = "2>" || t = "2>>" ||
    t = "&>" || t = ">&" || t = "<"

/-- The recognised operator tokens: the pipe, the redirections, `2>&1` and `&`. -/
def isOperator (t : String) : Bool :=
  t = "|" || isRedirect t || t = "2>&1" || t = "&"

/-! ## The descriptor table and the system calls on it -/

/-- The open flags that `apply_redirects` passes to `open`: `O_RDONLY`,
`O_WRONLY | O_CREAT | O_TRUNC` and `O_WRONLY | O_CREAT | O_APPEND`. -/
inductive OFlag where
  | rdonly
  | trunc
  | append
deriving DecidableEq, Repr

/-- An open file description, what a descriptor refers to: a stream the shell
had when it started, the result of the `serial`-th call of `open`, or one end of
the `k`-th pipe. -/
inductive OpenFile where
  | inherited (k : Nat)
  | file (path : String) (flags : OFlag) (serial : Nat)
  | pipeRead (k : Nat)
  | pipeWrite (k : Nat)
deriving DecidableEq, Repr

/-- The part of the process state the shell acts on: the descriptor table
(`none` is a closed descriptor), the number of descriptors the process may hold,
the calls of `open` made so far, the number of pipes created so far and the text
written so far, each with the open file it went to. -/
structure Sys where
  fds : Nat → Option OpenFile
  limit : Nat
  opens : List (String × OFlag)
  pipes : Nat
  written : List (OpenFile × String)

/-- What the shell cannot decide itself: whether the `n`-th call of `open`
succeeds on the file system, whether the `i`-th `pipe` and `fork` of a pipeline
succeed (`fork` gives the child's pid), the result of `getcwd`, the value of
`HOME`, whether `chdir` succeeds, and the first executable match on `PATH`. -/
structure Env where
  openOk : Nat → String → OFlag → Bool
  pipeOk : Nat → Bool
  fork : Nat → Option Nat
  getcwd : Option String
  home : Option String
  chdirOk : String → Bool
  which : String → Option String

/-- The table `s.fds` with descriptor `fd` set to `v`. -/
def setFd (s : Sys) (fd : Nat) (v : Option OpenFile) : Sys :=
  { s with fds := fun x => if x = fd then v else s.fds x }

/-- The lowest descriptor that is closed, if there is one below the limit. -/
def lowestFree (s : Sys) : Option Nat :=
  (List.range s.limit).find? (fun fd => (s.fds fd).isNone)

/-- The call `dup(fd)`: `none` is the result -1 (`fd` is closed, or no
descriptor is free). -/
def sys_dup (s : Sys) (fd : Nat) : Option Nat × Sys :=
  match s.fds fd with
  | none => (none, s)
  | some d =>
    match lowestFree s with
    | none => (none, s)
    | some n => (some n, setFd s n (some d))

/-- The call `dup2(oldfd, newfd)`, its result ignored as in the source: nothing
happens when `oldfd` is closed. -/
def sys_dup2 (s : Sys) (oldfd newfd : Nat) : Sys :=
  match s.fds oldfd with
  | none => s
  | some d => setFd s newfd (some d)

/-- The call `close(fd)`. -/
def sys_close (s : Sys) (fd : Nat) : Sys :=
  setFd s fd none

/-- The call `open(path, flags)`: recorded in `opens`; `none` is the result -1
(the file system refuses, or no descriptor is free). -/
def sys_open (env : Env) (s : Sys) (path : String) (flags : OFlag) : Option Nat × Sys :=
  let s1 : Sys := { s with opens := s.opens ++ [(path, flags)] }
  if env.openOk s.opens.length path flags then
    match lowestFree s with
    | none => (none, s1)
    | some n => (some n, setFd s1 n (some (OpenFile.file path flags s.opens.length)))
  else (none, s1)

/-- Text written to descriptor `fd` (`printf` on the unbuffered `stdout`,
`perror` and `fprintf(stderr, ...)`): lost when `fd` is closed. -/
def sys_write (s : Sys) (fd : Nat) (text : String) : Sys :=
  match s.fds fd with
  | none => s
  | some d => { s with written := s.written ++ [(d, text)] }

/-- The call `pipe(pipes[i])`: the two lowest closed descriptors become the read
and the write end; `none` is the result -1. -/
def sys_pipe (env : Env) (i : Nat) (s : Sys) : Option (Nat × Nat) × Sys :=
  if env.pipeOk i then
    match lowestFree s with
    | none => (none, s)
    | some r =>
      let s1 := setFd s r (some (OpenFile.pipeRead s.pipes))
      match lowestFree s1 with
      | none => (none, s)
      | some w =>
        (some (r, w), { setFd s1 w (some (OpenFile.pipeWrite s.pipes)) with pipes := s.pipes + 1 })
  else (none, s)

/-! ## apply_redirects, restore_fds, run_builtin (mash.c:202-294) -/

/-- The structure `fd_backup_t` of mash.c:29-33; `none` is the value -1. -/
structure FdBackup where
  saved_stdin : Option Nat := none
  saved_stdout : Option Nat := none
  saved_stderr : Option Nat := none
deriving DecidableEq, Repr

/-- The three calls of `dup` of mash.c:204-206. -/
def save_fds (s : Sys) : FdBackup × Sys :=
  let r0 := sys_dup s 0
  let r1 := sys_dup r0.2 1
  let r2 := sys_dup r1.2 2
  ({ saved_stdin := r0.1, saved_stdout := r1.1, saved_stderr := r2.1 }, r2.2)

/-- One block of mash.c:209-243: `open` the file, on failure `perror` and give
up (`false`), otherwise `dup2(fd, target); close(fd);`.  The text `what` is the
prefix that `perror` prints; the system's error text is left out, here and in
the other diagnostics. -/
def redirectTo (env : Env) (s : Sys) (what path : String) (flags : OFlag) (target : Nat) :
    Bool × Sys :=
  match sys_open env s path flags with
  | (none, s1) => (false, sys_write s1 2 what)
  | (some fd, s1) => (true, sys_close (sys_dup2 s1 fd target) fd)

/-- One block `if (cmd->..._file) { ... }` of mash.c:209-243: nothing is done
for a `NULL` file name. -/
def redirectOpt (env : Env) (s : Sys) (what : String) (file : Option String) (flags : OFlag)
    (target : Nat) : Bool × Sys :=
  match file with
  | none => (true, s)
  | some path => redirectTo env s what path flags target

/-- The function `apply_redirects` of mash.c:202-250.  `backup` is `none` for
the argument `NULL`.  Result: `true` for the return value 0 and `false` for -1,
the backup as the call leaves it, and the state. -/
def apply_redirects (env : Env) (cmd : Command) (backup : Option FdBackup) (s : Sys) :
    Bool × Option FdBackup × Sys :=
  let sb : Option FdBackup × Sys :=
    match backup with
    | none => (none, s)
    | some _ => ((some (save_fds s).1), (save_fds s).2)
  let r0 := redirectOpt env sb.2 "open stdin" cmd.stdin_file OFlag.rdonly 0
  if r0.1 = false then (false, sb.1, r0.2)
  else
    let flags : OFlag := if cmd.append_bool then OFlag.append else OFlag.trunc
    let r1 := redirectOpt env r0.2 "open stdout" cmd.stdout_file flags 1
    if r1.1 = false then (false, sb.1, r1.2)
    else
      let r2 := redirectOpt env r1.2 "open stderr" cmd.stderr_file flags 2
      if r2.1 = false then (false, sb.1, r2.2)
      else
        (true, sb.1, if cmd.merge_err then sys_dup2 r2.2 1 2 else r2.2)

/-- One block of `restore_fds`: `if (saved >= 0) { dup2(saved, target); close(saved); }`. -/
def restoreOne (s : Sys) (saved : Option Nat) (target : Nat) : Sys :=
  match saved with
  | none => s
  | some fd => sys_close (sys_dup2 s fd target) fd

/-- The function `restore_fds` of mash.c:253-266. -/
def restore_fds (backup : FdBackup) (s : Sys) : Sys :=
  restoreOne (restoreOne (restoreOne s backup.saved_stdin 0) backup.saved_stdout 1)
    backup.saved_stderr 2

/-- The function `run_builtin` of mash.c:269-280; `fn` is the body of the
builtin, acting on the state. -/
def run_builtin (env : Env) (cmd : Command) (fn : Command → Sys → Sys) (s : Sys) : Sys :=
  let r := apply_redirects env cmd (some {}) s
  let backup : FdBackup := r.2.1.getD {}
  if r.1 = false then restore_fds backup r.2.2
  else restore_fds backup (fn cmd r.2.2)

/-- The loop of `echo_builtin` (mash.c:282-284) over `argv[i], argv[i+1], ...`. -/
def echoArgs : List String → Sys → Sys
  | [], s => s
  | [a], s => sys_write s 1 a
  | a :: b :: rest, s => echoArgs (b :: rest) (sys_write s 1 (a ++ " "))

/-- The function `echo_builtin` of mash.c:281-286. -/
def echo_builtin (cmd : Command) (s : Sys) : Sys :=
  sys_write (echoArgs cmd.argv.tail s) 1 "\n"

/-- The function `pwd_builtin` of mash.c:287-294. -/
def pwd_builtin (env : Env) (_cmd : Command) (s : Sys) : Sys :=
  match env.getcwd with
  | some cwd => sys_write s 1 (cwd ++ "\n")
  | none => sys_write s 2 "Error getting present working directory with getcwd()\n"

/-! ## exec_external_cmd and exec_pipeline (mash.c:296-382), in the shell process

The branch `pid == 0` runs in the child, which ends in `execvp` or `_exit` and
shares no descriptor table with the shell: the definitions below follow the
parent. -/

/-- What a launch did in the shell process: the state it leaves, the pipes it
created (`pipes[i][0]`, `pipes[i][1]`), the children it forked, and whether it
waited for children before it returned. -/
structure Launch where
  sys : Sys
  pipes : List (Nat × Nat) := []
  children : List Nat := []
  waited : Bool := false

/-- The function `exec_external_cmd` of mash.c:296-320. -/
def exec_external_cmd (env : Env) (cmd : Command) (s : Sys) : Launch :=
  match env.fork 0 with
  | none => { sys := sys_write s 2 "Fork failed" }
  | some pid =>
    if cmd.bground_bool = false then
      { sys := s, children := [pid], waited := true }
    else
      { sys := sys_write s 1 ("[background pid " ++ toString pid ++ "]\n"), children := [pid] }

/-- The loop of mash.c:333-338 from index `i` on, `k` pipes still to create.
Result: `false` when a `pipe` failed (the function returns there), the pipes
created, the state. -/
def pipeLoop (env : Env) : Nat → Nat → List (Nat × Nat) → Sys → Bool × List (Nat × Nat) × Sys
  | 0, _, pipes, s => (true, pipes, s)
  | k + 1, i, pipes, s =>
    match sys_pipe env i s with
    | (none, s1) => (false, pipes, sys_write s1 2 "pipe")
    | (some p, s1) => pipeLoop env k (i + 1) (pipes ++ [p]) s1

/-- The loop of mash.c:341-370 in the parent from index `i` on, `k` stages still
to fork.  Result: `false` when a `fork` failed, and the children forked. -/
def forkLoop (env : Env) : Nat → Nat → List Nat → Bool × List Nat
  | 0, _, children => (true, children)
  | k + 1, i, children =>
    match env.fork i with
    | none => (false, children)
    | some pid => forkLoop env k (i + 1) (children ++ [pid])

/-- The loop of mash.c:372-375: close both ends of every pipe. -/
def closePipes : List (Nat × Nat) → Sys → Sys
  | [], s => s
  | p :: rest, s => closePipes rest (sys_close (sys_close s p.1) p.2)

/-- The function `exec_pipeline` of mash.c:321-382; `head` is the chain. -/
def exec_pipeline (env : Env) (head : List Command) (s : Sys) : Launch :=
  match head with
  | [] => { sys := s }
  | first :: next =>
    let n := (first :: next).length
    let rp := pipeLoop env (n - 1) 0 [] s
    if rp.1 = false then { sys := rp.2.2, pipes := rp.2.1 }
    else
      let rf := forkLoop env n 0 []
      if rf.1 = false then
        { sys := sys_write rp.2.2 2 "fork", pipes := rp.2.1, children := rf.2 }
      else
        let s1 := closePipes rp.2.1 rp.2.2
        -- `if (!head->bground_bool) while (wait(NULL) > 0) {}`
        { sys := s1, pipes := rp.2.1, children := rf.2, waited := !first.bground_bool }

/-! ## One iteration of the loop of main (mash.c:511-624) -/

/-- The array `builtins` of mash.c:516. -/
def builtins : List String := ["exit", "type", "echo", "pwd", "cd"]

/-- The newline character. -/
def newline : Char := Char.ofNat 10

/-- What one iteration of the loop of `main` does after reading the line. -/
inductive Action where
  /-- The `continue` of mash.c:527: nothing is tokenized. -/
  | reprompt
  /-- The call `strcmp(cmd->argv[0], *b)` of mash.c:550 with `argv[0] == NULL`. -/
  | nullArgv0
  /-- The call `strcmp(command_type, *b)` of mash.c:569 with `argv[1] == NULL`. -/
  | nullArgv1
  /-- The call `exit(0)` of mash.c:560. -/
  | exited
  /-- The builtin `argv[0]` was run, through `run_builtin` or not. -/
  | builtin (name : String) (viaRunBuiltin : Bool)
  /-- The call of `exec_pipeline`, with what it did. -/
  | pipeline (pipes : List (Nat × Nat)) (children : List Nat) (waited : Bool)
  /-- The call of `exec_external_cmd`, with what it did. -/
  | external (children : List Nat) (waited : Bool)
deriving DecidableEq, Repr

/-- The branch `type` of mash.c:565-598; `name` is `argv[1]`. -/
def type_builtin (env : Env) (name : String) (s : Sys) : Sys :=
  if name ∈ builtins then sys_write s 1 (name ++ " is a shell builtin\n")
  else
    match env.which name with
    | some full => sys_write s 1 (name ++ " is " ++ full ++ "\n")
    | none => sys_write s 2 (name ++ " not found\n")

/-- The branch `cd` of mash.c:600-612; `arg` is `argv[1]`. -/
def cd_builtin (env : Env) (arg : Option String) (s : Sys) : Sys :=
  let target : Option String :=
    match arg with
    | none => env.home
    | some a => if a = "~" then env.home else some a
  match target with
  | none => sys_write s 2 "cd: (null)"
  | some t => if env.chdirOk t then s else sys_write s 2 ("cd: " ++ t)

/-- The body of the loop of `main` from mash.c:524 on: `input` is the line that
`input_completion` left in the buffer. -/
def mainBody (env : Env) (input : List Char) (s : Sys) : Action × Sys :=
  if input = [] ∨ input = [newline] then (Action.reprompt, s)
  else
    let line := if input.getLast? = some newline then input.dropLast else input
    let tokens := tokenize line
    -- `if (argc == 0) {}` of mash.c:539 has an empty body
    match parse_command tokens with
    | [] => (Action.reprompt, s)
    | cmd :: next =>
      match cmd.argv with
      | [] => (Action.nullArgv0, s)
      | name :: args =>
        if name ∈ builtins then
          if name = "exit" then (Action.exited, s)
          else if name = "echo" then
            (Action.builtin name true, run_builtin env cmd echo_builtin s)
          else if name = "pwd" then
            (Action.builtin name true, run_builtin env cmd (pwd_builtin env) s)
          else if name = "type" then
            match args with
            | [] => (Action.nullArgv1, s)
            | a :: _ => (Action.builtin name false, type_builtin env a s)
          else
            (Action.builtin name false, cd_builtin env args.head? s)
        else if next ≠ [] then
          let l := exec_pipeline env (cmd :: next) s
          (Action.pipeline l.pipes l.children l.waited, l.sys)
        else
          let l := exec_external_cmd env cmd s
          (Action.external l.children l.waited, l.sys)

/-! ## Definitions that follow the words of the spec -/

/-- Whether the last token of the list is an operator token. -/
def endsWithOperator (tokens : List String) : Bool :=
  match tokens.getLast? with
  | some t => isOperator t
  | none => false

/-- The `argv` sequences of the stages, one after the other. -/
def allArgv : List Command → List String
  | [] => []
  | c :: rest => c.argv ++ allArgv rest

/-- The part a token plays (spec, section 4.2). -/
inductive Role where
  | pipe
  | redirect
  | operand
  | merge
  | background
  | word
deriving DecidableEq, Repr

/-- The part of every token, following the words of the spec: `|` before another
token is a pipe, a redirection operator before another token is a redirection
and that token its operand, `2>&1` is the merge flag, `&` as the last token is
the background marker, anything else is a literal argument. -/
def roles : List String → List Role
  | [] => []
  | [t] =>
    if t = "2>&1" then [Role.merge]
    else if t = "&" then [Role.background]
    else [Role.word]
  | t :: f :: rest =>
    if t = "|" then Role.pipe :: roles (f :: rest)
    else if isRedirect t then Role.redirect :: Role.operand :: roles rest
    else if t = "2>&1" then Role.merge :: roles (f :: rest)
    else Role.word :: roles (f :: rest)

/-- The tokens that the spec makes literal arguments, in order. -/
def literalWords (tokens : List String) : List String :=
  ((tokens.zip (roles tokens)).filter (fun p => p.2 = Role.word)).map Prod.fst

/-- A character with no special meaning for `tokenize`: no whitespace, no quote,
no backslash. -/
def isPlain (c : Char) : Bool :=
  !isspace c && c != squote && c != dquote && c != backslash

/-- The expected token of a double-quoted body, in the words of the spec: each
two-character sequence backslash-quote, backslash-dollar, backslash-backslash is
replaced by its second character, every other character is kept. -/
def dqUnescape : List Char → List Char
  | [] => []
  | [c] => [c]
  | c :: d :: rest =>
    if c = backslash ∧ (d = dquote ∨ d = dollar ∨ d = backslash) then d :: dqUnescape rest
    else c :: dqUnescape (d :: rest)

/-- Whether every double quote of the body is preceded by an escaping backslash,
reading the body from the left. -/
def dqEscaped : List Char → Bool
  | [] => true
  | [c] => c != dquote
  | c :: d :: rest =>
    if c = backslash ∧ (d = dquote ∨ d = dollar ∨ d = backslash) then dqEscaped rest
    else c != dquote && dqEscaped (d :: rest)

/-- Whether the body ends in a backslash that is not itself escaped. -/
def dqOpenBackslash : List Char → Bool
  | [] => false
  | [c] => c = backslash
  | c :: d :: rest =>
    if c = backslash ∧ (d = dquote ∨ d = dollar ∨ d = backslash) then dqOpenBackslash rest
    else dqOpenBackslash (d :: rest)

/-! ## A concrete shell process for the evaluations -/

/-- A shell process with its three standard streams open and room for sixteen
descriptors. -/
def sys0 : Sys :=
  { fds := fun fd => if fd < 3 then some (OpenFile.inherited fd) else none,
    limit := 16, opens := [], pipes := 0, written := [] }

/-- An environment in which every call succeeds and `PATH` holds nothing. -/
def env0 : Env :=
  { openOk := fun _ _ _ => true, pipeOk := fun _ => true, fork := fun i => some (100 + i),
    getcwd := some "/", home := some "/root", chdirOk := fun _ => true,
    which := fun _ => none }

/-- The environment `env0` with `fork` failing at the first stage. -/
def envForkFails : Env := { env0 with fork := fun _ => none }

/-- The environment `env0` with the second call of `pipe` failing. -/
def envPipeFails : Env := { env0 with pipeOk := fun i => decide (i = 0) }

/-- A shell process started with descriptor 1 closed (`mash >&-`). -/
def sysNoStdout : Sys :=
  { fds := fun fd => if fd = 0 ∨ fd = 2 then some (OpenFile.inherited fd) else none,
    limit := 16, opens := [], pipes := 0, written := [] }

/-- Put the token `t` in front of the first stage. -/
def consHead (t : String) : List (List String) → List (List String)
  | [] => [[t]]
  | seg :: segs => (t :: seg) :: segs

/-- Put the tokens `pre` in front of the first stage. -/
def prependHead (pre : List String) : List (List String) → List (List String)
  | [] => [pre]
  | seg :: segs => (pre ++ seg) :: segs

/-- The tokens that play the part `r`, stage by stage, in the words of the spec:
a token that is a pipe closes the stage and opens the next one. -/
def stageTokens (r : Role) : List (String × Role) → List (List String)
  | [] => [[]]
  | (t, q) :: rest =>
    if q = Role.pipe then [] :: stageTokens r rest
    else if q = r then consHead t (stageTokens r rest)
    else stageTokens r rest

/-- The literal arguments of every stage. -/
def stageWords (tokens : List String) : List (List String) :=
  stageTokens Role.word (tokens.zip (roles tokens))

/-- The redirection operators (those that took an operand) of every stage. -/
def stageRedirects (tokens : List String) : List (List String) :=
  stageTokens Role.redirect (tokens.zip (roles tokens))

/-- The append flag that the redirection operators `ops` of one stage decide: the
last operator for stdout or stderr wins, `>>`, `1>>` and `2>>` give true, and no
such operator gives false. -/
def appendOf (ops : List String) : Bool :=
  match (ops.filter (fun op => op != "<")).getLast? with
  | some op => op = ">>" || op = "1>>" || op = "2>>"
  | none => false

/-- Whether a part is one of the operators: pipe, redirection, `2>&1`, `&`. -/
def Role.isOperator (r : Role) : Bool :=
  r = Role.pipe || r = Role.redirect || r = Role.merge || r = Role.background

/-! ## The steps of apply_redirects by name -/

/-- The state in which the redirections of `apply_redirects` start: the state of
the call, after the three `dup` calls when a backup is asked for. -/
def redirectStart (backup : Option FdBackup) (s : Sys) : Sys :=
  match backup with
  | none => s
  | some _ => (save_fds s).2

/-- The flags of mash.c:221 and mash.c:234. -/
def openFlags (cmd : Command) : OFlag :=
  if cmd.append_bool then OFlag.append else OFlag.trunc

/-- The block for stdin of `apply_redirects` (mash.c:209-218). -/
def afterStdin (env : Env) (cmd : Command) (backup : Option FdBackup) (s : Sys) : Bool × Sys :=
  redirectOpt env (redirectStart backup s) "open stdin" cmd.stdin_file OFlag.rdonly 0

/-- The block for stdout of `apply_redirects` (mash.c:220-231), after the one for
stdin. -/
def afterStdout (env : Env) (cmd : Command) (backup : Option FdBackup) (s : Sys) : Bool × Sys :=
  redirectOpt env (afterStdin env cmd backup s).2 "open stdout" cmd.stdout_file (openFlags cmd) 1

/-- The block for stderr of `apply_redirects` (mash.c:233-243), after the one for
stdout. -/
def afterStderr (env : Env) (cmd : Command) (backup : Option FdBackup) (s : Sys) : Bool × Sys :=
  redirectOpt env (afterStdout env cmd backup s).2 "open stderr" cmd.stderr_file (openFlags cmd) 2

/-- The call of `open` for one file name: none for a `NULL` name. -/
def openEntry (file : Option String) (flags : OFlag) : List (String × OFlag) :=
  match file with
  | none => []
  | some p => [(p, flags)]

/-- The calls of `open` that the spec lets `apply_redirects` make when none
fails, in order: stdin read-only, then stdout and stderr with the flag that
`append` chooses. -/
def plannedOpens (cmd : Command) : List (String × OFlag) :=
  openEntry cmd.stdin_file OFlag.rdonly ++
    openEntry cmd.stdout_file (if cmd.append_bool then OFlag.append else OFlag.trunc) ++
    openEntry cmd.stderr_file (if cmd.append_bool then OFlag.append else OFlag.trunc)

/-- An environment in which the file system refuses every `open`. -/
def envNoOpen : Env := { env0 with openOk := fun _ _ _ => false }

/-- An environment in which the file system refuses the second `open`. -/
def envSecondOpenFails : Env := { env0 with openOk := fun n _ _ => decide (n = 0) }

/-- Set the flag `merge_err` on the first stage of a chain. -/
def setHeadMerge : List Command → List Command
  | [] => []
  | c :: rest => { c with merge_err := true } :: rest

/-- The fields that a redirection operator `t` with the operand `f` sets
(mash.c:149-177). -/
def applyRedirect (t f : String) (cur : Command) : Command :=
  if t = ">" ∨ t = "1>" then { cur with stdout_file := some f, append_bool := false }
  else if t = ">>" ∨ t = "1>>" then { cur with stdout_file := some f, append_bool := true }
  else if t = "2>" then { cur with stderr_file := some f, append_bool := false }
  else if t = "2>>" then { cur with stderr_file := some f, append_bool := true }
  else if t = "&>" ∨ t = ">&" then
    { cur with stdout_file := some f, stderr_file := some f, append_bool := false }
  else if t = "<" then { cur with stdin_file := some f }
  else cur

/-! ## Comparison definitions for tokenize -/

/-- One iteration of the word loop at the character `c` (mash.c:67-91): the word
and the input after it. -/
def wordStep (c : Char) (rest word : List Char) : List Char × List Char :=
  if c = squote ∨ c = dquote then
    ((quoteLoop c rest word).1, skipClosing c (quoteLoop c rest word).2)
  else
    match rest with
    | d :: rest1 =>
      if c = backslash ∧ word.length < SIZE - 1 then (word ++ [d], rest1)
      else (word ++ [c], d :: rest1)
    | [] => (word ++ [c], [])

/-- The outer loop of `tokenize` with the test `argc < TOKENS` left out: the
tokenizer without the count bound. -/
def tokenLoopUnbounded : Nat → List Char → List String → List String
  | 0, _, args => args
  | fuel + 1, inp, args =>
    if inp ≠ [] then
      let inp1 := inp.dropWhile isspace
      if inp1 = [] then args
      else
        let r := wordLoop inp1.length inp1 [] false
        tokenLoopUnbounded fuel r.2 (args ++ [String.mk r.1])
    else args

/-- The tokens of the whole line, however many. -/
def tokenizeUnbounded (input : List Char) : List String :=
  tokenLoopUnbounded input.length input []

/-- The tokens joined with single spaces. -/
def joinSpace : List String → List Char
  | [] => []
  | [t] => t.data
  | t :: u :: rest => t.data ++ ' ' :: joinSpace (u :: rest)

/-- A line laid out as words, each with the whitespace in front of it. -/
def layout : List (List Char × List Char) → List Char
  | [] => []
  | p :: rest => p.1 ++ p.2 ++ layout rest

/-- A token that needs no quoting: not empty, and only plain characters. -/
def isPlainWord (w : List Char) : Bool :=
  !w.isEmpty && w.all isPlain



/-- A line of `n` words `a`, each followed by a space. -/
def wordsLine : Nat → List Char
  | 0 => []
  | n + 1 => 'a' :: ' ' :: wordsLine n

/-- The layout of `joinSpace`: nothing before the first token, one space before
each of the others. -/
def spaceItems : List String → List (List Char × List Char)
  | [] => []
  | t :: rest => ([], t.data) :: rest.map (fun u => ([' '], u.data))

/-- The number of the stage in which the token at index `i` stands: the number
of tokens in front of it that act as a pipe. -/
def stageIndex (tokens : List String) (i : Nat) : Nat :=
  ((roles tokens).take i).countP (fun r => r = Role.pipe)

/-- What a standard stream refers to after its block of `apply_redirects` went
through, in the words of the spec: the file just opened when a file name is set
(`serial` is the number of calls of `open` before it), and what it referred to
before otherwise. -/
def streamAfter (file : Option String) (flags : OFlag) (serial : Nat)
    (before : Option OpenFile) : Option OpenFile :=
  match file with
  | some p => some (OpenFile.file p flags serial)
  | none => before

/-- A shell process started with descriptor 0 closed (`mash <&-`). -/
def sysNoStdin : Sys :=
  { fds := fun fd => if fd = 1 ∨ fd = 2 then some (OpenFile.inherited fd) else none,
    limit := 16, opens := [], pipes := 0, written := [] }

/-- A shell process started with descriptor 2 closed (`mash 2>&-`). -/
def sysNoStderr : Sys :=
  { fds := fun fd => if fd = 0 ∨ fd = 1 then some (OpenFile.inherited fd) else none,
    limit := 16, opens := [], pipes := 0, written := [] }

/-! ## input_completion (mash.c:422-506) -/

theorem isOperator_false_iff (t : String) :
    isOperator t = false ↔
      t ≠ "|" ∧ t ≠ ">" ∧ t ≠ "1>" ∧ t ≠ ">>" ∧ t ≠ "1>>" ∧ t ≠ "2>" ∧ t ≠ "2>>" ∧
        t ≠ "&>" ∧ t ≠ ">&" ∧ t ≠ "<" ∧ t ≠ "2>&1" ∧ t ≠ "&" := by
  simp [isOperator, isRedirect]
  tauto

/-- A plain word is copied to `argv_buf`, whatever follows it. -/
theorem parseLoop_word (t : String) (rest : List String) (cur : Command)
    (h : isOperator t = false) :
    parseLoop (t :: rest) cur = parseLoop rest { cur with argv := cur.argv ++ [t] } := by
  obtain ⟨h1, h2, h3, h4, h5, h6, h7, h8, h9, h10, h11, h12⟩ := (isOperator_false_iff t).1 h
  cases rest with
  | nil => simp [parseLoop, h11, h12]
  | cons f rest => simp [parseLoop, h1, h2, h3, h4, h5, h6, h7, h8, h9, h10, h11]

theorem parseLoop_cons_cons (t f : String) (rest : List String) (current : Command) :
    parseLoop (t :: f :: rest) current =
      if t = "|" then current :: parseLoop (f :: rest) {}
      else if t = ">" ∨ t = "1>" then
        parseLoop rest { current with stdout_file := some f, append_bool := false }
      else if t = ">>" ∨ t = "1>>" then
        parseLoop rest { current with stdout_file := some f, append_bool := true }
      else if t = "2>" then
        parseLoop rest { current with stderr_file := some f, append_bool := false }
      else if t = "2>>" then
        parseLoop rest { current with stderr_file := some f, append_bool := true }
      else if t = "&>" ∨ t = ">&" then
        parseLoop rest
          { current with stdout_file := some f, stderr_file := some f, append_bool := false }
      else if t = "<" then
        parseLoop rest { current with stdin_file := some f }
      else if t = "2>&1" then
        parseLoop (f :: rest) { current with merge_err := true }
      else
        parseLoop (f :: rest) { current with argv := current.argv ++ [t] } := by
  rw [parseLoop]

theorem parseLoop_pipe_append (n : Nat) :
    ∀ (A : List String) (cur : Command) (B : List String), A.length ≤ n → B ≠ [] →
      (∀ t, A.getLast? = some t → isOperator t = false) →
      parseLoop (A ++ "|" :: B) cur = parseLoop A cur ++ parseLoop B {} := by
  induction n with
  | zero =>
    intro A cur B hn hB _
    have : A = [] := List.length_eq_zero.1 (Nat.le_zero.1 hn)
    subst this
    obtain ⟨b, B', rfl⟩ := List.exists_cons_of_ne_nil hB
    simp [parseLoop]
  | succ n ih =>
    intro A cur B hn hB hA
    match A, hn, hA with
    | [], _, _ =>
      obtain ⟨b, B', rfl⟩ := List.exists_cons_of_ne_nil hB
      simp [parseLoop]
    | [t], _, hA =>
      have ht : isOperator t = false := hA t rfl
      have h0 := ih [] { cur with argv := cur.argv ++ [t] } B (Nat.zero_le _) hB (by simp)
      simp only [List.nil_append] at h0
      rw [List.singleton_append, parseLoop_word _ _ _ ht, h0, parseLoop_word _ _ _ ht]
    | t :: f :: rest, hn, hA =>
      have hlen1 : (f :: rest).length ≤ n := by simpa using hn
      have hlen2 : rest.length ≤ n := by
        have : rest.length + 1 ≤ n := by simpa using hn
        omega
      have hA1 : ∀ u, (f :: rest).getLast? = some u → isOperator u = false := by
        intro u hu
        exact hA u (by rw [List.getLast?_cons_cons]; exact hu)
      have hA2 : ∀ u, rest.getLast? = some u → isOperator u = false := by
        intro u hu
        cases rest with
        | nil => simp at hu
        | cons r rest => exact hA1 u (by rw [List.getLast?_cons_cons]; exact hu)
      have e1 := fun c => ih (f :: rest) c B hlen1 hB hA1
      have e2 := fun c => ih rest c B hlen2 hB hA2
      simp only [List.cons_append] at e1 ⊢
      rw [parseLoop_cons_cons, parseLoop_cons_cons]
      split_ifs <;> simp [e1, e2]

theorem roles_cons_cons (t f : String) (rest : List String) :
    roles (t :: f :: rest) =
      if t = "|" then Role.pipe :: roles (f :: rest)
      else if isRedirect t then Role.redirect :: Role.operand :: roles rest
      else if t = "2>&1" then Role.merge :: roles (f :: rest)
      else Role.word :: roles (f :: rest) := by
  rw [roles]

theorem parseLoop_words (ws : List String) (hws : ∀ w ∈ ws, isOperator w = false) :
    ∀ (tail : List String) (cur : Command),
      parseLoop (ws ++ tail) cur = parseLoop tail { cur with argv := cur.argv ++ ws } := by
  induction ws with
  | nil => intro tail cur; simp
  | cons w ws ih =>
    intro tail cur
    have hw : isOperator w = false := hws w (List.mem_cons_self _ _)
    rw [List.cons_append, parseLoop_word _ _ _ hw,
      ih (fun x hx => hws x (List.mem_cons_of_mem _ hx))]
    simp

theorem parseLoop_bground (n : Nat) :
    ∀ (toks : List String) (cur : Command), toks.length ≤ n → cur.bground_bool = false →
      toks.getLast? ≠ some "&" → ∀ c ∈ parseLoop toks cur, c.bground_bool = false := by
  induction n with
  | zero =>
    intro toks cur hn hc _ c hmem
    have : toks = [] := List.length_eq_zero.1 (Nat.le_zero.1 hn)
    subst this
    simp [parseLoop] at hmem
    subst hmem; exact hc
  | succ n ih =>
    intro toks cur hn hc hl c hmem
    match toks, hn, hl, hmem with
    | [], _, _, hmem =>
      simp [parseLoop] at hmem
      subst hmem; exact hc
    | [t], _, hl, hmem =>
      have ht : t ≠ "&" := by simpa using hl
      simp only [parseLoop, ht, if_false] at hmem
      split_ifs at hmem <;> simp at hmem <;> subst hmem <;> exact hc
    | t :: f :: rest, hn, hl, hmem =>
      have hlen1 : (f :: rest).length ≤ n := by simpa using hn
      have hlen2 : rest.length ≤ n := by
        have : rest.length + 1 ≤ n := by simpa using hn
        omega
      have hl1 : (f :: rest).getLast? ≠ some "&" := by
        rw [List.getLast?_cons_cons] at hl; exact hl
      have hl2 : rest.getLast? ≠ some "&" := by
        cases rest with
        | nil => simp
        | cons r rest => rw [List.getLast?_cons_cons] at hl1; exact hl1
      have e1 := fun d hm hd => ih (f :: rest) d hlen1 hd hl1 c hm
      have e2 := fun d hm hd => ih rest d hlen2 hd hl2 c hm
      rw [parseLoop_cons_cons] at hmem
      split_ifs at hmem
      · rcases List.mem_cons.1 hmem with h | h
        · subst h; exact hc
        · exact e1 _ h rfl
      all_goals first
        | exact e2 _ hmem hc
        | exact e1 _ hmem hc


theorem literalWords_cons_cons (t f : String) (rest : List String) :
    literalWords (t :: f :: rest) =
      if t = "|" then literalWords (f :: rest)
      else if isRedirect t then literalWords rest
      else if t = "2>&1" then literalWords (f :: rest)
      else t :: literalWords (f :: rest) := by
  unfold literalWords
  rw [roles_cons_cons]
  split_ifs <;> simp [List.filter_cons]

theorem allArgv_parseLoop (n : Nat) :
    ∀ (toks : List String) (cur : Command), toks.length ≤ n →
      allArgv (parseLoop toks cur) = cur.argv ++ literalWords toks := by
  induction n with
  | zero =>
    intro toks cur hn
    have : toks = [] := List.length_eq_zero.1 (Nat.le_zero.1 hn)
    subst this
    simp [parseLoop, allArgv, literalWords, roles]
  | succ n ih =>
    intro toks cur hn
    match toks, hn with
    | [], _ => simp [parseLoop, allArgv, literalWords, roles]
    | [t], _ =>
      simp only [parseLoop, literalWords, roles]
      split_ifs <;> simp [allArgv, List.filter_cons]
    | t :: f :: rest, hn =>
      have hlen1 : (f :: rest).length ≤ n := by simpa using hn
      have hlen2 : rest.length ≤ n := by
        have : rest.length + 1 ≤ n := by simpa using hn
        omega
      have e1 := fun d => ih (f :: rest) d hlen1
      have e2 := fun d => ih rest d hlen2
      rw [parseLoop_cons_cons, literalWords_cons_cons]
      split_ifs <;> simp_all [allArgv, isRedirect]

theorem roles_amp (n : Nat) :
    ∀ (toks : List String), toks.length ≤ n → toks.getLast? ≠ some "&" →
      ∀ i : Nat, toks[i]? = some "&" →
        (roles toks)[i]? = some Role.operand ∨ (roles toks)[i]? = some Role.word := by
  induction n with
  | zero =>
    intro toks hn _ i hi
    have : toks = [] := List.length_eq_zero.1 (Nat.le_zero.1 hn)
    subst this
    simp at hi
  | succ n ih =>
    intro toks hn hl i hi
    match toks, hn, hl, hi with
    | [], _, _, hi => simp at hi
    | [t], _, hl, hi =>
      have ht : t ≠ "&" := by simpa using hl
      cases i with
      | zero => simp at hi; exact absurd hi ht
      | succ i => simp at hi
    | t :: f :: rest, hn, hl, hi =>
      have hlen1 : (f :: rest).length ≤ n := by simpa using hn
      have hlen2 : rest.length ≤ n := by
        have : rest.length + 1 ≤ n := by simpa using hn
        omega
      have hl1 : (f :: rest).getLast? ≠ some "&" := by
        rw [List.getLast?_cons_cons] at hl; exact hl
      have hl2 : rest.getLast? ≠ some "&" := by
        cases rest with
        | nil => simp
        | cons r rest => rw [List.getLast?_cons_cons] at hl1; exact hl1
      rw [roles_cons_cons]
      cases i with
      | zero =>
        have ht : t = "&" := by simpa using hi
        subst ht
        right
        simp [isRedirect]
      | succ i =>
        have hi1 : (f :: rest)[i]? = some "&" := by simpa using hi
        split_ifs
        · simpa using ih (f :: rest) hlen1 hl1 i hi1
        · cases i with
          | zero => left; simp
          | succ i =>
            have hi2 : rest[i]? = some "&" := by simpa using hi1
            simpa using ih rest hlen2 hl2 i hi2
        · simpa using ih (f :: rest) hlen1 hl1 i hi1
        · simpa using ih (f :: rest) hlen1 hl1 i hi1

/-- C2: `parse_command` splits the chain at a pipe.  For all token lists `A` and
`B` with `B` non-empty and the last token of `A` (if any) not an operator token,
the stages of `A ++ ["|"] ++ B` are the stages of `A` followed by the stages of
`B`, the latter parsed from default fields; and the example of the spec parses
to the two stages it names. -/
theorem parse_command_pipe_split :
    (∀ A B : List String, B ≠ [] → endsWithOperator A = false →
      parse_command (A ++ ["|"] ++ B) = parse_command A ++ parse_command B) ∧
    parse_command ["cat", "<", "in.txt", "|", "sort", ">", "out.txt"] =
      [{ argv := ["cat"], stdin_file := some "in.txt" },
       { argv := ["sort"], stdout_file := some "out.txt", append_bool := false }] := by
  refine ⟨?_, by decide⟩
  intro A B hB hA
  have h := parseLoop_pipe_append A.length A {} B (Nat.le_refl _) hB (by
    intro t ht
    simpa [endsWithOperator, ht] using hA)
  simpa [parse_command] using h

/-- C2 at the example of the spec: `cat < in.txt` piped into `sort > out.txt`. -/
theorem parse_command_pipe_split_witness :
    parse_command (["cat", "<", "in.txt"] ++ ["|"] ++ ["sort", ">", "out.txt"]) =
      parse_command ["cat", "<", "in.txt"] ++ parse_command ["sort", ">", "out.txt"] :=
  parse_command_pipe_split.1 ["cat", "<", "in.txt"] ["sort", ">", "out.txt"]
    (by decide) (by decide)

/-- C3: `&` is the background marker only as the last token.  When the last
token is not `&`, every stage has `background = false`, the arguments of the
stages are exactly the tokens the spec makes literal arguments, and every `&`
that is not a redirection operand is one of them; for plain words `ws`,
`ws ++ ["&"]` is one stage with `argv = ws` and `background = true`; and the two
examples of the spec. -/
theorem parse_command_background :
    (∀ toks : List String, toks.getLast? ≠ some "&" →
      (∀ c ∈ parse_command toks, c.bground_bool = false) ∧
      allArgv (parse_command toks) = literalWords toks ∧
      (∀ i : Nat, toks[i]? = some "&" → (roles toks)[i]? ≠ some Role.operand →
        (roles toks)[i]? = some Role.word)) ∧
    (∀ ws : List String, (∀ w ∈ ws, isOperator w = false) →
      parse_command (ws ++ ["&"]) =
        [{ argv := ws, stdout_file := none, stdin_file := none, stderr_file := none,
           append_bool := false, bground_bool := true, merge_err := false }]) ∧
    parse_command ["ls", "&"] = [{ argv := ["ls"], bground_bool := true }] ∧
    parse_command ["ls", "&", "-l"] =
      [{ argv := ["ls", "&", "-l"], bground_bool := false }] := by
  refine ⟨?_, ?_, by decide, by decide⟩
  · intro toks hl
    refine ⟨?_, ?_, ?_⟩
    · exact parseLoop_bground toks.length toks {} (Nat.le_refl _) rfl hl
    · have h := allArgv_parseLoop toks.length toks {} (Nat.le_refl _)
      simpa [parse_command] using h
    · intro i hi hno
      rcases roles_amp toks.length toks (Nat.le_refl _) hl i hi with h | h
      · exact absurd h hno
      · exact h
  · intro ws hws
    have h := parseLoop_words ws hws ["&"] {}
    simp only [parse_command, h]
    simp [parseLoop]

/-- C3 at the tokens `ls & -l` and at the words `ls -l`. -/
theorem parse_command_background_witness :
    (∀ c ∈ parse_command ["ls", "&", "-l"], c.bground_bool = false) ∧
    parse_command (["ls", "-l"] ++ ["&"]) =
      [{ argv := ["ls", "-l"], bground_bool := true }] :=
  ⟨(parse_command_background.1 ["ls", "&", "-l"] (by decide)).1,
   parse_command_background.2.1 ["ls", "-l"] (by decide)⟩

/-- C4: an operator without operand degrades to a word.  For plain words `ws`
and `op` among `|`, `>`, `1>`, `>>`, `1>>`, `2>`, `2>>`, `&>`, `>&`, `<`, the
tokens `ws ++ [op]` parse to one stage with `argv = ws ++ [op]`, no redirection
and every flag false. -/
theorem parse_command_trailing_operator (ws : List String) (op : String)
    (hws : ∀ w ∈ ws, isOperator w = false)
    (hop : op ∈ ["|", ">", "1>", ">>", "1>>", "2>", "2>>", "&>", ">&", "<"]) :
    parse_command (ws ++ [op]) =
      [{ argv := ws ++ [op], stdout_file := none, stdin_file := none, stderr_file := none,
         append_bool := false, bground_bool := false, merge_err := false }] := by
  have h := parseLoop_words ws hws [op] {}
  simp only [parse_command, h]
  simp only [List.mem_cons, List.mem_singleton, List.not_mem_nil, or_false] at hop
  rcases hop with rfl | rfl | rfl | rfl | rfl | rfl | rfl | rfl | rfl | rfl <;>
    simp [parseLoop]

/-- C4 at the tokens `echo hi >`. -/
theorem parse_command_trailing_operator_witness :
    parse_command (["echo", "hi"] ++ [">"]) = [{ argv := ["echo", "hi"] ++ [">"] }] :=
  parse_command_trailing_operator ["echo", "hi"] ">" (by decide) (by decide)

/-! ## Lemmas on tokenize -/

theorem quoteLoop_cons_cons (quote c d : Char) (rest word : List Char) :
    quoteLoop quote (c :: d :: rest) word =
      if c ≠ quote ∧ word.length < SIZE - 1 then
        if quote = dquote ∧ c = backslash ∧ (d = dquote ∨ d = dollar ∨ d = backslash) then
          quoteLoop quote rest (word ++ [d])
        else
          quoteLoop quote (d :: rest) (word ++ [c])
      else (word, c :: d :: rest) := by
  rw [quoteLoop]

theorem backslash_ne_dquote : backslash ≠ dquote := by decide

/-- The quoted-region loop on a well-escaped body followed by the closing quote:
it stops at the closing quote with the unescaped body appended to the word. -/
theorem quoteLoop_dquote_body (n : Nat) :
    ∀ (body word : List Char), body.length ≤ n → word.length + body.length < SIZE - 1 →
      dqEscaped body = true → dqOpenBackslash body = false →
      quoteLoop dquote (body ++ [dquote]) word = (word ++ dqUnescape body, [dquote]) := by
  induction n with
  | zero =>
    intro body word hn _ _ _
    have : body = [] := List.length_eq_zero.1 (Nat.le_zero.1 hn)
    subst this
    simp [quoteLoop, dqUnescape]
  | succ n ih =>
    intro body word hn hlen hesc hopen
    match body, hn, hlen, hesc, hopen with
    | [], _, _, _, _ => simp [quoteLoop, dqUnescape]
    | [c], _, hlen, hesc, hopen =>
      have hc1 : c ≠ dquote := by simpa [dqEscaped] using hesc
      have hc2 : c ≠ backslash := by simpa [dqOpenBackslash] using hopen
      have hw : word.length < SIZE - 1 := by
        simp only [List.length_singleton] at hlen; omega
      simp [quoteLoop_cons_cons, quoteLoop, dqUnescape, hc1, hc2, hw]
    | c :: d :: rest, hn, hlen, hesc, hopen =>
      have hlen1 : (d :: rest).length ≤ n := by simpa using hn
      have hlen2 : rest.length ≤ n := by
        have : rest.length + 1 ≤ n := by simpa using hn
        omega
      have hw : word.length < SIZE - 1 := by
        simp only [List.length_cons] at hlen; omega
      simp only [List.cons_append]
      rw [quoteLoop_cons_cons]
      by_cases hcd : c = backslash ∧ (d = dquote ∨ d = dollar ∨ d = backslash)
      · have hc1 : c ≠ dquote := by rw [hcd.1]; exact backslash_ne_dquote
        have hesc1 : dqEscaped rest = true := by simpa [dqEscaped, hcd] using hesc
        have hopen1 : dqOpenBackslash rest = false := by
          simpa [dqOpenBackslash, hcd] using hopen
        have := ih rest (word ++ [d]) hlen2 (by
          simp only [List.length_append, List.length_singleton, List.length_cons,
            List.length_nil] at hlen ⊢
          omega) hesc1 hopen1
        rw [if_pos ⟨hc1, hw⟩, if_pos ⟨rfl, hcd⟩, this]
        simp [dqUnescape, hcd]
      · have hesc0 : c ≠ dquote ∧ dqEscaped (d :: rest) = true := by
          simpa [dqEscaped, hcd] using hesc
        have hopen1 : dqOpenBackslash (d :: rest) = false := by
          simpa [dqOpenBackslash, hcd] using hopen
        have := ih (d :: rest) (word ++ [c]) hlen1 (by
          simp only [List.length_append, List.length_singleton, List.length_cons,
            List.length_nil] at hlen ⊢
          omega) hesc0.2 hopen1
        rw [if_pos ⟨hesc0.1, hw⟩, if_neg (fun h => hcd h.2)]
        simp only [List.cons_append] at this
        rw [this]
        simp [dqUnescape, hcd]

theorem wordLoop_succ_cons (fuel : Nat) (c : Char) (rest word : List Char) (overflow : Bool) :
    wordLoop (fuel + 1) (c :: rest) word overflow =
      if isspace c then (word, c :: rest)
      else if SIZE - 1 ≤ word.length then (word, c :: rest)
      else
        let step : List Char × List Char :=
          if c = squote ∨ c = dquote then
            let r := quoteLoop c rest word
            (r.1, skipClosing c r.2)
          else
            match rest with
            | d :: rest1 =>
              if c = backslash ∧ word.length < SIZE - 1 then (word ++ [d], rest1)
              else (word ++ [c], d :: rest1)
            | [] => (word ++ [c], [])
        if overflow then
          wordLoop fuel (step.2.dropWhile (fun x => !isspace x)) (setWordPos step.1) overflow
        else
          wordLoop fuel step.2 step.1 overflow := by
  rfl

theorem wordLoop_nil (fuel : Nat) (word : List Char) (overflow : Bool) :
    wordLoop fuel [] word overflow = (word, []) := by
  cases fuel <;> simp [wordLoop]

theorem tokenLoop_nil (fuel : Nat) (args : List String) : tokenLoop fuel [] args = args := by
  cases fuel <;> simp [tokenLoop]

/-- One iteration of the outer loop at a character that is not whitespace. -/
theorem tokenLoop_word (fuel : Nat) (c : Char) (tl : List Char) (args : List String)
    (hc : isspace c = false) (hargs : args.length < TOKENS) :
    tokenLoop (fuel + 1) (c :: tl) args =
      tokenLoop fuel (wordLoop (c :: tl).length (c :: tl) [] false).2
        (args ++ [String.mk (wordLoop (c :: tl).length (c :: tl) [] false).1]) := by
  rw [tokenLoop]
  simp [hargs, List.dropWhile, hc]

/-- One iteration of the word loop at a plain character. -/
theorem wordLoop_plain_step (fuel : Nat) (p : Char) (tl word : List Char)
    (hp : isPlain p = true) (hw : word.length < SIZE - 1) :
    wordLoop (fuel + 1) (p :: tl) word false = wordLoop fuel tl (word ++ [p]) false := by
  simp only [isPlain, Bool.and_eq_true, bne_iff_ne, ne_eq, Bool.not_eq_true'] at hp
  obtain ⟨⟨⟨h1, h2⟩, h3⟩, h4⟩ := hp
  have hw2 : ¬ (SIZE - 1 ≤ word.length) := by omega
  rw [wordLoop_succ_cons]
  cases tl <;> simp [h1, h2, h3, h4, hw2]

/-- The word loop over a run of plain characters that fits the buffer. -/
theorem wordLoop_plain (ps : List Char) (hps : ∀ p ∈ ps, isPlain p = true) :
    ∀ (fuel : Nat) (tl word : List Char), word.length + ps.length ≤ SIZE - 1 →
      wordLoop (fuel + ps.length) (ps ++ tl) word false = wordLoop fuel tl (word ++ ps) false := by
  induction ps with
  | nil => intro fuel tl word _; simp
  | cons p ps ih =>
    intro fuel tl word hlen
    simp only [List.length_cons] at hlen
    have h := ih (fun x hx => hps x (List.mem_cons_of_mem _ hx)) fuel tl (word ++ [p]) (by
      simp only [List.length_append, List.length_singleton]; omega)
    have hstep := wordLoop_plain_step (fuel + ps.length) p (ps ++ tl) word
      (hps p (List.mem_cons_self _ _)) (by omega)
    simp only [List.length_cons, List.cons_append]
    rw [← Nat.add_assoc, hstep, h]
    simp

/-- C1, as stated, fails for a body that ends in a backslash: in the line
quote, backslash, quote the backslash escapes the closing quote, and the token
is a double quote instead of the backslash. -/
theorem tokenize_dquote_open_backslash :
    dqEscaped [backslash] = true ∧ [backslash].length < 4095 ∧
      tokenize (dquote :: [backslash] ++ [dquote]) = [String.mk [dquote]] ∧
      tokenize (dquote :: [backslash] ++ [dquote]) ≠ [String.mk (dqUnescape [backslash])] := by
  decide

/-- C1, amended: for every body of fewer than 4095 characters in which every
double quote is preceded by an escaping backslash and which does not end in an
unescaped backslash, the line quote, body, quote gives exactly one token, the
body with backslash-quote, backslash-dollar and backslash-backslash replaced by
their second character; and the example of the spec gives `echo`, `a b`, `c"d`. -/
theorem tokenize_dquote :
    (∀ body : List Char, body.length < 4095 → dqEscaped body = true →
      dqOpenBackslash body = false →
      tokenize (dquote :: body ++ [dquote]) = [String.mk (dqUnescape body)]) ∧
    tokenize ("echo ".toList ++ [squote] ++ "a b".toList ++ [squote, ' '] ++
        [dquote, 'c', backslash, dquote, 'd', dquote]) =
      ["echo", "a b", String.mk ['c', dquote, 'd']] := by
  refine ⟨?_, by decide⟩
  intro body hlen hesc hopen
  have hq := quoteLoop_dquote_body body.length body [] (Nat.le_refl _)
    (by simp only [List.length_nil, SIZE]; omega) hesc hopen
  have hsp : isspace dquote = false := by decide
  have hw : wordLoop (dquote :: body ++ [dquote]).length (dquote :: body ++ [dquote]) [] false =
      (dqUnescape body, []) := by
    simp only [List.cons_append, List.length_cons]
    rw [wordLoop_succ_cons]
    simp [hsp, hq, skipClosing, wordLoop_nil, SIZE]
  unfold tokenize
  simp only [List.cons_append, List.length_cons] at hw ⊢
  rw [tokenLoop_word _ _ _ _ hsp (by simp [TOKENS])]
  simp only [List.length_cons]
  rw [hw]
  simp [tokenLoop_nil]

/-- C1, amended, at the body `c`, backslash, quote, `d` of the spec. -/
theorem tokenize_dquote_witness :
    tokenize (dquote :: ['c', backslash, dquote, 'd'] ++ [dquote]) =
      [String.mk (dqUnescape ['c', backslash, dquote, 'd'])] :=
  tokenize_dquote.1 ['c', backslash, dquote, 'd'] (by decide) (by decide) (by decide)

/-- Every line that is not skipped at mash.c:526 and whose head descriptor has an
empty `argv` reaches the builtin lookup with `argv[0] == NULL`. -/
theorem mainBody_nullArgv0 (env : Env) (input : List Char) (s : Sys) (cmd : Command)
    (next : List Command) (h1 : input ≠ []) (h2 : input ≠ [newline])
    (hparse : parse_command
      (tokenize (if input.getLast? = some newline then input.dropLast else input)) =
        cmd :: next)
    (hargv : cmd.argv = []) :
    mainBody env input s = (Action.nullArgv0, s) := by
  unfold mainBody
  simp only [h1, h2, or_self, if_false]
  rw [hparse]
  simp only [hargv]

/-- C6, at the line of one space and at the line `> f`: the head descriptor has
an empty `argv` and the loop body goes on to `strcmp(cmd->argv[0], *b)` with
`argv[0] == NULL`, instead of going to the next prompt. -/
theorem mainBody_empty_argv :
    tokenize [' '] = [] ∧
    parse_command (tokenize "> f".toList) = [{ argv := [], stdout_file := some "f" }] ∧
    (∀ (env : Env) (s : Sys), (mainBody env [' '] s).1 = Action.nullArgv0) ∧
    (∀ (env : Env) (s : Sys), (mainBody env "> f".toList s).1 = Action.nullArgv0) := by
  refine ⟨by decide, by decide, ?_, ?_⟩
  · intro env s; rfl
  · intro env s; rfl

/-- C8, at the line `type echo > f.txt`: the parser records the target `f.txt`,
but the branch `type` of `main` prints to the stream the shell has on descriptor
1 and `open` is never called; the sibling `echo hi > f.txt` goes through
`run_builtin` and writes to the file. -/
theorem mainBody_type_redirect :
    parse_command (tokenize "type echo > f.txt".toList) =
      [{ argv := ["type", "echo"], stdout_file := some "f.txt" }] ∧
    (mainBody env0 "type echo > f.txt".toList sys0).1 = Action.builtin "type" false ∧
    (mainBody env0 "type echo > f.txt".toList sys0).2.written =
      [(OpenFile.inherited 1, "echo is a shell builtin\n")] ∧
    (mainBody env0 "type echo > f.txt".toList sys0).2.opens = [] ∧
    (mainBody env0 "echo hi > f.txt".toList sys0).1 = Action.builtin "echo" true ∧
    (mainBody env0 "echo hi > f.txt".toList sys0).2.written =
      [(OpenFile.file "f.txt" OFlag.trunc 0, "hi"), (OpenFile.file "f.txt" OFlag.trunc 0, "\n")] ∧
    (mainBody env0 "echo hi > f.txt".toList sys0).2.opens = [("f.txt", OFlag.trunc)] := by
  decide

/-- The head of a chain of two or more stages never carries the background
flag: the parser sets it on the stage that is current at the final `&`. -/
theorem parseLoop_head_bground (n : Nat) :
    ∀ (toks : List String) (cur : Command), toks.length ≤ n →
      2 ≤ (parseLoop toks cur).length →
      ∃ first next, parseLoop toks cur = first :: next ∧
        first.bground_bool = cur.bground_bool := by
  induction n with
  | zero =>
    intro toks cur hn h2
    have : toks = [] := List.length_eq_zero.1 (Nat.le_zero.1 hn)
    subst this
    simp [parseLoop] at h2
  | succ n ih =>
    intro toks cur hn h2
    match toks, hn, h2 with
    | [], _, h2 => simp [parseLoop] at h2
    | [t], _, h2 =>
      simp only [parseLoop] at h2
      split_ifs at h2 <;> simp at h2
    | t :: f :: rest, hn, h2 =>
      have hlen1 : (f :: rest).length ≤ n := by simpa using hn
      have hlen2 : rest.length ≤ n := by
        have : rest.length + 1 ≤ n := by simpa using hn
        omega
      have e1 := fun d => ih (f :: rest) d hlen1
      have e2 := fun d => ih rest d hlen2
      revert h2
      rw [parseLoop_cons_cons]
      split_ifs
      · intro _; exact ⟨cur, _, rfl, rfl⟩
      · exact e2 _
      · exact e2 _
      · exact e2 _
      · exact e2 _
      · exact e2 _
      · exact e2 _
      · exact e1 _
      · exact e1 _

/-- For every token list that parses to two or more stages, `exec_pipeline` waits
for the children whenever its pipes and forks succeed: the flag it tests, the one
of the head, is false. -/
theorem exec_pipeline_waits_parsed (env : Env) (toks : List String) (s : Sys)
    (h2 : 2 ≤ (parse_command toks).length)
    (hp : (pipeLoop env ((parse_command toks).length - 1) 0 [] s).1 = true)
    (hf : (forkLoop env (parse_command toks).length 0 []).1 = true) :
    (exec_pipeline env (parse_command toks) s).waited = true := by
  obtain ⟨first, next, hparse, hb⟩ :=
    parseLoop_head_bground toks.length toks {} (Nat.le_refl _) h2
  have hparse1 : parse_command toks = first :: next := hparse
  rw [hparse1] at hp hf ⊢
  have hb1 : first.bground_bool = false := hb
  simp only [List.length_cons, Nat.add_sub_cancel] at hp hf
  simp only [exec_pipeline]
  simp [hp, hf, hb1]

/-- C9, at the tokens `sleep 5 | cat &`: the parser sets the background flag on
the last stage, `exec_pipeline` tests the flag of the head, which is false, forks
the two children and waits for them. -/
theorem exec_pipeline_background :
    parse_command ["sleep", "5", "|", "cat", "&"] =
      [{ argv := ["sleep", "5"], bground_bool := false },
       { argv := ["cat"], bground_bool := true }] ∧
    (exec_pipeline env0 (parse_command ["sleep", "5", "|", "cat", "&"]) sys0).children =
      [100, 101] ∧
    (exec_pipeline env0 (parse_command ["sleep", "5", "|", "cat", "&"]) sys0).waited = true := by
  decide

/-- C10, at a chain of two stages whose first `fork` fails and at a chain of
three stages whose second `pipe` fails: `exec_pipeline` returns with the
descriptors 3 and 4 of the pipe it created still open.  When nothing fails, a
chain of three stages creates two pipes and the descriptors 3 to 6 are closed
again. -/
theorem exec_pipeline_leak :
    (exec_pipeline envForkFails [{ argv := ["a"] }, { argv := ["b"] }] sys0).pipes = [(3, 4)] ∧
    (exec_pipeline envForkFails [{ argv := ["a"] }, { argv := ["b"] }] sys0).sys.fds 3 =
      some (OpenFile.pipeRead 0) ∧
    (exec_pipeline envForkFails [{ argv := ["a"] }, { argv := ["b"] }] sys0).sys.fds 4 =
      some (OpenFile.pipeWrite 0) ∧
    (exec_pipeline envPipeFails [{ argv := ["a"] }, { argv := ["b"] }, { argv := ["c"] }]
      sys0).pipes = [(3, 4)] ∧
    (exec_pipeline envPipeFails [{ argv := ["a"] }, { argv := ["b"] }, { argv := ["c"] }]
      sys0).sys.fds 3 = some (OpenFile.pipeRead 0) ∧
    (exec_pipeline envPipeFails [{ argv := ["a"] }, { argv := ["b"] }, { argv := ["c"] }]
      sys0).sys.fds 4 = some (OpenFile.pipeWrite 0) ∧
    (exec_pipeline env0 [{ argv := ["a"] }, { argv := ["b"] }, { argv := ["c"] }]
      sys0).pipes = [(3, 4), (5, 6)] ∧
    (∀ fd ∈ [3, 4, 5, 6],
      (exec_pipeline env0 [{ argv := ["a"] }, { argv := ["b"] }, { argv := ["c"] }]
        sys0).sys.fds fd = none) := by
  decide

/-! ## Lemmas on the descriptor table -/

@[simp] theorem setFd_fds (s : Sys) (fd : Nat) (v : Option OpenFile) (x : Nat) :
    (setFd s fd v).fds x = if x = fd then v else s.fds x := rfl

@[simp] theorem setFd_limit (s : Sys) (fd : Nat) (v : Option OpenFile) :
    (setFd s fd v).limit = s.limit := rfl

@[simp] theorem sys_close_fds (s : Sys) (fd x : Nat) :
    (sys_close s fd).fds x = if x = fd then none else s.fds x := rfl

@[simp] theorem sys_write_fds (s : Sys) (fd : Nat) (text : String) :
    (sys_write s fd text).fds = s.fds := by
  unfold sys_write
  cases s.fds fd <;> rfl

theorem sys_dup2_fds_of_open (s : Sys) (oldfd newfd : Nat) (d : OpenFile)
    (h : s.fds oldfd = some d) (x : Nat) :
    (sys_dup2 s oldfd newfd).fds x = if x = newfd then some d else s.fds x := by
  unfold sys_dup2
  rw [h]
  rfl

/-- The call `dup2(oldfd, newfd)` changes no descriptor but `newfd`. -/
theorem sys_dup2_frame (s : Sys) (oldfd newfd x : Nat) (hx : x ≠ newfd) :
    (sys_dup2 s oldfd newfd).fds x = s.fds x := by
  unfold sys_dup2
  cases s.fds oldfd with
  | none => rfl
  | some d => simp [hx]

/-- The descriptor that `lowestFree` finds is closed. -/
theorem lowestFree_closed (s : Sys) (n : Nat) (h : lowestFree s = some n) : s.fds n = none := by
  unfold lowestFree at h
  have := List.find?_some h
  simpa using this

/-- The call `dup(fd)` on an open descriptor with a free slot. -/
theorem sys_dup_of_open (s : Sys) (fd : Nat) (d : OpenFile) (h : s.fds fd = some d)
    (n : Nat) (hn : (sys_dup s fd).1 = some n) :
    s.fds n = none ∧ (sys_dup s fd).2 = setFd s n (some d) := by
  unfold sys_dup at hn ⊢
  rw [h] at hn ⊢
  cases hl : lowestFree s with
  | none => rw [hl] at hn; simp at hn
  | some m =>
    rw [hl] at hn
    simp only [Option.some.injEq] at hn
    subst hn
    exact ⟨lowestFree_closed s m hl, rfl⟩

/-- One redirection block changes no descriptor but its target. -/
theorem redirectTo_frame (env : Env) (s : Sys) (what path : String) (flags : OFlag)
    (target x : Nat) (hx : x ≠ target) :
    (redirectTo env s what path flags target).2.fds x = s.fds x := by
  unfold redirectTo sys_open
  by_cases hok : env.openOk s.opens.length path flags = true
  · simp only [hok, if_true]
    cases hl : lowestFree s with
    | none => simp
    | some n =>
      have hn := lowestFree_closed s n hl
      simp only [sys_close_fds]
      by_cases hxn : x = n
      · subst hxn; simp [hn]
      · rw [if_neg hxn, sys_dup2_frame _ _ _ _ hx]
        simp [hxn]
  · simp [hok]

theorem redirectOpt_frame (env : Env) (s : Sys) (what : String) (file : Option String)
    (flags : OFlag) (target x : Nat) (hx : x ≠ target) :
    (redirectOpt env s what file flags target).2.fds x = s.fds x := by
  cases file with
  | none => rfl
  | some p => exact redirectTo_frame env s what p flags target x hx

/-- After the three `dup` calls of the backup, `apply_redirects` changes no
descriptor but 0, 1 and 2. -/
theorem apply_redirects_frame (env : Env) (cmd : Command) (s : Sys) (x : Nat)
    (h0 : x ≠ 0) (h1 : x ≠ 1) (h2 : x ≠ 2) :
    (apply_redirects env cmd (some {}) s).2.2.fds x = (save_fds s).2.fds x := by
  unfold apply_redirects
  simp only
  split_ifs <;>
    simp only [redirectOpt_frame _ _ _ _ _ 0 x h0, redirectOpt_frame _ _ _ _ _ 1 x h1,
      redirectOpt_frame _ _ _ _ _ 2 x h2, sys_dup2_frame _ _ _ _ h2]

theorem apply_redirects_backup (env : Env) (cmd : Command) (s : Sys) :
    (apply_redirects env cmd (some {}) s).2.1 = some (save_fds s).1 := by
  unfold apply_redirects
  simp only
  split_ifs <;> rfl

/-- The three `dup` calls of the backup, when the standard streams are open and
the calls succeed: the saved descriptors are three distinct descriptors that were
closed, and they hold the three standard streams. -/
theorem save_fds_spec (s : Sys) (d0 d1 d2 : OpenFile) (a b c : Nat)
    (h0 : s.fds 0 = some d0) (h1 : s.fds 1 = some d1) (h2 : s.fds 2 = some d2)
    (ha : (save_fds s).1.saved_stdin = some a) (hb : (save_fds s).1.saved_stdout = some b)
    (hc : (save_fds s).1.saved_stderr = some c) :
    s.fds a = none ∧ s.fds b = none ∧ s.fds c = none ∧ a ≠ b ∧ a ≠ c ∧ b ≠ c ∧
      ∀ x, (save_fds s).2.fds x =
        if x = c then some d2 else if x = b then some d1 else if x = a then some d0
        else s.fds x := by
  unfold save_fds at ha hb hc ⊢
  simp only at ha hb hc ⊢
  obtain ⟨fa, ea⟩ := sys_dup_of_open s 0 d0 h0 a ha
  rw [ea] at hb hc ⊢
  have ha1 : a ≠ 1 := by rintro rfl; rw [h1] at fa; exact absurd fa (by simp)
  have ha2 : a ≠ 2 := by rintro rfl; rw [h2] at fa; exact absurd fa (by simp)
  have h1' : (setFd s a (some d0)).fds 1 = some d1 := by
    simp [h1, Ne.symm ha1]
  obtain ⟨fb, eb⟩ := sys_dup_of_open _ 1 d1 h1' b hb
  rw [eb] at hc ⊢
  have hba : b ≠ a := by rintro rfl; simp at fb
  have fb' : s.fds b = none := by simpa [hba] using fb
  have hb2 : b ≠ 2 := by rintro rfl; rw [h2] at fb'; exact absurd fb' (by simp)
  have h2' : (setFd (setFd s a (some d0)) b (some d1)).fds 2 = some d2 := by
    simp [h2, Ne.symm ha2, Ne.symm hb2]
  obtain ⟨fc, ec⟩ := sys_dup_of_open _ 2 d2 h2' c hc
  rw [ec]
  have hcb : c ≠ b := by rintro rfl; simp at fc
  have hca : c ≠ a := by rintro rfl; simp [hcb] at fc
  have fc' : s.fds c = none := by simpa [hcb, hca] using fc
  refine ⟨fa, fb', fc', Ne.symm hba, Ne.symm hca, Ne.symm hcb, ?_⟩
  intro x
  simp

/-- The function `restore_fds` on three open saved descriptors. -/
theorem restore_fds_spec (t : Sys) (d0 d1 d2 : OpenFile) (a b c : Nat)
    (ha : t.fds a = some d0) (hb : t.fds b = some d1) (hc : t.fds c = some d2)
    (hab : a ≠ b) (hac : a ≠ c) (hbc : b ≠ c)
    (ha0 : 2 < a) (hb0 : 2 < b) (hc0 : 2 < c) (x : Nat) :
    (restore_fds { saved_stdin := some a, saved_stdout := some b, saved_stderr := some c } t).fds x =
      if x = a ∨ x = b ∨ x = c then none
      else if x = 0 then some d0 else if x = 1 then some d1 else if x = 2 then some d2
      else t.fds x := by
  unfold restore_fds restoreOne
  simp only
  have e1 : ∀ y, (sys_close (sys_dup2 t a 0) a).fds y =
      if y = a then none else if y = 0 then some d0 else t.fds y := by
    intro y
    rw [sys_close_fds, sys_dup2_fds_of_open t a 0 d0 ha]
  have hb1 : (sys_close (sys_dup2 t a 0) a).fds b = some d1 := by
    rw [e1, if_neg (Ne.symm hab), if_neg (by omega), hb]
  have e2 : ∀ y, (sys_close (sys_dup2 (sys_close (sys_dup2 t a 0) a) b 1) b).fds y =
      if y = b then none else if y = 1 then some d1
      else if y = a then none else if y = 0 then some d0 else t.fds y := by
    intro y
    rw [sys_close_fds, sys_dup2_fds_of_open _ b 1 d1 hb1, e1]
  have hc1 : (sys_close (sys_dup2 (sys_close (sys_dup2 t a 0) a) b 1) b).fds c = some d2 := by
    rw [e2, if_neg (Ne.symm hbc), if_neg (by omega), if_neg (Ne.symm hac), if_neg (by omega), hc]
  rw [sys_close_fds, sys_dup2_fds_of_open _ c 2 d2 hc1, e2]
  split_ifs <;> first | rfl | omega

theorem echoArgs_fds (args : List String) : ∀ s : Sys, (echoArgs args s).fds = s.fds := by
  induction args with
  | nil => intro s; rfl
  | cons a rest ih =>
    intro s
    cases rest with
    | nil => simp [echoArgs]
    | cons b rest => rw [echoArgs, ih]; simp

/-- The body of `echo` leaves the descriptor table as it finds it. -/
theorem echo_builtin_fds (cmd : Command) (s : Sys) : (echo_builtin cmd s).fds = s.fds := by
  unfold echo_builtin
  rw [sys_write_fds, echoArgs_fds]

/-- The body of `pwd` leaves the descriptor table as it finds it. -/
theorem pwd_builtin_fds (env : Env) (cmd : Command) (s : Sys) :
    (pwd_builtin env cmd s).fds = s.fds := by
  unfold pwd_builtin
  cases env.getcwd <;> simp

/-- Restoring after any state that agrees with the saved state outside the
standard streams gives back the table the call started with. -/
theorem restore_fds_after_save (s t : Sys)
    (h0 : (s.fds 0).isSome = true) (h1 : (s.fds 1).isSome = true)
    (h2 : (s.fds 2).isSome = true)
    (ha : (save_fds s).1.saved_stdin.isSome = true)
    (hb : (save_fds s).1.saved_stdout.isSome = true)
    (hc : (save_fds s).1.saved_stderr.isSome = true)
    (ht : ∀ x, x ≠ 0 → x ≠ 1 → x ≠ 2 → t.fds x = (save_fds s).2.fds x) :
    (restore_fds (save_fds s).1 t).fds = s.fds := by
  obtain ⟨d0, e0⟩ := Option.isSome_iff_exists.1 h0
  obtain ⟨d1, e1⟩ := Option.isSome_iff_exists.1 h1
  obtain ⟨d2, e2⟩ := Option.isSome_iff_exists.1 h2
  obtain ⟨a, ea⟩ := Option.isSome_iff_exists.1 ha
  obtain ⟨b, eb⟩ := Option.isSome_iff_exists.1 hb
  obtain ⟨c, ec⟩ := Option.isSome_iff_exists.1 hc
  obtain ⟨fa, fb, fc, hab, hac, hbc, hsave⟩ := save_fds_spec s d0 d1 d2 a b c e0 e1 e2 ea eb ec
  have ha0 : 2 < a := by
    rcases Nat.lt_or_ge 2 a with h | h
    · exact h
    · interval_cases a <;> simp_all
  have hb0 : 2 < b := by
    rcases Nat.lt_or_ge 2 b with h | h
    · exact h
    · interval_cases b <;> simp_all
  have hc0 : 2 < c := by
    rcases Nat.lt_or_ge 2 c with h | h
    · exact h
    · interval_cases c <;> simp_all
  have hbk : (save_fds s).1 =
      { saved_stdin := some a, saved_stdout := some b, saved_stderr := some c } := by
    cases hk : (save_fds s).1 with
    | mk x y z => rw [hk] at ea eb ec; simp only at ea eb ec; rw [ea, eb, ec]
  have ta : t.fds a = some d0 := by
    rw [ht a (by omega) (by omega) (by omega), hsave, if_neg hac, if_neg hab, if_pos rfl]
  have tb : t.fds b = some d1 := by
    rw [ht b (by omega) (by omega) (by omega), hsave, if_neg hbc, if_pos rfl]
  have tc : t.fds c = some d2 := by
    rw [ht c (by omega) (by omega) (by omega), hsave, if_pos rfl]
  funext x
  rw [hbk, restore_fds_spec t d0 d1 d2 a b c ta tb tc hab hac hbc ha0 hb0 hc0 x]
  by_cases hxa : x = a
  · subst hxa; simp [fa]
  · by_cases hxb : x = b
    · subst hxb; simp [fb]
    · by_cases hxc : x = c
      · subst hxc; simp [fc]
      · simp only [hxa, hxb, hxc, or_self, if_false]
        by_cases hx0 : x = 0
        · subst hx0; simp [e0]
        · by_cases hx1 : x = 1
          · subst hx1; simp [e1]
          · by_cases hx2 : x = 2
            · subst hx2; simp [e2]
            · simp only [hx0, hx1, hx2, if_false]
              rw [ht x hx0 hx1 hx2, hsave, if_neg hxc, if_neg hxb, if_neg hxa]

/-- C7, as stated, fails when a standard stream is closed before the call: with
descriptor 1 closed the three `dup` calls succeed (the first one lands on
descriptor 1), and after `run_builtin` descriptor 1 is open on the stream of
descriptor 0. -/
theorem run_builtin_closed_stdout :
    (save_fds sysNoStdout).1 =
      { saved_stdin := some 1, saved_stdout := some 3, saved_stderr := some 4 } ∧
    sysNoStdout.fds 1 = none ∧
    (run_builtin env0 { argv := ["echo"] } echo_builtin sysNoStdout).fds 1 =
      some (OpenFile.inherited 0) := by
  decide

/-- C7, amended: when the three standard streams are open before the call and
the three backup `dup` calls succeed, then for every command descriptor and every
builtin body that leaves the descriptor table as it finds it, the table after
`run_builtin` is the table before the call (the streams 0, 1, 2 are the same
and nothing the call opened or saved stays open), whether `apply_redirects`
succeeds or fails; and when it fails the body is not run: the result is that of
restoring the state `apply_redirects` left, whatever the body. -/
theorem run_builtin_restores (env : Env) (cmd : Command) (fn : Command → Sys → Sys) (s : Sys)
    (h0 : (s.fds 0).isSome = true) (h1 : (s.fds 1).isSome = true)
    (h2 : (s.fds 2).isSome = true)
    (ha : (save_fds s).1.saved_stdin.isSome = true)
    (hb : (save_fds s).1.saved_stdout.isSome = true)
    (hc : (save_fds s).1.saved_stderr.isSome = true)
    (hfn : ∀ (c : Command) (t : Sys), (fn c t).fds = t.fds) :
    (run_builtin env cmd fn s).fds = s.fds ∧
      ((apply_redirects env cmd (some {}) s).1 = false →
        ∀ fn2 : Command → Sys → Sys,
          run_builtin env cmd fn s =
            restore_fds (save_fds s).1 (apply_redirects env cmd (some {}) s).2.2 ∧
          run_builtin env cmd fn2 s = run_builtin env cmd fn s) := by
  have hbk := apply_redirects_backup env cmd s
  constructor
  · unfold run_builtin
    simp only [hbk, Option.getD_some]
    split_ifs
    · exact restore_fds_after_save s _ h0 h1 h2 ha hb hc
        (fun x x0 x1 x2 => apply_redirects_frame env cmd s x x0 x1 x2)
    · exact restore_fds_after_save s _ h0 h1 h2 ha hb hc
        (fun x x0 x1 x2 => by rw [hfn]; exact apply_redirects_frame env cmd s x x0 x1 x2)
  · intro hfail fn2
    unfold run_builtin
    simp only [hbk, Option.getD_some, hfail, if_true, and_self]

/-- C7, amended, at `echo hi > f.txt` in a shell with its three streams, once
with the file opening and once with `open` refused. -/
theorem run_builtin_restores_witness :
    (run_builtin env0 { argv := ["echo", "hi"], stdout_file := some "f.txt" } echo_builtin
      sys0).fds = sys0.fds ∧
    (run_builtin { env0 with openOk := fun _ _ _ => false }
      { argv := ["echo", "hi"], stdout_file := some "f.txt" } echo_builtin sys0).fds =
        sys0.fds :=
  ⟨(run_builtin_restores env0 { argv := ["echo", "hi"], stdout_file := some "f.txt" }
      echo_builtin sys0 (by decide) (by decide) (by decide) (by decide) (by decide) (by decide)
      echo_builtin_fds).1,
   (run_builtin_restores { env0 with openOk := fun _ _ _ => false }
      { argv := ["echo", "hi"], stdout_file := some "f.txt" }
      echo_builtin sys0 (by decide) (by decide) (by decide) (by decide) (by decide) (by decide)
      echo_builtin_fds).1⟩

/-! ## Lemmas on the stages of parse_command -/

/-- Induction along the recursion of the parser: the empty list, one token, and a
token followed by another one, where the claim holds for the list after the
first token and for the list after the first two. -/
theorem tokens_induction {P : List String → Prop} (h0 : P [])
    (h1 : ∀ t, P [t])
    (h2 : ∀ t f rest, P (f :: rest) → P rest → P (t :: f :: rest)) :
    ∀ toks, P toks := by
  have key : ∀ n : Nat, ∀ toks : List String, toks.length ≤ n → P toks := by
    intro n
    induction n with
    | zero =>
      intro toks hn
      have : toks = [] := List.length_eq_zero.1 (Nat.le_zero.1 hn)
      subst this; exact h0
    | succ n ih =>
      intro toks hn
      cases toks with
      | nil => exact h0
      | cons t tl =>
        cases tl with
        | nil => exact h1 t
        | cons f rest =>
          have hlen1 : (f :: rest).length ≤ n := by simpa using hn
          have hlen2 : rest.length ≤ n := by
            have : rest.length + 1 ≤ n := by simpa using hn
            omega
          exact h2 t f rest (ih _ hlen1) (ih _ hlen2)
  intro toks
  exact key toks.length toks (Nat.le_refl _)

theorem roles_length : ∀ toks : List String, (roles toks).length = toks.length := by
  apply tokens_induction
  · rfl
  · intro t
    simp only [roles]
    split_ifs <;> rfl
  · intro t f rest ih1 ih2
    rw [roles_cons_cons]
    split_ifs <;> simp [ih1, ih2]

theorem stageWords_cons_cons (t f : String) (rest : List String) :
    stageWords (t :: f :: rest) =
      if t = "|" then [] :: stageWords (f :: rest)
      else if isRedirect t then stageWords rest
      else if t = "2>&1" then stageWords (f :: rest)
      else consHead t (stageWords (f :: rest)) := by
  unfold stageWords
  rw [roles_cons_cons]
  split_ifs <;> simp [stageTokens] <;> rfl

theorem stageRedirects_cons_cons (t f : String) (rest : List String) :
    stageRedirects (t :: f :: rest) =
      if t = "|" then [] :: stageRedirects (f :: rest)
      else if isRedirect t then consHead t (stageRedirects rest)
      else if t = "2>&1" then stageRedirects (f :: rest)
      else stageRedirects (f :: rest) := by
  unfold stageRedirects
  rw [roles_cons_cons]
  split_ifs <;> simp [stageTokens] <;> rfl

theorem prependHead_consHead (pre : List String) (t : String) (l : List (List String)) :
    prependHead pre (consHead t l) = prependHead (pre ++ [t]) l := by
  cases l <;> simp [prependHead, consHead]

theorem prependHead_cons (pre seg : List String) (segs : List (List String)) :
    prependHead pre (seg :: segs) = (pre ++ seg) :: segs := rfl

theorem prependHead_nil_of_ne (l : List (List String)) (h : l ≠ []) : prependHead [] l = l := by
  cases l with
  | nil => exact absurd rfl h
  | cons seg segs => rfl

theorem stageWords_ne_nil : ∀ toks : List String, stageWords toks ≠ [] := by
  apply tokens_induction
  · simp [stageWords, roles, stageTokens]
  · intro t
    simp only [stageWords, roles]
    split_ifs <;> simp [stageTokens, consHead]
  · intro t f rest ih1 ih2
    rw [stageWords_cons_cons]
    split_ifs
    · simp
    · exact ih2
    · exact ih1
    · cases h : stageWords (f :: rest) <;> simp [consHead]

/-- The arguments of every stage are the literal arguments the spec gives it. -/
theorem parseLoop_argv : ∀ (toks : List String) (cur : Command),
    (parseLoop toks cur).map Command.argv = prependHead cur.argv (stageWords toks) := by
  apply tokens_induction
  · intro cur; simp [parseLoop, stageWords, roles, stageTokens, prependHead]
  · intro t cur
    simp only [parseLoop, stageWords, roles]
    split_ifs <;> simp [stageTokens, prependHead, consHead]
  · intro t f rest ih1 ih2 cur
    rw [parseLoop_cons_cons, stageWords_cons_cons]
    split_ifs <;>
      simp_all [isRedirect, prependHead_cons, prependHead_consHead, prependHead_nil_of_ne,
        stageWords_ne_nil]

theorem stageRedirects_ne_nil : ∀ toks : List String, stageRedirects toks ≠ [] := by
  apply tokens_induction
  · simp [stageRedirects, roles, stageTokens]
  · intro t
    simp only [stageRedirects, roles]
    split_ifs <;> simp [stageTokens, consHead]
  · intro t f rest ih1 ih2
    rw [stageRedirects_cons_cons]
    split_ifs
    · simp
    · cases h : stageRedirects rest <;> simp [consHead]
    · exact ih1
    · exact ih1

theorem appendOf_snoc (ops : List String) (op : String) :
    appendOf (ops ++ [op]) =
      if op = "<" then appendOf ops else (op = ">>" || op = "1>>" || op = "2>>") := by
  unfold appendOf
  by_cases h : op = "<"
  · simp [h, List.filter_append]
  · simp [h, List.filter_append, List.getLast?_append]

/-- A redirection operator with an operand: the loop goes on after the operand
with the append flag that the operator decides (`<` leaves it as it is). -/
theorem parseLoop_redirect (t f : String) (rest : List String) (cur : Command)
    (hr : isRedirect t = true) :
    ∃ c : Command, parseLoop (t :: f :: rest) cur = parseLoop rest c ∧
      c.argv = cur.argv ∧ c.bground_bool = cur.bground_bool ∧ c.merge_err = cur.merge_err ∧
      c.append_bool =
        if t = "<" then cur.append_bool else (t = ">>" || t = "1>>" || t = "2>>") := by
  simp only [isRedirect, Bool.or_eq_true, decide_eq_true_eq] at hr
  rcases hr with (((((((rfl | rfl) | rfl) | rfl) | rfl) | rfl) | rfl) | rfl) | rfl
  · exact ⟨{ cur with stdout_file := some f, append_bool := false },
      by rw [parseLoop_cons_cons]; simp, rfl, rfl, rfl, by simp⟩
  · exact ⟨{ cur with stdout_file := some f, append_bool := false },
      by rw [parseLoop_cons_cons]; simp, rfl, rfl, rfl, by simp⟩
  · exact ⟨{ cur with stdout_file := some f, append_bool := true },
      by rw [parseLoop_cons_cons]; simp, rfl, rfl, rfl, by simp⟩
  · exact ⟨{ cur with stdout_file := some f, append_bool := true },
      by rw [parseLoop_cons_cons]; simp, rfl, rfl, rfl, by simp⟩
  · exact ⟨{ cur with stderr_file := some f, append_bool := false },
      by rw [parseLoop_cons_cons]; simp, rfl, rfl, rfl, by simp⟩
  · exact ⟨{ cur with stderr_file := some f, append_bool := true },
      by rw [parseLoop_cons_cons]; simp, rfl, rfl, rfl, by simp⟩
  · exact ⟨{ cur with stdout_file := some f, stderr_file := some f, append_bool := false },
      by rw [parseLoop_cons_cons]; simp, rfl, rfl, rfl, by simp⟩
  · exact ⟨{ cur with stdout_file := some f, stderr_file := some f, append_bool := false },
      by rw [parseLoop_cons_cons]; simp, rfl, rfl, rfl, by simp⟩
  · exact ⟨{ cur with stdin_file := some f },
      by rw [parseLoop_cons_cons]; simp, rfl, rfl, rfl, by simp⟩

/-- A token that is no pipe, no redirection operator and not `2>&1`, before
another token: it is copied to the arguments. -/
theorem parseLoop_other (t f : String) (rest : List String) (cur : Command)
    (h1 : t ≠ "|") (hr : isRedirect t = false) (hm : t ≠ "2>&1") :
    parseLoop (t :: f :: rest) cur =
      parseLoop (f :: rest) { cur with argv := cur.argv ++ [t] } := by
  simp only [isRedirect, Bool.or_eq_false_iff, decide_eq_false_iff_not] at hr
  obtain ⟨⟨⟨⟨⟨⟨⟨⟨g1, g2⟩, g3⟩, g4⟩, g5⟩, g6⟩, g7⟩, g8⟩, g9⟩ := hr
  rw [parseLoop_cons_cons]
  simp [h1, hm, g1, g2, g3, g4, g5, g6, g7, g8, g9]

theorem parseLoop_merge (f : String) (rest : List String) (cur : Command) :
    parseLoop ("2>&1" :: f :: rest) cur =
      parseLoop (f :: rest) { cur with merge_err := true } := by
  rw [parseLoop_cons_cons]
  simp

theorem parseLoop_pipe (f : String) (rest : List String) (cur : Command) :
    parseLoop ("|" :: f :: rest) cur = cur :: parseLoop (f :: rest) {} := by
  rw [parseLoop_cons_cons]
  simp

/-- The append flag of every stage is the one its redirection operators decide. -/
theorem parseLoop_append : ∀ (toks : List String) (cur : Command) (ops0 : List String),
    cur.append_bool = appendOf ops0 →
    (parseLoop toks cur).map Command.append_bool =
      (prependHead ops0 (stageRedirects toks)).map appendOf := by
  apply tokens_induction
  · intro cur ops0 h
    simp [parseLoop, stageRedirects, roles, stageTokens, prependHead, h]
  · intro t cur ops0 h
    simp only [parseLoop, stageRedirects, roles]
    split_ifs <;> simp [stageTokens, prependHead, consHead, h]
  · intro t f rest ih1 ih2 cur ops0 h
    have hnil : appendOf [] = false := rfl
    rw [stageRedirects_cons_cons]
    by_cases h1 : t = "|"
    · subst h1
      rw [parseLoop_pipe]
      simp only [if_true, List.map_cons, prependHead_cons, List.append_nil]
      rw [ih1 {} [] rfl, prependHead_nil_of_ne _ (stageRedirects_ne_nil _), h]
    · simp only [h1, if_false]
      by_cases hr : isRedirect t = true
      · obtain ⟨c, hc, _, _, _, happ⟩ := parseLoop_redirect t f rest cur hr
        simp only [hr, if_true]
        rw [hc, prependHead_consHead]
        apply ih2 c (ops0 ++ [t])
        rw [happ, appendOf_snoc, h]
      · have hr2 : isRedirect t = false := by simpa using hr
        simp only [hr, if_false]
        by_cases hm : t = "2>&1"
        · subst hm
          rw [parseLoop_merge]
          simp only [if_true]
          exact ih1 _ ops0 h
        · rw [parseLoop_other t f rest cur h1 hr2 hm]
          simp only [hm, if_false]
          exact ih1 _ ops0 h

theorem roles_count (rs : List Role) :
    rs.countP (fun r => r = Role.word) + rs.countP Role.isOperator +
      rs.countP (fun r => r = Role.operand) = rs.length := by
  induction rs with
  | nil => rfl
  | cons r rs ih =>
    cases r <;> simp [List.countP_cons, Role.isOperator] <;> omega

theorem literalWords_length (toks : List String) :
    (literalWords toks).length = (roles toks).countP (fun r => r = Role.word) := by
  have hz : (toks.zip (roles toks)).map Prod.snd = roles toks :=
    List.map_snd_zip _ _ (by rw [roles_length])
  unfold literalWords
  rw [List.length_map, ← List.countP_eq_length_filter]
  conv_rhs => rw [← hz]
  rw [List.countP_map]
  rfl

theorem literalWords_sublist (toks : List String) : List.Sublist (literalWords toks) toks := by
  have hz : (toks.zip (roles toks)).map Prod.fst = toks :=
    List.map_fst_zip _ _ (by rw [roles_length])
  unfold literalWords
  conv_rhs => rw [← hz]
  exact List.Sublist.map _ (List.filter_sublist _)

/-- C12, as stated, fails at `ls | > f`: the token `ls` is a plain argument, and
the second stage has an empty `argv`. -/
theorem parse_command_empty_argv :
    literalWords ["ls", "|", ">", "f"] = ["ls"] ∧
    parse_command ["ls", "|", ">", "f"] =
      [{ argv := ["ls"] }, { argv := [], stdout_file := some "f" }] ∧
    ¬ (∀ c ∈ parse_command ["ls", "|", ">", "f"], c.argv ≠ []) := by
  decide

/-- C12, amended: the arguments of the stages are, stage by stage, the tokens
that end up as plain arguments; so for every token list in which every stage has
at least one such token, every descriptor of the chain has a non-empty `argv`. -/
theorem parse_command_argv_nonempty (toks : List String)
    (h : ∀ seg ∈ stageWords toks, seg ≠ []) :
    (parse_command toks).map Command.argv = stageWords toks ∧
      ∀ c ∈ parse_command toks, c.argv ≠ [] := by
  have hmap : (parse_command toks).map Command.argv = stageWords toks := by
    have := parseLoop_argv toks {}
    rw [prependHead_nil_of_ne _ (stageWords_ne_nil toks)] at this
    exact this
  refine ⟨hmap, ?_⟩
  intro c hc
  apply h
  rw [← hmap]
  exact List.mem_map_of_mem _ hc

/-- C12, amended, at the pipeline `cat < in.txt | sort > out.txt`. -/
theorem parse_command_argv_nonempty_witness :
    (parse_command ["cat", "<", "in.txt", "|", "sort", ">", "out.txt"]).map Command.argv =
        stageWords ["cat", "<", "in.txt", "|", "sort", ">", "out.txt"] ∧
      stageWords ["cat", "<", "in.txt", "|", "sort", ">", "out.txt"] = [["cat"], ["sort"]] :=
  ⟨(parse_command_argv_nonempty ["cat", "<", "in.txt", "|", "sort", ">", "out.txt"]
    (by decide)).1, by decide⟩

/-- C18: every token is accounted for once and in order.  The arguments of all
stages, one after the other, are a subsequence of the tokens; their number, the
number of tokens that act as operators and the number of tokens taken as
redirection operands add up to the number of tokens; and a token list without
operator token gives one stage whose `argv` is the list, without redirection and
with every flag false. -/
theorem parse_command_accounting :
    (∀ toks : List String,
      List.Sublist (allArgv (parse_command toks)) toks ∧
      (roles toks).length = toks.length ∧
      (allArgv (parse_command toks)).length = (roles toks).countP (fun r => r = Role.word) ∧
      (allArgv (parse_command toks)).length + (roles toks).countP Role.isOperator +
        (roles toks).countP (fun r => r = Role.operand) = toks.length) ∧
    (∀ toks : List String, (∀ t ∈ toks, isOperator t = false) →
      parse_command toks =
        [{ argv := toks, stdout_file := none, stdin_file := none, stderr_file := none,
           append_bool := false, bground_bool := false, merge_err := false }]) := by
  constructor
  · intro toks
    have harg : allArgv (parse_command toks) = literalWords toks := by
      have h := allArgv_parseLoop toks.length toks {} (Nat.le_refl _)
      simpa [parse_command] using h
    refine ⟨?_, roles_length toks, ?_, ?_⟩
    · rw [harg]; exact literalWords_sublist toks
    · rw [harg]; exact literalWords_length toks
    · rw [harg, literalWords_length, roles_count, roles_length]
  · intro toks h
    have := parseLoop_words toks h [] {}
    simp only [List.append_nil] at this
    simp only [parse_command, this]
    simp [parseLoop]

/-- C18 at the tokens `ls -l /tmp`, which hold no operator. -/
theorem parse_command_accounting_witness :
    parse_command ["ls", "-l", "/tmp"] = [{ argv := ["ls", "-l", "/tmp"] }] :=
  parse_command_accounting.2 ["ls", "-l", "/tmp"] (by decide)

/-! ## Lemmas on apply_redirects -/

/-- The function `apply_redirects` in terms of its three blocks. -/
theorem apply_redirects_eq (env : Env) (cmd : Command) (backup : Option FdBackup) (s : Sys) :
    apply_redirects env cmd backup s =
      if (afterStdin env cmd backup s).1 = false then
        (false, backup.map (fun _ => (save_fds s).1), (afterStdin env cmd backup s).2)
      else if (afterStdout env cmd backup s).1 = false then
        (false, backup.map (fun _ => (save_fds s).1), (afterStdout env cmd backup s).2)
      else if (afterStderr env cmd backup s).1 = false then
        (false, backup.map (fun _ => (save_fds s).1), (afterStderr env cmd backup s).2)
      else
        (true, backup.map (fun _ => (save_fds s).1),
          if cmd.merge_err then sys_dup2 (afterStderr env cmd backup s).2 1 2
          else (afterStderr env cmd backup s).2) := by
  cases backup <;> rfl

@[simp] theorem sys_write_opens (s : Sys) (fd : Nat) (text : String) :
    (sys_write s fd text).opens = s.opens := by
  unfold sys_write
  cases s.fds fd <;> rfl

@[simp] theorem sys_dup2_opens (s : Sys) (oldfd newfd : Nat) :
    (sys_dup2 s oldfd newfd).opens = s.opens := by
  unfold sys_dup2
  cases s.fds oldfd <;> rfl

@[simp] theorem sys_close_opens (s : Sys) (fd : Nat) : (sys_close s fd).opens = s.opens := rfl

theorem sys_dup_opens (s : Sys) (fd : Nat) : (sys_dup s fd).2.opens = s.opens := by
  unfold sys_dup
  cases s.fds fd with
  | none => rfl
  | some d => cases lowestFree s <;> rfl

/-- The call `dup` leaves every open descriptor as it is. -/
theorem sys_dup_keeps_open (s : Sys) (fd x : Nat) (hx : (s.fds x).isSome = true) :
    (sys_dup s fd).2.fds x = s.fds x := by
  unfold sys_dup
  cases s.fds fd with
  | none => rfl
  | some d =>
    cases hl : lowestFree s with
    | none => rfl
    | some n =>
      have hn := lowestFree_closed s n hl
      have hxn : x ≠ n := by
        rintro rfl
        rw [hn] at hx
        exact absurd hx (by simp)
      simp [hxn]

theorem save_fds_opens (s : Sys) : (save_fds s).2.opens = s.opens := by
  unfold save_fds
  simp only [sys_dup_opens]

/-- The backup leaves every open descriptor as it is. -/
theorem save_fds_keeps_open (s : Sys) (x : Nat) (hx : (s.fds x).isSome = true) :
    (save_fds s).2.fds x = s.fds x := by
  unfold save_fds
  simp only
  have h1 := sys_dup_keeps_open s 0 x hx
  have h2 := sys_dup_keeps_open (sys_dup s 0).2 1 x (by rw [h1]; exact hx)
  have h3 := sys_dup_keeps_open (sys_dup (sys_dup s 0).2 1).2 2 x (by rw [h2, h1]; exact hx)
  rw [h3, h2, h1]

theorem redirectStart_opens (backup : Option FdBackup) (s : Sys) :
    (redirectStart backup s).opens = s.opens := by
  cases backup with
  | none => rfl
  | some b => exact save_fds_opens s

theorem redirectStart_keeps_open (backup : Option FdBackup) (s : Sys) (x : Nat)
    (hx : (s.fds x).isSome = true) : (redirectStart backup s).fds x = s.fds x := by
  cases backup with
  | none => rfl
  | some b => exact save_fds_keeps_open s x hx

/-- The call `open` is logged, whether it succeeds or not. -/
theorem sys_open_opens (env : Env) (s : Sys) (path : String) (flags : OFlag) :
    (sys_open env s path flags).2.opens = s.opens ++ [(path, flags)] := by
  unfold sys_open
  simp only
  split_ifs
  · cases lowestFree s <;> rfl
  · rfl

/-- A failed `open` leaves the descriptor table as it is. -/
theorem sys_open_fail_fds (env : Env) (s : Sys) (path : String) (flags : OFlag)
    (h : (sys_open env s path flags).1 = none) :
    (sys_open env s path flags).2.fds = s.fds := by
  unfold sys_open at h ⊢
  simp only at h ⊢
  split_ifs at h ⊢
  · cases hl : lowestFree s with
    | none => rfl
    | some n => rw [hl] at h; simp at h
  · rfl

theorem redirectTo_opens (env : Env) (s : Sys) (what path : String) (flags : OFlag)
    (target : Nat) :
    (redirectTo env s what path flags target).2.opens = s.opens ++ [(path, flags)] := by
  have h := sys_open_opens env s path flags
  unfold redirectTo
  cases hres : sys_open env s path flags with
  | mk fd s1 =>
    rw [hres] at h
    cases fd with
    | none => simpa using h
    | some n => simpa using h

/-- One block logs its call of `open`, and nothing for a `NULL` file name. -/
theorem redirectOpt_opens (env : Env) (s : Sys) (what : String) (file : Option String)
    (flags : OFlag) (target : Nat) :
    (redirectOpt env s what file flags target).2.opens = s.opens ++ openEntry file flags := by
  cases file with
  | none => simp [redirectOpt, openEntry]
  | some p => exact redirectTo_opens env s what p flags target

/-- One block fails exactly when its call of `open` fails. -/
theorem redirectTo_fail_iff (env : Env) (s : Sys) (what path : String) (flags : OFlag)
    (target : Nat) :
    (redirectTo env s what path flags target).1 = false ↔
      (sys_open env s path flags).1 = none := by
  unfold redirectTo
  cases hres : sys_open env s path flags with
  | mk fd s1 => cases fd <;> simp

/-- A block that fails leaves the descriptor table as it is. -/
theorem redirectTo_fail_fds (env : Env) (s : Sys) (what path : String) (flags : OFlag)
    (target : Nat) (h : (sys_open env s path flags).1 = none) :
    (redirectTo env s what path flags target).2.fds = s.fds := by
  have hf := sys_open_fail_fds env s path flags h
  unfold redirectTo
  cases hres : sys_open env s path flags with
  | mk fd s1 =>
    rw [hres] at h hf
    simp only at h hf
    subst h
    simpa using hf

/-- A block that succeeds on an open target leaves the new file on the target. -/
theorem redirectTo_success (env : Env) (s : Sys) (what path : String) (flags : OFlag)
    (target : Nat) (hok : (redirectTo env s what path flags target).1 = true)
    (ht : (s.fds target).isSome = true) :
    (redirectTo env s what path flags target).2.fds target =
      some (OpenFile.file path flags s.opens.length) := by
  unfold redirectTo sys_open at hok ⊢
  by_cases hopen : env.openOk s.opens.length path flags = true
  · simp only [hopen, if_true] at hok ⊢
    cases hl : lowestFree s with
    | none => rw [hl] at hok; simp at hok
    | some n =>
      have hn := lowestFree_closed s n hl
      have hne : target ≠ n := by
        rintro rfl
        rw [hn] at ht
        exact absurd ht (by simp)
      simp only [sys_close_fds, if_neg hne]
      rw [sys_dup2_fds_of_open _ n target (OpenFile.file path flags s.opens.length) (by simp)]
      simp
  · simp [hopen] at hok

theorem afterStdin_frame (env : Env) (cmd : Command) (backup : Option FdBackup) (s : Sys)
    (x : Nat) (hx : x ≠ 0) :
    (afterStdin env cmd backup s).2.fds x = (redirectStart backup s).fds x :=
  redirectOpt_frame _ _ _ _ _ 0 x hx

theorem afterStdout_frame (env : Env) (cmd : Command) (backup : Option FdBackup) (s : Sys)
    (x : Nat) (hx : x ≠ 1) :
    (afterStdout env cmd backup s).2.fds x = (afterStdin env cmd backup s).2.fds x :=
  redirectOpt_frame _ _ _ _ _ 1 x hx

theorem afterStderr_frame (env : Env) (cmd : Command) (backup : Option FdBackup) (s : Sys)
    (x : Nat) (hx : x ≠ 2) :
    (afterStderr env cmd backup s).2.fds x = (afterStdout env cmd backup s).2.fds x :=
  redirectOpt_frame _ _ _ _ _ 2 x hx

theorem afterStdin_opens (env : Env) (cmd : Command) (backup : Option FdBackup) (s : Sys) :
    (afterStdin env cmd backup s).2.opens =
      s.opens ++ openEntry cmd.stdin_file OFlag.rdonly := by
  unfold afterStdin
  rw [redirectOpt_opens, redirectStart_opens]

theorem afterStdout_opens (env : Env) (cmd : Command) (backup : Option FdBackup) (s : Sys) :
    (afterStdout env cmd backup s).2.opens =
      (afterStdin env cmd backup s).2.opens ++ openEntry cmd.stdout_file (openFlags cmd) := by
  unfold afterStdout
  rw [redirectOpt_opens]

theorem afterStderr_opens (env : Env) (cmd : Command) (backup : Option FdBackup) (s : Sys) :
    (afterStderr env cmd backup s).2.opens =
      (afterStdout env cmd backup s).2.opens ++ openEntry cmd.stderr_file (openFlags cmd) := by
  unfold afterStderr
  rw [redirectOpt_opens]

/-- On every path `apply_redirects` changes no descriptor but 0, 1 and 2 after
the backup: what it opened is closed again. -/
theorem apply_redirects_frame_any (env : Env) (cmd : Command) (backup : Option FdBackup)
    (s : Sys) (x : Nat) (h0 : x ≠ 0) (h1 : x ≠ 1) (h2 : x ≠ 2) :
    (apply_redirects env cmd backup s).2.2.fds x = (redirectStart backup s).fds x := by
  rw [apply_redirects_eq]
  split_ifs <;>
    simp only [sys_dup2_frame _ _ _ _ h2, afterStderr_frame _ _ _ _ x h2,
      afterStdout_frame _ _ _ _ x h1, afterStdin_frame _ _ _ _ x h0]

/-- The calls of `open` of a successful `apply_redirects`. -/
theorem apply_redirects_opens_ok (env : Env) (cmd : Command) (backup : Option FdBackup)
    (s : Sys) (hok : (apply_redirects env cmd backup s).1 = true) :
    (apply_redirects env cmd backup s).2.2.opens = s.opens ++ plannedOpens cmd := by
  rw [apply_redirects_eq] at hok ⊢
  have hall : (afterStderr env cmd backup s).2.opens = s.opens ++ plannedOpens cmd := by
    simp only [afterStderr_opens, afterStdout_opens, afterStdin_opens, plannedOpens,
      List.append_assoc]
    rfl
  split_ifs at hok ⊢ <;> first
    | (exfalso; simp at hok; done)
    | simp only [sys_dup2_opens, hall]

/-- The calls of `open` of `apply_redirects` are always the first ones of the
plan: it stops at the first failure. -/
theorem apply_redirects_opens_prefix (env : Env) (cmd : Command) (backup : Option FdBackup)
    (s : Sys) :
    ∃ k, (apply_redirects env cmd backup s).2.2.opens = s.opens ++ (plannedOpens cmd).take k := by
  rw [apply_redirects_eq]
  by_cases h0 : (afterStdin env cmd backup s).1 = false
  · refine ⟨(openEntry cmd.stdin_file OFlag.rdonly).length, ?_⟩
    rw [if_pos h0]
    simp only [afterStdin_opens, plannedOpens]
    rw [List.append_assoc, List.take_left]
  · rw [if_neg h0]
    by_cases h1 : (afterStdout env cmd backup s).1 = false
    · refine ⟨(openEntry cmd.stdin_file OFlag.rdonly ++
        openEntry cmd.stdout_file (openFlags cmd)).length, ?_⟩
      rw [if_pos h1]
      simp only [afterStdout_opens, afterStdin_opens, plannedOpens]
      have : (if cmd.append_bool = true then OFlag.append else OFlag.trunc) = openFlags cmd := rfl
      rw [this, List.take_left, List.append_assoc]
    · rw [if_neg h1]
      refine ⟨(plannedOpens cmd).length, ?_⟩
      rw [List.take_length]
      have hall : (afterStderr env cmd backup s).2.opens = s.opens ++ plannedOpens cmd := by
        simp only [afterStderr_opens, afterStdout_opens, afterStdin_opens, plannedOpens,
          List.append_assoc]
        rfl
      split_ifs <;> simp only [sys_dup2_opens, hall]

theorem parseLoop_ne_nil : ∀ (toks : List String) (cur : Command), parseLoop toks cur ≠ [] := by
  apply tokens_induction
  · intro cur; simp [parseLoop]
  · intro t cur
    simp only [parseLoop]
    split_ifs <;> simp
  · intro t f rest ih1 ih2 cur
    rw [parseLoop_cons_cons]
    split_ifs <;> first
      | exact ih1 _
      | exact ih2 _
      | simp

/-- A redirection operator with an operand: the loop sets its fields and goes on
after the operand. -/
theorem parseLoop_applyRedirect (t f : String) (rest : List String) (cur : Command)
    (hr : isRedirect t = true) :
    parseLoop (t :: f :: rest) cur = parseLoop rest (applyRedirect t f cur) := by
  simp only [isRedirect, Bool.or_eq_true, decide_eq_true_eq] at hr
  rw [parseLoop_cons_cons]
  unfold applyRedirect
  rcases hr with (((((((rfl | rfl) | rfl) | rfl) | rfl) | rfl) | rfl) | rfl) | rfl <;> simp

theorem applyRedirect_merge (t f : String) (cur : Command) :
    applyRedirect t f { cur with merge_err := true } =
      { applyRedirect t f cur with merge_err := true } := by
  unfold applyRedirect
  split_ifs <;> rfl

/-- Starting the loop with the flag `merge_err` set only sets the flag on the
first stage of the result. -/
theorem parseLoop_merge_head : ∀ (toks : List String) (cur : Command),
    parseLoop toks { cur with merge_err := true } = setHeadMerge (parseLoop toks cur) := by
  apply tokens_induction
  · intro cur; rfl
  · intro t cur
    simp only [parseLoop]
    split_ifs <;> rfl
  · intro t f rest ih1 ih2 cur
    by_cases h1 : t = "|"
    · subst h1
      rw [parseLoop_pipe, parseLoop_pipe]
      rfl
    · by_cases hr : isRedirect t = true
      · rw [parseLoop_applyRedirect _ _ _ _ hr, parseLoop_applyRedirect _ _ _ _ hr,
          applyRedirect_merge]
        exact ih2 (applyRedirect t f cur)
      · have hr2 : isRedirect t = false := by simpa using hr
        by_cases hm : t = "2>&1"
        · subst hm
          rw [parseLoop_merge, parseLoop_merge]
          exact ih1 { cur with merge_err := true }
        · rw [parseLoop_other t f rest _ h1 hr2 hm, parseLoop_other t f rest _ h1 hr2 hm]
          exact ih1 { cur with argv := cur.argv ++ [t] }

/-- The token `2>&1` behind tokens that do not end in an operator: the stage is
the one parsed without the token, with the flag `merge_err` set. -/
theorem parseLoop_merge_anywhere : ∀ (A : List String) (cur : Command) (B : List String)
    (c : Command), endsWithOperator A = false → parseLoop (A ++ B) cur = [c] →
      parseLoop (A ++ "2>&1" :: B) cur = [{ c with merge_err := true }] := by
  have base : ∀ (cur : Command) (B : List String) (c : Command), parseLoop B cur = [c] →
      parseLoop ("2>&1" :: B) cur = [{ c with merge_err := true }] := by
    intro cur B c h
    have hm : parseLoop ("2>&1" :: B) cur = parseLoop B { cur with merge_err := true } := by
      cases B with
      | nil => simp [parseLoop]
      | cons b B => exact parseLoop_merge b B cur
    rw [hm, parseLoop_merge_head, h]
    rfl
  apply tokens_induction
  · intro cur B c _ h
    exact base cur B c h
  · intro t cur B c hA h
    have ht : isOperator t = false := by simpa [endsWithOperator] using hA
    simp only [List.singleton_append] at h ⊢
    rw [parseLoop_word _ _ _ ht] at h ⊢
    exact base _ B c h
  · intro t f rest ih1 ih2 cur B c hA h
    have hA1 : endsWithOperator (f :: rest) = false := by
      simpa [endsWithOperator, List.getLast?_cons_cons] using hA
    have hA2 : endsWithOperator rest = false := by
      cases rest with
      | nil => rfl
      | cons r rest => simpa [endsWithOperator, List.getLast?_cons_cons] using hA1
    simp only [List.cons_append] at h ⊢
    by_cases h1 : t = "|"
    · subst h1
      rw [parseLoop_pipe] at h
      exfalso
      have hne := parseLoop_ne_nil (f :: (rest ++ B)) {}
      simp only [List.cons.injEq] at h
      exact hne h.2
    · by_cases hr : isRedirect t = true
      · rw [parseLoop_applyRedirect _ _ _ _ hr] at h ⊢
        exact ih2 _ B c hA2 h
      · have hr2 : isRedirect t = false := by simpa using hr
        by_cases hm : t = "2>&1"
        · subst hm
          rw [parseLoop_merge] at h ⊢
          exact ih1 _ B c hA1 h
        · rw [parseLoop_other t f _ _ h1 hr2 hm] at h ⊢
          exact ih1 _ B c hA1 h

/-- C19: one append flag per stage, the last redirection wins.  For every token
list the append flags of the stages are the ones that the redirection operators
of each stage decide (the last operator for stdout or stderr, true for `>>`,
`1>>`, `2>>`, false otherwise and when there is none); every successful
`apply_redirects` opens stdout and stderr with the flag that this one field
chooses; and the two examples: in `cmd >> out 2> err` both files are opened
truncating, in `cmd > out 2>> err` both are opened appending. -/
theorem append_flag_last_wins :
    (∀ toks : List String,
      (parse_command toks).map Command.append_bool = (stageRedirects toks).map appendOf) ∧
    (∀ (env : Env) (cmd : Command) (backup : Option FdBackup) (s : Sys),
      (apply_redirects env cmd backup s).1 = true →
        (apply_redirects env cmd backup s).2.2.opens =
          s.opens ++ openEntry cmd.stdin_file OFlag.rdonly ++
            openEntry cmd.stdout_file (if cmd.append_bool then OFlag.append else OFlag.trunc) ++
            openEntry cmd.stderr_file (if cmd.append_bool then OFlag.append else OFlag.trunc)) ∧
    parse_command ["cmd", ">>", "out", "2>", "err"] =
      [{ argv := ["cmd"], stdout_file := some "out", stderr_file := some "err",
         append_bool := false }] ∧
    (apply_redirects env0
      { argv := ["cmd"], stdout_file := some "out", stderr_file := some "err",
        append_bool := false } none sys0).2.2.opens =
      [("out", OFlag.trunc), ("err", OFlag.trunc)] ∧
    parse_command ["cmd", ">", "out", "2>>", "err"] =
      [{ argv := ["cmd"], stdout_file := some "out", stderr_file := some "err",
         append_bool := true }] ∧
    (apply_redirects env0
      { argv := ["cmd"], stdout_file := some "out", stderr_file := some "err",
        append_bool := true } none sys0).2.2.opens =
      [("out", OFlag.append), ("err", OFlag.append)] := by
  refine ⟨?_, ?_, by decide, by decide, by decide, by decide⟩
  · intro toks
    have h := parseLoop_append toks {} [] rfl
    rw [prependHead_nil_of_ne _ (stageRedirects_ne_nil toks)] at h
    exact h
  · intro env cmd backup s hok
    rw [apply_redirects_opens_ok env cmd backup s hok, plannedOpens]
    simp only [List.append_assoc]

/-- C19 at `cmd > out 2>> err` in a shell with its three streams. -/
theorem append_flag_last_wins_witness :
    (apply_redirects env0
      { argv := ["cmd"], stdout_file := some "out", stderr_file := some "err",
        append_bool := true } none sys0).2.2.opens =
      sys0.opens ++ openEntry none OFlag.rdonly ++ openEntry (some "out") OFlag.append ++
        openEntry (some "err") OFlag.append :=
  append_flag_last_wins.2.1 env0
    { argv := ["cmd"], stdout_file := some "out", stderr_file := some "err",
      append_bool := true } none sys0 (by decide)

/-! ## The fuel of the tokenizer loops is enough -/

/-- Induction in steps of one and two elements, as the loops consume them. -/
theorem list_two_step {α : Type} {P : List α → Prop} (h0 : P [])
    (h1 : ∀ a, P [a])
    (h2 : ∀ a b rest, P (b :: rest) → P rest → P (a :: b :: rest)) :
    ∀ l, P l := by
  have key : ∀ n : Nat, ∀ l : List α, l.length ≤ n → P l := by
    intro n
    induction n with
    | zero =>
      intro l hn
      have : l = [] := List.length_eq_zero.1 (Nat.le_zero.1 hn)
      subst this; exact h0
    | succ n ih =>
      intro l hn
      cases l with
      | nil => exact h0
      | cons a tl =>
        cases tl with
        | nil => exact h1 a
        | cons b rest =>
          have hlen1 : (b :: rest).length ≤ n := by simpa using hn
          have hlen2 : rest.length ≤ n := by
            have : rest.length + 1 ≤ n := by simpa using hn
            omega
          exact h2 a b rest (ih _ hlen1) (ih _ hlen2)
  intro l
  exact key l.length l (Nat.le_refl _)

/-- The quoted-region loop only consumes input and never overfills the word. -/
theorem quoteLoop_bounds (quote : Char) : ∀ (inp word : List Char),
    (quoteLoop quote inp word).2.length ≤ inp.length ∧
      (word.length ≤ SIZE - 1 → (quoteLoop quote inp word).1.length ≤ SIZE - 1) := by
  apply list_two_step
  · intro word; simp [quoteLoop]
  · intro c word
    simp only [quoteLoop]
    split_ifs with h
    · refine ⟨by simp, fun _ => ?_⟩
      simp only [List.length_append, List.length_singleton]
      omega
    · exact ⟨Nat.le_refl _, fun hw => hw⟩
  · intro c d rest ih1 ih2 word
    rw [quoteLoop_cons_cons]
    split_ifs with h h'
    · refine ⟨?_, fun _ => ?_⟩
      · have := (ih2 (word ++ [d])).1
        simp only [List.length_cons]; omega
      · apply (ih2 (word ++ [d])).2
        simp only [List.length_append, List.length_singleton]; omega
    · refine ⟨?_, fun _ => ?_⟩
      · have := (ih1 (word ++ [c])).1
        simp only [List.length_cons] at this ⊢; omega
      · apply (ih1 (word ++ [c])).2
        simp only [List.length_append, List.length_singleton]; omega
    · exact ⟨Nat.le_refl _, fun hw => hw⟩

theorem skipClosing_length (quote : Char) (l : List Char) :
    (skipClosing quote l).length ≤ l.length := by
  cases l with
  | nil => simp [skipClosing]
  | cons c rest =>
    simp only [skipClosing]
    split_ifs <;> simp

/-- One iteration of the word loop consumes the character it looks at, and
keeps the word within the buffer. -/
theorem wordStep_bounds (c : Char) (rest word : List Char) :
    (wordStep c rest word).2.length ≤ rest.length ∧
      (word.length < SIZE - 1 → (wordStep c rest word).1.length ≤ SIZE - 1) := by
  by_cases h : c = squote ∨ c = dquote
  · have e : wordStep c rest word =
        ((quoteLoop c rest word).1, skipClosing c (quoteLoop c rest word).2) := by
      unfold wordStep; rw [if_pos h]
    rw [e]
    refine ⟨?_, fun hw => ?_⟩
    · exact Nat.le_trans (skipClosing_length _ _) (quoteLoop_bounds c rest word).1
    · exact (quoteLoop_bounds c rest word).2 (by omega)
  · cases rest with
    | nil =>
      have e : wordStep c [] word = (word ++ [c], []) := by
        unfold wordStep; rw [if_neg h]
      rw [e]
      refine ⟨by simp, fun hw => ?_⟩
      simp only [List.length_append, List.length_singleton]; omega
    | cons d rest1 =>
      by_cases h2 : c = backslash ∧ word.length < SIZE - 1
      · have e : wordStep c (d :: rest1) word = (word ++ [d], rest1) := by
          unfold wordStep; rw [if_neg h]; simp only; rw [if_pos h2]
        rw [e]
        refine ⟨by simp, fun hw => ?_⟩
        simp only [List.length_append, List.length_singleton]; omega
      · have e : wordStep c (d :: rest1) word = (word ++ [c], d :: rest1) := by
          unfold wordStep; rw [if_neg h]; simp only; rw [if_neg h2]
        rw [e]
        refine ⟨by simp, fun hw => ?_⟩
        simp only [List.length_append, List.length_singleton]; omega

/-- The word loop in terms of one iteration. -/
theorem wordLoop_step (fuel : Nat) (c : Char) (rest word : List Char) (overflow : Bool) :
    wordLoop (fuel + 1) (c :: rest) word overflow =
      if isspace c then (word, c :: rest)
      else if SIZE - 1 ≤ word.length then (word, c :: rest)
      else if overflow then
        wordLoop fuel ((wordStep c rest word).2.dropWhile (fun x => !isspace x))
          (setWordPos (wordStep c rest word).1) overflow
      else wordLoop fuel (wordStep c rest word).2 (wordStep c rest word).1 overflow := by
  rw [wordLoop_succ_cons]
  unfold wordStep
  split_ifs <;> rfl

theorem setWordPos_length (word : List Char) : (setWordPos word).length = SIZE - 1 := by
  unfold setWordPos
  simp only [List.length_append, List.length_take, List.length_replicate]
  omega

theorem dropWhile_length_le (p : Char → Bool) (l : List Char) :
    (l.dropWhile p).length ≤ l.length := by
  induction l with
  | nil => simp
  | cons a l ih =>
    simp only [List.dropWhile_cons]
    split_ifs
    · simp only [List.length_cons]; omega
    · exact Nat.le_refl _

/-- The word loop only consumes input, keeps the word within the buffer, and
gives the same result for every fuel that is at least the length of the input:
the fuel never ends the loop. -/
theorem wordLoop_bounds (fuel : Nat) : ∀ (inp word : List Char) (overflow : Bool),
    (wordLoop fuel inp word overflow).2.length ≤ inp.length ∧
      (word.length ≤ SIZE - 1 → (wordLoop fuel inp word overflow).1.length ≤ SIZE - 1) ∧
      (inp.length ≤ fuel → ∀ g, inp.length ≤ g →
        wordLoop fuel inp word overflow = wordLoop g inp word overflow) := by
  induction fuel with
  | zero =>
    intro inp word overflow
    refine ⟨by simp [wordLoop], fun hw => by simpa [wordLoop] using hw, ?_⟩
    intro hlen g _
    have : inp = [] := List.length_eq_zero.1 (Nat.le_zero.1 hlen)
    subst this
    rw [wordLoop_nil, wordLoop_nil]
  | succ fuel ih =>
    intro inp word overflow
    cases inp with
    | nil =>
      refine ⟨by simp [wordLoop_nil], fun hw => by simpa [wordLoop_nil] using hw, ?_⟩
      intro _ g _
      rw [wordLoop_nil, wordLoop_nil]
    | cons c rest =>
      have hs := wordStep_bounds c rest word
      have hd := dropWhile_length_le (fun x => !isspace x) (wordStep c rest word).2
      refine ⟨?_, ?_, ?_⟩
      · rw [wordLoop_step]
        split_ifs
        · exact Nat.le_refl _
        · exact Nat.le_refl _
        · have := (ih ((wordStep c rest word).2.dropWhile (fun x => !isspace x))
            (setWordPos (wordStep c rest word).1) overflow).1
          simp only [List.length_cons]; omega
        · have := (ih (wordStep c rest word).2 (wordStep c rest word).1 overflow).1
          simp only [List.length_cons]; omega
      · intro hw
        rw [wordLoop_step]
        split_ifs with h1 h2 h3
        · exact hw
        · exact hw
        · exact (ih _ _ overflow).2.1 (by rw [setWordPos_length])
        · exact (ih _ _ overflow).2.1 (hs.2 (by omega))
      · intro hlen g hg
        cases g with
        | zero => simp at hg
        | succ g =>
          simp only [List.length_cons] at hlen hg
          rw [wordLoop_step, wordLoop_step]
          split_ifs
          · rfl
          · rfl
          · exact (ih _ _ overflow).2.2 (by omega) g (by omega)
          · exact (ih _ _ overflow).2.2 (by omega) g (by omega)

/-- The first word of an input that starts with a character that is not
whitespace: the word loop consumes at least that character. -/
theorem wordLoop_progress (c : Char) (rest : List Char) (hc : isspace c = false) :
    (wordLoop (c :: rest).length (c :: rest) [] false).2.length ≤ rest.length := by
  simp only [List.length_cons]
  rw [wordLoop_step]
  have h1 : ¬ (SIZE - 1 ≤ ([] : List Char).length) := by simp [SIZE]
  simp only [hc, h1, if_false, Bool.false_eq_true]
  have hs := wordStep_bounds c rest []
  have := (wordLoop_bounds rest.length (wordStep c rest []).2 (wordStep c rest []).1 false).1
  omega

/-! ## Single quotes and the backslash outside quotes -/

theorem squote_ne_dquote : squote ≠ dquote := by decide

/-- The quoted-region loop of a quote other than the double quote copies every
character up to the closing quote unchanged. -/
theorem quoteLoop_literal (quote : Char) (hq : quote ≠ dquote) :
    ∀ (s word : List Char), quote ∉ s → word.length + s.length ≤ SIZE - 1 →
      quoteLoop quote (s ++ [quote]) word = (word ++ s, [quote]) := by
  intro s
  induction s with
  | nil =>
    intro word _ _
    simp [quoteLoop]
  | cons c s ih =>
    intro word hmem hlen
    have hc : c ≠ quote := fun h => hmem (by rw [h]; exact List.mem_cons_self _ _)
    have hs : quote ∉ s := fun h => hmem (List.mem_cons_of_mem _ h)
    simp only [List.length_cons] at hlen
    have hw : word.length < SIZE - 1 := by omega
    have h := ih (word ++ [c]) hs (by
      simp only [List.length_append, List.length_singleton]; omega)
    cases s with
    | nil =>
      simp only [List.nil_append] at h
      simp only [List.cons_append, List.nil_append]
      rw [quoteLoop_cons_cons, if_pos ⟨hc, hw⟩, if_neg (fun h => hq h.1), h]
      simp
    | cons d s1 =>
      simp only [List.cons_append] at h ⊢
      rw [quoteLoop_cons_cons, if_pos ⟨hc, hw⟩, if_neg (fun h => hq h.1), h]
      simp

/-- C15: for every string `s` of at most 4095 characters that contains no single
quote, the line quote, `s`, quote gives exactly one token equal to `s`:
whitespace, double quotes and backslashes of `s` are copied unchanged.  The two
examples of the claim: the body `a`, backslash gives the token `a`, backslash;
the body `a`, two spaces, double quote, `b` gives that very token. -/
theorem tokenize_squote :
    (∀ s : List Char, s.length ≤ 4095 → squote ∉ s →
      tokenize (squote :: s ++ [squote]) = [String.mk s]) ∧
    tokenize (squote :: ['a', backslash] ++ [squote]) = [String.mk ['a', backslash]] ∧
    tokenize (squote :: ['a', ' ', ' ', dquote, 'b'] ++ [squote]) =
      [String.mk ['a', ' ', ' ', dquote, 'b']] := by
  refine ⟨?_, by decide, by decide⟩
  intro s hlen hmem
  have hq := quoteLoop_literal squote squote_ne_dquote s [] hmem
    (by simp only [List.length_nil, SIZE]; omega)
  have hsp : isspace squote = false := by decide
  have hw : wordLoop (squote :: s ++ [squote]).length (squote :: s ++ [squote]) [] false =
      (s, []) := by
    simp only [List.cons_append, List.length_cons]
    rw [wordLoop_succ_cons]
    simp [hsp, hq, skipClosing, wordLoop_nil, SIZE]
  unfold tokenize
  simp only [List.cons_append, List.length_cons] at hw ⊢
  rw [tokenLoop_word _ _ _ _ hsp (by simp [TOKENS])]
  simp only [List.length_cons]
  rw [hw]
  simp [tokenLoop_nil]

/-- C15 at a body with a space, a double quote and a backslash. -/
theorem tokenize_squote_witness :
    tokenize (squote :: ['x', ' ', dquote, backslash, 'y'] ++ [squote]) =
      [String.mk ['x', ' ', dquote, backslash, 'y']] :=
  tokenize_squote.1 ['x', ' ', dquote, backslash, 'y'] (by decide) (by decide)

theorem isspace_backslash : isspace backslash = false := by decide

/-- One iteration of the word loop at a backslash followed by a character: the
backslash is dropped and the character is appended to the word, whatever it is. -/
theorem wordLoop_backslash_step (fuel : Nat) (c : Char) (rest word : List Char)
    (hw : word.length < SIZE - 1) :
    wordLoop (fuel + 1) (backslash :: c :: rest) word false =
      wordLoop fuel rest (word ++ [c]) false := by
  have hw2 : ¬ (SIZE - 1 ≤ word.length) := by omega
  have h1 : ¬ (backslash = squote ∨ backslash = dquote) := by decide
  rw [wordLoop_succ_cons]
  simp only [isspace_backslash, hw2, h1, if_false, Bool.false_eq_true, hw, and_self, if_true]

/-- A plain character is not whitespace. -/
theorem isspace_of_isPlain (c : Char) (hc : isPlain c = true) : isspace c = false := by
  simp only [isPlain, Bool.and_eq_true, Bool.not_eq_true'] at hc
  exact hc.1.1.1

/-- The first word of a line that starts with a character that is not
whitespace and ends with the line. -/
theorem tokenize_one_word (c : Char) (tl w : List Char) (hc : isspace c = false)
    (h : wordLoop (c :: tl).length (c :: tl) [] false = (w, [])) :
    tokenize (c :: tl) = [String.mk w] := by
  unfold tokenize
  simp only [List.length_cons] at h ⊢
  rw [tokenLoop_word _ _ _ _ hc (by simp [TOKENS])]
  simp only [List.length_cons]
  rw [h]
  simp [tokenLoop_nil]

/-- C14: a backslash outside a quoted region that is followed by a character `c`
is dropped and `c` is copied into the current word with no special meaning, for
every `c`.  In the word loop, at any word that has room (first part) and at the
start of a token (second part), the iteration at backslash, `c` continues behind
`c` with `c` appended.  In a whole line of plain characters `ps`, backslash, `c`,
plain characters `qs` the result is the single token `ps`, `c`, `qs`, for every
`c` (third part).  The examples of the claim: `a`, backslash, space, `b` is the
single token `a b`; backslash, double quote is the token double quote;
backslash, backslash is the token backslash. -/
theorem tokenize_backslash :
    (∀ (fuel : Nat) (c : Char) (rest word : List Char), word.length < SIZE - 1 →
      wordLoop (fuel + 1) (backslash :: c :: rest) word false =
        wordLoop fuel rest (word ++ [c]) false) ∧
    (∀ (fuel : Nat) (c : Char) (rest : List Char) (args : List String),
      args.length < TOKENS →
      tokenLoop (fuel + 1) (backslash :: c :: rest) args =
        tokenLoop fuel (wordLoop (rest.length + 1) rest [c] false).2
          (args ++ [String.mk (wordLoop (rest.length + 1) rest [c] false).1])) ∧
    (∀ (ps qs : List Char) (c : Char), (∀ p ∈ ps, isPlain p = true) →
      (∀ q ∈ qs, isPlain q = true) → ps.length + 1 + qs.length ≤ SIZE - 1 →
      tokenize (ps ++ backslash :: c :: qs) = [String.mk (ps ++ c :: qs)]) ∧
    tokenize ['a', backslash, ' ', 'b'] = ["a b"] ∧
    tokenize [backslash, dquote] = [String.mk [dquote]] ∧
    tokenize [backslash, squote] = [String.mk [squote]] ∧
    tokenize [backslash, backslash] = [String.mk [backslash]] := by
  refine ⟨wordLoop_backslash_step, ?_, ?_, by decide, by decide, by decide, by decide⟩
  · intro fuel c rest args hargs
    rw [tokenLoop_word _ _ _ _ isspace_backslash hargs]
    simp only [List.length_cons]
    rw [wordLoop_backslash_step _ _ _ _ (by simp [SIZE])]
    simp
  · intro ps qs c hps hqs hlen
    have hword : ∀ fuel, wordLoop (fuel + qs.length + 1 + ps.length)
        (ps ++ backslash :: c :: qs) [] false = (ps ++ c :: qs, []) := by
      intro fuel
      rw [wordLoop_plain ps hps _ _ [] (by simp only [List.length_nil]; omega)]
      rw [wordLoop_backslash_step _ _ _ _ (by simp only [List.nil_append]; omega)]
      have h := wordLoop_plain qs hqs fuel [] ([] ++ ps ++ [c]) (by
        simp only [List.nil_append, List.length_append, List.length_singleton]; omega)
      simp only [List.append_nil] at h
      rw [h, wordLoop_nil]
      simp
    cases ps with
    | nil =>
      have h := hword 1
      simp only [List.nil_append, List.length_nil, Nat.add_zero] at h ⊢
      refine tokenize_one_word backslash (c :: qs) _ isspace_backslash ?_
      have e : (backslash :: c :: qs).length = 1 + qs.length + 1 := by
        simp only [List.length_cons]; omega
      rw [e]
      exact h
    | cons p ps1 =>
      have h := hword 1
      have hp : isspace p = false := isspace_of_isPlain p (hps p (List.mem_cons_self _ _))
      simp only [List.cons_append] at h ⊢
      refine tokenize_one_word p _ _ hp ?_
      have e : (p :: (ps1 ++ backslash :: c :: qs)).length =
          1 + qs.length + 1 + (p :: ps1).length := by
        simp only [List.length_cons, List.length_append]; omega
      rw [e]
      exact h

/-- C14 at the line `ab`, backslash, space, `cd`: one token, with the space. -/
theorem tokenize_backslash_witness :
    tokenize (['a', 'b'] ++ backslash :: ' ' :: ['c', 'd']) =
      [String.mk (['a', 'b'] ++ ' ' :: ['c', 'd'])] :=
  tokenize_backslash.2.2.1 ['a', 'b'] ['c', 'd'] ' ' (by decide) (by decide) (by decide)

/-! ## The token-count bound -/

theorem tokenLoop_succ (fuel : Nat) (inp : List Char) (args : List String) :
    tokenLoop (fuel + 1) inp args =
      if inp ≠ [] ∧ args.length < TOKENS then
        if inp.dropWhile isspace = [] then args
        else
          tokenLoop fuel
            (wordLoop (inp.dropWhile isspace).length (inp.dropWhile isspace) [] false).2
            (args ++ [String.mk
              (wordLoop (inp.dropWhile isspace).length (inp.dropWhile isspace) [] false).1])
      else args := by
  rw [tokenLoop]

theorem tokenLoopUnbounded_succ (fuel : Nat) (inp : List Char) (args : List String) :
    tokenLoopUnbounded (fuel + 1) inp args =
      if inp ≠ [] then
        if inp.dropWhile isspace = [] then args
        else
          tokenLoopUnbounded fuel
            (wordLoop (inp.dropWhile isspace).length (inp.dropWhile isspace) [] false).2
            (args ++ [String.mk
              (wordLoop (inp.dropWhile isspace).length (inp.dropWhile isspace) [] false).1])
      else args := by
  rw [tokenLoopUnbounded]

theorem tokenLoopUnbounded_nil (fuel : Nat) (args : List String) :
    tokenLoopUnbounded fuel [] args = args := by
  cases fuel <;> simp [tokenLoopUnbounded]

/-- What is left of the line after one word is shorter than the line. -/
theorem word_remainder_lt (inp : List Char) (h : inp.dropWhile isspace ≠ []) :
    (wordLoop (inp.dropWhile isspace).length (inp.dropWhile isspace) [] false).2.length <
      inp.length := by
  have hle := dropWhile_length_le isspace inp
  obtain ⟨c, rest, e⟩ := List.exists_cons_of_ne_nil h
  have hc : isspace c = false := by
    have := List.head_dropWhile_not isspace inp h
    simpa [e] using this
  rw [e] at hle ⊢
  have := wordLoop_progress c rest hc
  simp only [List.length_cons] at hle this ⊢
  omega

/-- The outer loop gives the same tokens for every fuel that is at least the
length of the input: the fuel never ends the loop. -/
theorem tokenLoop_fuel (f : Nat) : ∀ (g : Nat) (inp : List Char) (args : List String),
    inp.length ≤ f → inp.length ≤ g → tokenLoop f inp args = tokenLoop g inp args := by
  induction f with
  | zero =>
    intro g inp args hf _
    have : inp = [] := List.length_eq_zero.1 (Nat.le_zero.1 hf)
    subst this
    rw [tokenLoop_nil, tokenLoop_nil]
  | succ f ih =>
    intro g inp args hf hg
    cases g with
    | zero =>
      have : inp = [] := List.length_eq_zero.1 (Nat.le_zero.1 hg)
      subst this
      rw [tokenLoop_nil, tokenLoop_nil]
    | succ g =>
      rw [tokenLoop_succ, tokenLoop_succ]
      by_cases h1 : inp ≠ [] ∧ args.length < TOKENS
      · rw [if_pos h1, if_pos h1]
        by_cases h2 : inp.dropWhile isspace = []
        · rw [if_pos h2, if_pos h2]
        · rw [if_neg h2, if_neg h2]
          have := word_remainder_lt inp h2
          exact ih g _ _ (by omega) (by omega)
      · rw [if_neg h1, if_neg h1]

/-- The same for the loop without the count bound. -/
theorem tokenLoopUnbounded_fuel (f : Nat) :
    ∀ (g : Nat) (inp : List Char) (args : List String),
      inp.length ≤ f → inp.length ≤ g →
      tokenLoopUnbounded f inp args = tokenLoopUnbounded g inp args := by
  induction f with
  | zero =>
    intro g inp args hf _
    have : inp = [] := List.length_eq_zero.1 (Nat.le_zero.1 hf)
    subst this
    rw [tokenLoopUnbounded_nil, tokenLoopUnbounded_nil]
  | succ f ih =>
    intro g inp args hf hg
    cases g with
    | zero =>
      have : inp = [] := List.length_eq_zero.1 (Nat.le_zero.1 hg)
      subst this
      rw [tokenLoopUnbounded_nil, tokenLoopUnbounded_nil]
    | succ g =>
      rw [tokenLoopUnbounded_succ, tokenLoopUnbounded_succ]
      by_cases h1 : inp ≠ []
      · rw [if_pos h1, if_pos h1]
        by_cases h2 : inp.dropWhile isspace = []
        · rw [if_pos h2, if_pos h2]
        · rw [if_neg h2, if_neg h2]
          have := word_remainder_lt inp h2
          exact ih g _ _ (by omega) (by omega)
      · rw [if_neg h1, if_neg h1]

/-- The loop without the count bound only appends to the tokens it has. -/
theorem tokenLoopUnbounded_prefix (fuel : Nat) : ∀ (inp : List Char) (args : List String),
    ∃ more, tokenLoopUnbounded fuel inp args = args ++ more := by
  induction fuel with
  | zero => intro inp args; exact ⟨[], by simp [tokenLoopUnbounded]⟩
  | succ fuel ih =>
    intro inp args
    rw [tokenLoopUnbounded_succ]
    split_ifs
    · exact ⟨[], by simp⟩
    · obtain ⟨more, e⟩ := ih
        (wordLoop (inp.dropWhile isspace).length (inp.dropWhile isspace) [] false).2
        (args ++ [String.mk
          (wordLoop (inp.dropWhile isspace).length (inp.dropWhile isspace) [] false).1])
      exact ⟨[String.mk
          (wordLoop (inp.dropWhile isspace).length (inp.dropWhile isspace) [] false).1] ++ more,
        by rw [e]; simp⟩
    · exact ⟨[], by simp⟩

/-- The outer loop gives the first `TOKENS` tokens of the loop without the bound. -/
theorem tokenLoop_take (fuel : Nat) : ∀ (inp : List Char) (args : List String),
    args.length ≤ TOKENS →
      tokenLoop fuel inp args = (tokenLoopUnbounded fuel inp args).take TOKENS := by
  induction fuel with
  | zero =>
    intro inp args h
    simp only [tokenLoop, tokenLoopUnbounded]
    rw [List.take_of_length_le h]
  | succ fuel ih =>
    intro inp args h
    by_cases h0 : inp = []
    · subst h0
      rw [tokenLoop_nil, tokenLoopUnbounded_nil, List.take_of_length_le h]
    · by_cases h1 : args.length < TOKENS
      · rw [tokenLoop_succ, tokenLoopUnbounded_succ, if_pos ⟨h0, h1⟩, if_pos h0]
        by_cases h2 : inp.dropWhile isspace = []
        · rw [if_pos h2, if_pos h2, List.take_of_length_le h]
        · rw [if_neg h2, if_neg h2]
          apply ih
          simp only [List.length_append, List.length_singleton]
          omega
      · rw [tokenLoop_succ, if_neg (fun hh => h1 hh.2)]
        obtain ⟨more, e⟩ := tokenLoopUnbounded_prefix (fuel + 1) inp args
        have hlen : args.length = TOKENS := by omega
        rw [e, ← hlen, List.take_left]

/-- The tokens stored by the outer loop: never more than `TOKENS`, each of at
most `SIZE - 1` characters. -/
theorem tokenLoop_bounds (fuel : Nat) : ∀ (inp : List Char) (args : List String),
    args.length ≤ TOKENS → (∀ t ∈ args, t.data.length ≤ SIZE - 1) →
      (tokenLoop fuel inp args).length ≤ TOKENS ∧
        ∀ t ∈ tokenLoop fuel inp args, t.data.length ≤ SIZE - 1 := by
  induction fuel with
  | zero => intro inp args h1 h2; exact ⟨h1, h2⟩
  | succ fuel ih =>
    intro inp args h1 h2
    rw [tokenLoop_succ]
    split_ifs with h3 h4
    · exact ⟨h1, h2⟩
    · apply ih
      · simp only [List.length_append, List.length_singleton]; omega
      · intro t ht
        rcases List.mem_append.1 ht with ht | ht
        · exact h2 t ht
        · rw [List.mem_singleton.1 ht]
          exact (wordLoop_bounds _ _ [] false).2.1 (by simp)
    · exact ⟨h1, h2⟩

/-- The line of `n` words holds `n` words for the tokenizer without the bound. -/
theorem tokenLoopUnbounded_wordsLine (n : Nat) : ∀ (fuel : Nat) (args : List String),
    (wordsLine n).length ≤ fuel →
      tokenLoopUnbounded fuel (wordsLine n) args = args ++ List.replicate n "a" := by
  induction n with
  | zero =>
    intro fuel args _
    simp [wordsLine, tokenLoopUnbounded_nil]
  | succ n ih =>
    intro fuel args hf
    cases fuel with
    | zero => simp [wordsLine] at hf
    | succ fuel =>
      have hw : wordLoop ('a' :: ' ' :: wordsLine n).length ('a' :: ' ' :: wordsLine n) []
          false = (['a'], ' ' :: wordsLine n) := by
        simp only [List.length_cons]
        rw [wordLoop_plain_step _ _ _ _ (by decide) (by simp [SIZE]), wordLoop_succ_cons]
        simp [isspace]
      have hd : ('a' :: ' ' :: wordsLine n).dropWhile isspace = 'a' :: ' ' :: wordsLine n := by
        rw [List.dropWhile_cons_of_neg (by decide)]
      simp only [wordsLine, List.length_cons] at hf ⊢
      rw [tokenLoopUnbounded_succ, if_pos (by simp), hd, if_neg (by simp), hw]
      simp only
      cases fuel with
      | zero => omega
      | succ fuel =>
        have hd2 : (' ' :: wordsLine n).dropWhile isspace = (wordsLine n).dropWhile isspace := by
          rw [List.dropWhile_cons_of_pos (by decide)]
        have e : tokenLoopUnbounded (fuel + 1) (' ' :: wordsLine n) (args ++ ["a"]) =
            tokenLoopUnbounded (fuel + 1) (wordsLine n) (args ++ ["a"]) := by
          rw [tokenLoopUnbounded_succ, tokenLoopUnbounded_succ, hd2, if_pos (by simp)]
          by_cases h : wordsLine n = []
          · rw [h]; simp
          · rw [if_pos h]
        have e2 : String.mk ['a'] = "a" := rfl
        rw [e2, e, ih _ _ (by omega), List.replicate_succ]
        simp

/-- C13: for every input line `tokenize` returns at most `TOKENS` = 128 tokens,
and they are exactly the first 128 of the tokens that the tokenizer without the
count bound returns, in order: so the count is the smaller of 128 and the number
of words of the line, and the text behind the 128th word contributes nothing.
Both tokenizers are total, and their result does not depend on the fuel of the
model.  A line of 130 words `a` gives 128 tokens `a`. -/
theorem tokenize_count_bound :
    (∀ line : List Char, (tokenize line).length ≤ 128 ∧
      tokenize line = (tokenizeUnbounded line).take 128 ∧
      (tokenize line).length = min 128 (tokenizeUnbounded line).length) ∧
    (∀ (line : List Char) (fuel : Nat), line.length ≤ fuel →
      tokenLoop fuel line [] = tokenize line ∧
        tokenLoopUnbounded fuel line [] = tokenizeUnbounded line) ∧
    tokenizeUnbounded (wordsLine 130) = List.replicate 130 "a" ∧
    tokenize (wordsLine 130) = List.replicate 128 "a" := by
  have key : ∀ line : List Char, tokenize line = (tokenizeUnbounded line).take 128 :=
    fun line => tokenLoop_take line.length line [] (by simp)
  have h130 : tokenizeUnbounded (wordsLine 130) = List.replicate 130 "a" := by
    have := tokenLoopUnbounded_wordsLine 130 (wordsLine 130).length [] (Nat.le_refl _)
    simpa [tokenizeUnbounded] using this
  refine ⟨fun line => ⟨?_, key line, ?_⟩, fun line fuel h => ⟨?_, ?_⟩, h130, ?_⟩
  · rw [key, List.length_take]
    exact Nat.min_le_left _ _
  · rw [key, List.length_take]
  · exact tokenLoop_fuel fuel line.length line [] h (Nat.le_refl _)
  · exact tokenLoopUnbounded_fuel fuel line.length line [] h (Nat.le_refl _)
  · rw [key, h130, List.take_replicate]
    rfl

/-! ## Plain words and the whitespace between them -/

theorem joinSpace_cons (t : String) : ∀ rest : List String,
    joinSpace (t :: rest) = t.data ++ layout (rest.map (fun u => ([' '], u.data))) := by
  intro rest
  induction rest generalizing t with
  | nil => simp [joinSpace, layout]
  | cons u rest ih =>
    rw [joinSpace, ih u]
    simp [layout]

theorem joinSpace_eq_layout (ts : List String) : joinSpace ts = layout (spaceItems ts) := by
  cases ts with
  | nil => rfl
  | cons t rest =>
    rw [joinSpace_cons]
    simp [spaceItems, layout]

theorem spaceItems_words (ts : List String) :
    (spaceItems ts).map (fun p => String.mk p.2) = ts := by
  cases ts with
  | nil => rfl
  | cons t rest =>
    simp only [spaceItems, List.map_cons, List.map_map]
    congr 1
    induction rest with
    | nil => rfl
    | cons u rest ih => simp only [List.map_cons, Function.comp]; rw [← ih]; simp

/-- The word loop over a plain word that is followed by whitespace or by the end
of the line. -/
theorem wordLoop_plain_word (w rem : List Char) (hw : ∀ p ∈ w, isPlain p = true)
    (hlen : w.length ≤ SIZE - 1) (hrem : ∀ c ∈ rem.head?, isspace c = true) :
    wordLoop (w ++ rem).length (w ++ rem) [] false = (w, rem) := by
  rw [List.length_append, Nat.add_comm,
    wordLoop_plain w hw rem.length rem [] (by simpa using hlen)]
  cases rem with
  | nil => rw [wordLoop_nil]; simp
  | cons c r =>
    have hc : isspace c = true := hrem c (by simp)
    simp only [List.length_cons, List.nil_append]
    rw [wordLoop_succ_cons]
    simp [hc]

theorem dropWhile_isspace_gap (gap rest : List Char) (hgap : ∀ c ∈ gap, isspace c = true) :
    (gap ++ rest).dropWhile isspace = rest.dropWhile isspace := by
  induction gap with
  | nil => rfl
  | cons c gap ih =>
    have hc : isspace c = true := hgap c (List.mem_cons_self _ _)
    simp only [List.cons_append]
    rw [List.dropWhile_cons_of_pos hc]
    exact ih (fun x hx => hgap x (List.mem_cons_of_mem _ hx))

theorem tokenLoop_whitespace (fuel : Nat) (tail : List Char) (args : List String)
    (htail : ∀ c ∈ tail, isspace c = true) : tokenLoop fuel tail args = args := by
  cases fuel with
  | zero => rfl
  | succ fuel =>
    rw [tokenLoop_succ]
    have h : tail.dropWhile isspace = [] := by
      rw [List.dropWhile_eq_nil_iff]
      exact htail
    rw [if_pos h]
    split_ifs <;> rfl

theorem isPlainWord_iff (w : List Char) :
    isPlainWord w = true ↔ w ≠ [] ∧ ∀ p ∈ w, isPlain p = true := by
  cases w <;> simp [isPlainWord]

/-- The tokenizer over a line laid out as plain words with whitespace in front
of each (not necessarily in front of the first) and whitespace at the end: the
tokens are the words. -/
theorem tokenLoop_layout : ∀ (items : List (List Char × List Char)) (args : List String)
    (fuel : Nat) (tail : List Char),
    (∀ p ∈ items, (∀ c ∈ p.1, isspace c = true) ∧ isPlainWord p.2 = true ∧
      p.2.length ≤ SIZE - 1) →
    (∀ p ∈ items.tail, p.1 ≠ []) →
    (∀ c ∈ tail, isspace c = true) →
    args.length + items.length ≤ TOKENS →
    (layout items ++ tail).length ≤ fuel →
    tokenLoop fuel (layout items ++ tail) args = args ++ items.map (fun p => String.mk p.2) := by
  intro items
  induction items with
  | nil =>
    intro args fuel tail _ _ htail _ _
    simp only [layout, List.nil_append, List.map_nil, List.append_nil]
    exact tokenLoop_whitespace fuel tail args htail
  | cons p rest ih =>
    intro args fuel tail hitems hgaps htail hcount hfuel
    obtain ⟨hgap, hplain, hlen⟩ := hitems p (List.mem_cons_self _ _)
    obtain ⟨hne, hall⟩ := (isPlainWord_iff p.2).1 hplain
    obtain ⟨c, w, hcw⟩ := List.exists_cons_of_ne_nil hne
    have hc : isspace c = false :=
      isspace_of_isPlain c (hall c (by rw [hcw]; exact List.mem_cons_self _ _))
    -- what follows the word starts with whitespace, or is empty
    have hrem : ∀ x ∈ (layout rest ++ tail).head?, isspace x = true := by
      cases rest with
      | nil =>
        intro x hx
        simp only [layout, List.nil_append] at hx
        exact htail x (List.mem_of_mem_head? hx)
      | cons q rest1 =>
        have hq1 : q.1 ≠ [] := hgaps q (by simp)
        obtain ⟨g, gs, hg⟩ := List.exists_cons_of_ne_nil hq1
        have hqg := (hitems q (by simp)).1
        intro x hx
        simp only [layout, hg, List.cons_append, List.head?_cons, Option.mem_def,
          Option.some.injEq] at hx
        rw [← hx]
        exact hqg g (by rw [hg]; exact List.mem_cons_self _ _)
    have hinp : layout (p :: rest) ++ tail = p.1 ++ (p.2 ++ (layout rest ++ tail)) := by
      simp [layout]
    have hdrop : (layout (p :: rest) ++ tail).dropWhile isspace =
        p.2 ++ (layout rest ++ tail) := by
      rw [hinp, dropWhile_isspace_gap _ _ hgap, hcw, List.cons_append,
        List.dropWhile_cons_of_neg (by simp [hc])]
    have hword := wordLoop_plain_word p.2 (layout rest ++ tail) hall hlen hrem
    have hlenle : (layout rest ++ tail).length < (layout (p :: rest) ++ tail).length := by
      rw [hinp, hcw]
      simp only [List.length_append, List.length_cons]
      omega
    cases fuel with
    | zero => omega
    | succ fuel =>
      have hargs : args.length < TOKENS := by
        simp only [List.length_cons] at hcount; omega
      have hne0 : layout (p :: rest) ++ tail ≠ [] := by
        intro h
        rw [h] at hlenle
        simp at hlenle
      rw [tokenLoop_succ, if_pos ⟨hne0, hargs⟩, hdrop, if_neg (by rw [hcw]; simp), hword]
      simp only
      rw [ih (args ++ [String.mk p.2]) fuel tail
        (fun q hq => hitems q (List.mem_cons_of_mem _ hq))
        (fun q hq => hgaps q (by simpa using List.mem_of_mem_tail hq))
        htail
        (by simp only [List.length_append, List.length_cons, List.length_nil] at hcount ⊢
            omega)
        (by omega)]
      simp

/-- Tokenizing plain words laid out with whitespace gives the words. -/
theorem tokenize_layout (items : List (List Char × List Char)) (tail : List Char)
    (hitems : ∀ p ∈ items, (∀ c ∈ p.1, isspace c = true) ∧ isPlainWord p.2 = true ∧
      p.2.length ≤ SIZE - 1)
    (hgaps : ∀ p ∈ items.tail, p.1 ≠ []) (htail : ∀ c ∈ tail, isspace c = true)
    (hcount : items.length ≤ TOKENS) :
    tokenize (layout items ++ tail) = items.map (fun p => String.mk p.2) := by
  unfold tokenize
  rw [tokenLoop_layout items [] _ tail hitems hgaps htail (by simpa using hcount) (Nat.le_refl _)]
  simp

/-- Tokenizing plain words joined with single spaces gives the words. -/
theorem tokenize_joinSpace (ts : List String) (hcount : ts.length ≤ TOKENS)
    (hts : ∀ t ∈ ts, isPlainWord t.data = true ∧ t.data.length ≤ SIZE - 1) :
    tokenize (joinSpace ts) = ts := by
  have h := tokenize_layout (spaceItems ts) [] ?_ ?_ (by simp) ?_
  · rw [List.append_nil, ← joinSpace_eq_layout, spaceItems_words] at h
    exact h
  · intro p hp
    cases ts with
    | nil => simp [spaceItems] at hp
    | cons t rest =>
      simp only [spaceItems, List.mem_cons, List.mem_map] at hp
      rcases hp with rfl | ⟨u, hu, rfl⟩
      · exact ⟨by simp, hts t (List.mem_cons_self _ _)⟩
      · refine ⟨?_, hts u (List.mem_cons_of_mem _ hu)⟩
        intro c hc
        rw [List.mem_singleton.1 hc]
        decide
  · intro p hp
    cases ts with
    | nil => simp [spaceItems] at hp
    | cons t rest =>
      simp only [spaceItems, List.tail_cons, List.mem_map] at hp
      obtain ⟨u, _, rfl⟩ := hp
      simp
  · have : (spaceItems ts).length = ts.length := by
      cases ts <;> simp [spaceItems]
    rw [this]; exact hcount

/-- C20: `tokenize` is a left inverse of space-joining on plain words.  For
every list `ts` of at most 128 tokens, each not empty, at most 4095 characters
long and without whitespace, quote or backslash, `tokenize (joinSpace ts) = ts`.
The same holds with any amount of extra whitespace: for words laid out with a
run of whitespace in front of each (not empty except possibly in front of the
first) and a run of whitespace at the end, the tokens are the words. -/
theorem tokenize_left_inverse :
    (∀ ts : List String, ts.length ≤ 128 →
      (∀ t ∈ ts, isPlainWord t.data = true ∧ t.data.length ≤ 4095) →
      tokenize (joinSpace ts) = ts) ∧
    (∀ (items : List (List Char × List Char)) (tail : List Char), items.length ≤ 128 →
      (∀ p ∈ items, (∀ c ∈ p.1, isspace c = true) ∧ isPlainWord p.2 = true ∧
        p.2.length ≤ 4095) →
      (∀ p ∈ items.tail, p.1 ≠ []) → (∀ c ∈ tail, isspace c = true) →
      tokenize (layout items ++ tail) = items.map (fun p => String.mk p.2)) :=
  ⟨fun ts hcount hts => tokenize_joinSpace ts hcount hts,
    fun items tail hcount hitems hgaps htail =>
      tokenize_layout items tail hitems hgaps htail hcount⟩

/-- C20 at the words `ls`, `-l`, `dir`: joined with single spaces, and laid out
with tabs and spaces before, between and after. -/
theorem tokenize_left_inverse_witness :
    tokenize (joinSpace ["ls", "-l", "dir"]) = ["ls", "-l", "dir"] ∧
    tokenize (layout [("  ".toList, "ls".toList), ([Char.ofNat 9, ' '], "-l".toList),
        (" ".toList, "dir".toList)] ++ [' ', Char.ofNat 10]) = ["ls", "-l", "dir"] :=
  ⟨tokenize_left_inverse.1 ["ls", "-l", "dir"] (by decide) (by decide),
    tokenize_left_inverse.2 _ _ (by decide) (by decide) (by decide) (by decide)⟩

/-- C11, as stated, fails: quotes and escapes are consumed by the first pass and
are not there for the second.  The line quote, `a b`, quote gives the one token
`a b`, which tokenizes again as two tokens; the line backslash, double quote
gives the token double quote, which tokenizes again as an empty token; the line
backslash, backslash, `a` gives the token backslash, `a`, which tokenizes again
as `a`; the line of two single quotes gives an empty token, which tokenizes
again as no token. -/
theorem tokenize_round_trip_fails :
    tokenize [squote, 'a', ' ', 'b', squote] = ["a b"] ∧
    tokenize (joinSpace (tokenize [squote, 'a', ' ', 'b', squote])) = ["a", "b"] ∧
    tokenize (joinSpace (tokenize [squote, 'a', ' ', 'b', squote])) ≠
      tokenize [squote, 'a', ' ', 'b', squote] ∧
    tokenize (joinSpace (tokenize [backslash, dquote])) ≠ tokenize [backslash, dquote] ∧
    tokenize (joinSpace (tokenize [backslash, backslash, 'a'])) ≠
      tokenize [backslash, backslash, 'a'] ∧
    tokenize (joinSpace (tokenize [squote, squote])) ≠ tokenize [squote, squote] := by
  decide

/-- C11, amended: for every input line whose emitted tokens are each not empty
and hold no whitespace, no quote and no backslash, joining the emitted tokens
with single spaces and tokenizing the result gives back the same tokens. -/
theorem tokenize_round_trip (line : List Char)
    (h : ∀ t ∈ tokenize line, isPlainWord t.data = true) :
    tokenize (joinSpace (tokenize line)) = tokenize line := by
  have hb := tokenLoop_bounds line.length line [] (by simp) (by simp)
  exact tokenize_joinSpace (tokenize line) hb.1 (fun t ht => ⟨h t ht, hb.2 t ht⟩)

/-- C11, amended, at the line `echo`, two spaces, `hello`, tab, `world`. -/
theorem tokenize_round_trip_witness :
    tokenize (joinSpace (tokenize ("echo  hello".toList ++ Char.ofNat 9 :: "world".toList))) =
      tokenize ("echo  hello".toList ++ Char.ofNat 9 :: "world".toList) :=
  tokenize_round_trip _ (by decide)

/-! ## The token `2>&1` at any place -/

theorem stageIndex_zero (tokens : List String) : stageIndex tokens 0 = 0 := by
  simp [stageIndex]

theorem setHeadMerge_head (l : List Command) (h : l ≠ []) :
    ((setHeadMerge l)[0]?).map Command.merge_err = some true := by
  cases l with
  | nil => exact absurd rfl h
  | cons c rest => simp [setHeadMerge]

/-- A token is an operand only directly behind a redirection operator token. -/
theorem roles_operand_prev : ∀ (toks : List String) (i : Nat),
    (roles toks)[i]? = some Role.operand →
      ∃ j t, i = j + 1 ∧ toks[j]? = some t ∧ isRedirect t = true := by
  apply tokens_induction
  · intro i h; simp [roles] at h
  · intro t i h
    simp only [roles] at h
    split_ifs at h <;> cases i <;> simp at h
  · intro t f rest ih1 ih2 i h
    rw [roles_cons_cons] at h
    by_cases h1 : t = "|"
    · rw [if_pos h1] at h
      cases i with
      | zero => simp at h
      | succ i =>
        simp only [List.getElem?_cons_succ] at h
        obtain ⟨j, u, e, hu, hr⟩ := ih1 i h
        exact ⟨j + 1, u, by omega, by simpa using hu, hr⟩
    · rw [if_neg h1] at h
      by_cases hr : isRedirect t = true
      · rw [if_pos hr] at h
        cases i with
        | zero => simp at h
        | succ i =>
          cases i with
          | zero => exact ⟨0, t, rfl, rfl, hr⟩
          | succ i =>
            simp only [List.getElem?_cons_succ] at h
            obtain ⟨j, u, e, hu, hr2⟩ := ih2 i h
            exact ⟨j + 2, u, by omega, by simpa using hu, hr2⟩
      · rw [if_neg hr] at h
        have h' : (roles (f :: rest))[i - 1]? = some Role.operand ∧ 0 < i := by
          cases i with
          | zero => split_ifs at h <;> simp at h
          | succ i => split_ifs at h <;> simpa using h
        obtain ⟨j, u, e, hu, hr2⟩ := ih1 (i - 1) h'.1
        exact ⟨j + 1, u, by omega, by simpa using hu, hr2⟩

/-- A token `2>&1` that is not the operand of a redirection operator sets the
flag `merge_err` of the stage it stands in. -/
theorem parseLoop_merge_at : ∀ (toks : List String) (cur : Command) (i : Nat),
    toks[i]? = some "2>&1" → (roles toks)[i]? ≠ some Role.operand →
      ((parseLoop toks cur)[stageIndex toks i]?).map Command.merge_err = some true := by
  have hroles2 : ∀ t f rest, isRedirect t = true →
      roles (t :: f :: rest) = Role.redirect :: Role.operand :: roles rest := by
    intro t f rest hr
    have h1 : t ≠ "|" := by
      rintro rfl
      exact absurd hr (by decide)
    rw [roles_cons_cons, if_neg h1, if_pos hr]
  apply tokens_induction
  · intro cur i h; simp at h
  · intro t cur i h _
    cases i with
    | zero =>
      have ht : t = "2>&1" := by simpa using h
      subst ht
      rfl
    | succ i => simp at h
  · intro t f rest ih1 ih2 cur i h hop
    by_cases h1 : t = "|"
    · subst h1
      cases i with
      | zero =>
        simp only [List.getElem?_cons_zero, Option.some.injEq] at h
        exact absurd h (by decide)
      | succ i =>
        have hs : stageIndex ("|" :: f :: rest) (i + 1) = stageIndex (f :: rest) i + 1 := by
          simp [stageIndex, roles_cons_cons]
        have hop1 : (roles (f :: rest))[i]? ≠ some Role.operand := by
          simpa [roles_cons_cons] using hop
        rw [parseLoop_pipe, hs, List.getElem?_cons_succ]
        exact ih1 {} i (by simpa using h) hop1
    · by_cases hr : isRedirect t = true
      · have hne : t ≠ "2>&1" := by
          rintro rfl
          exact absurd hr (by decide)
        rw [hroles2 t f rest hr] at hop
        cases i with
        | zero => exact absurd (by simpa using h) hne
        | succ i =>
          cases i with
          | zero => simp at hop
          | succ i =>
            have hs : stageIndex (t :: f :: rest) (i + 2) = stageIndex rest i := by
              simp [stageIndex, hroles2 t f rest hr]
            rw [parseLoop_applyRedirect _ _ _ _ hr, hs]
            exact ih2 _ i (by simpa using h) (by simpa using hop)
      · have hr2 : isRedirect t = false := by simpa using hr
        by_cases hm : t = "2>&1"
        · subst hm
          rw [parseLoop_merge]
          cases i with
          | zero =>
            rw [stageIndex_zero, parseLoop_merge_head]
            exact setHeadMerge_head _ (parseLoop_ne_nil _ _)
          | succ i =>
            have hs : stageIndex ("2>&1" :: f :: rest) (i + 1) = stageIndex (f :: rest) i := by
              simp [stageIndex, roles_cons_cons, isRedirect]
            have hop1 : (roles (f :: rest))[i]? ≠ some Role.operand := by
              simpa [roles_cons_cons, isRedirect] using hop
            rw [hs]
            exact ih1 _ i (by simpa using h) hop1
        · cases i with
          | zero => exact absurd (by simpa using h) hm
          | succ i =>
            have hrl : roles (t :: f :: rest) = Role.word :: roles (f :: rest) := by
              rw [roles_cons_cons, if_neg h1, if_neg hr, if_neg hm]
            have hs : stageIndex (t :: f :: rest) (i + 1) = stageIndex (f :: rest) i := by
              simp [stageIndex, hrl]
            have hop1 : (roles (f :: rest))[i]? ≠ some Role.operand := by
              simpa [hrl] using hop
            rw [parseLoop_other t f rest _ h1 hr2 hm, hs]
            exact ih1 _ i (by simpa using h) hop1

/-- The token `2>&1` behind tokens that do not end in a redirection operator
token sets the flag of the stage it stands in. -/
theorem parse_command_merge_insert (A B : List String)
    (hA : ∀ t, A.getLast? = some t → isRedirect t = false) :
    ((parse_command (A ++ "2>&1" :: B))[stageIndex (A ++ "2>&1" :: B) A.length]?).map
      Command.merge_err = some true := by
  apply parseLoop_merge_at
  · rw [List.getElem?_append_right (Nat.le_refl _)]
    simp
  · intro hop
    obtain ⟨j, t, e, ht, hr⟩ := roles_operand_prev _ _ hop
    have hj : j < A.length := by omega
    have hlast : A.getLast? = some t := by
      rw [List.getElem?_append_left hj] at ht
      rw [List.getLast?_eq_getElem?]
      have : A.length - 1 = j := by omega
      rw [this]; exact ht
    rw [hA t hlast] at hr
    exact absurd hr (by decide)

/-- C17, as stated, fails in two places.  With descriptor 1 closed before the
call, `ls > f 2>&1` succeeds, but `open` returns descriptor 1, which
`close(fd)` closes again: stream 1 is not the file `f` and stream 2 is not
merged.  And the token `2>&1` right after a redirection operator is its operand,
not the flag. -/
theorem apply_redirects_merge_fails :
    (apply_redirects env0 { argv := ["ls"], stdout_file := some "f", merge_err := true }
      none sysNoStdout).1 = true ∧
    (apply_redirects env0 { argv := ["ls"], stdout_file := some "f", merge_err := true }
      none sysNoStdout).2.2.fds 1 = none ∧
    (apply_redirects env0 { argv := ["ls"], stdout_file := some "f", merge_err := true }
      none sysNoStdout).2.2.fds 2 = some (OpenFile.inherited 2) ∧
    parse_command ["ls", ">", "2>&1"] =
      [{ argv := ["ls"], stdout_file := some "2>&1", merge_err := false }] := by
  decide

/-- C17, amended: for every command descriptor with `merge_err` set for which
`apply_redirects` succeeds, if stream 1 is open before the call, then afterwards
descriptor 2 refers to the same open file as descriptor 1, which is the file
opened for `stdout_file` if one is set and the stream that descriptor 1 had
before the call otherwise, whatever `stderr_file` is (first part).  The flag does
not depend on the place of the token: in every token list, every token `2>&1`
that is not the operand of a redirection operator sets the flag of the stage it
stands in (second part); a token is such an operand only directly behind a
redirection operator token, so the token `2>&1` put anywhere else, behind `&`,
`|` or another `2>&1` too, sets the flag of its stage (third part); and behind
tokens not ending in an operator it changes nothing else in a single stage
(fourth part).  The lines `ls & 2>&1 x` and `a | b 2>&1 > f` are evaluated. -/
theorem apply_redirects_merge :
    (∀ (env : Env) (cmd : Command) (backup : Option FdBackup) (s : Sys),
      cmd.merge_err = true → (apply_redirects env cmd backup s).1 = true →
      (s.fds 1).isSome = true →
        (apply_redirects env cmd backup s).2.2.fds 2 =
          (apply_redirects env cmd backup s).2.2.fds 1 ∧
        (apply_redirects env cmd backup s).2.2.fds 1 =
          match cmd.stdout_file with
          | some o =>
            some (OpenFile.file o (openFlags cmd) (afterStdin env cmd backup s).2.opens.length)
          | none => s.fds 1) ∧
    (∀ (toks : List String) (i : Nat), toks[i]? = some "2>&1" →
      (roles toks)[i]? ≠ some Role.operand →
        ((parse_command toks)[stageIndex toks i]?).map Command.merge_err = some true) ∧
    (∀ (A B : List String), (∀ t, A.getLast? = some t → isRedirect t = false) →
      ((parse_command (A ++ "2>&1" :: B))[stageIndex (A ++ "2>&1" :: B) A.length]?).map
        Command.merge_err = some true) ∧
    (∀ (A B : List String) (c : Command), endsWithOperator A = false →
      parse_command (A ++ B) = [c] →
        parse_command (A ++ ["2>&1"] ++ B) = [{ c with merge_err := true }]) ∧
    parse_command ["ls", "&", "2>&1", "x"] = [{ argv := ["ls", "&", "x"], merge_err := true }] ∧
    parse_command ["a", "|", "b", "2>&1", ">", "f"] =
      [{ argv := ["a"] }, { argv := ["b"], stdout_file := some "f", merge_err := true }] := by
  refine ⟨?_, ?_, ?_, ?_, by decide, by decide⟩
  · intro env cmd backup s hm hok h1
    have hstart : (redirectStart backup s).fds 1 = s.fds 1 :=
      redirectStart_keeps_open backup s 1 h1
    have hin1 : (afterStdin env cmd backup s).2.fds 1 = s.fds 1 := by
      rw [afterStdin_frame _ _ _ _ 1 (by decide), hstart]
    rw [apply_redirects_eq] at hok ⊢
    by_cases g0 : (afterStdin env cmd backup s).1 = false
    · rw [if_pos g0] at hok; simp at hok
    rw [if_neg g0] at hok ⊢
    by_cases g1 : (afterStdout env cmd backup s).1 = false
    · rw [if_pos g1] at hok; simp at hok
    rw [if_neg g1] at hok ⊢
    by_cases g2 : (afterStderr env cmd backup s).1 = false
    · rw [if_pos g2] at hok; simp at hok
    rw [if_neg g2]
    simp only [hm, if_true]
    have hout1 : (afterStdout env cmd backup s).2.fds 1 =
        match cmd.stdout_file with
        | some o =>
          some (OpenFile.file o (openFlags cmd) (afterStdin env cmd backup s).2.opens.length)
        | none => s.fds 1 := by
      cases hout : cmd.stdout_file with
      | none =>
        unfold afterStdout
        rw [hout]
        exact hin1
      | some o =>
        have hst : afterStdout env cmd backup s =
            redirectTo env (afterStdin env cmd backup s).2 "open stdout" o (openFlags cmd) 1 := by
          unfold afterStdout
          rw [hout]
          rfl
        rw [hst] at g1 ⊢
        exact redirectTo_success _ _ _ _ _ 1 (by simpa using g1) (by rw [hin1]; exact h1)
    have herr1 : (afterStderr env cmd backup s).2.fds 1 =
        (afterStdout env cmd backup s).2.fds 1 := afterStderr_frame _ _ _ _ 1 (by decide)
    have hsome : ((afterStderr env cmd backup s).2.fds 1).isSome = true := by
      rw [herr1, hout1]
      cases cmd.stdout_file with
      | none => exact h1
      | some o => rfl
    obtain ⟨d, hd⟩ := Option.isSome_iff_exists.1 hsome
    have e2 := sys_dup2_fds_of_open (afterStderr env cmd backup s).2 1 2 d hd 2
    have e1 := sys_dup2_fds_of_open (afterStderr env cmd backup s).2 1 2 d hd 1
    simp only [if_true] at e2
    rw [if_neg (by decide)] at e1
    refine ⟨?_, ?_⟩
    · show (sys_dup2 (afterStderr env cmd backup s).2 1 2).fds 2 =
        (sys_dup2 (afterStderr env cmd backup s).2 1 2).fds 1
      rw [e2, e1, hd]
    · show (sys_dup2 (afterStderr env cmd backup s).2 1 2).fds 1 = _
      rw [e1, herr1, hout1]
  · intro toks i h hop
    exact parseLoop_merge_at toks {} i h hop
  · intro A B hA
    exact parse_command_merge_insert A B hA
  · intro A B c hA h
    have := parseLoop_merge_anywhere A {} B c hA h
    simpa [parse_command] using this

/-- C17, amended, at `ls > out 2> err 2>&1` in a shell with its three streams,
at the token `2>&1` of `a | b 2>&1 > f`, which stands in the second stage, at the
same token behind `a | b`, and at the tokens `ls 2>&1 > out`. -/
theorem apply_redirects_merge_witness :
    (apply_redirects env0
      { argv := ["ls"], stdout_file := some "out", stderr_file := some "err", merge_err := true }
      none sys0).2.2.fds 2 =
      (apply_redirects env0
        { argv := ["ls"], stdout_file := some "out", stderr_file := some "err",
          merge_err := true }
        none sys0).2.2.fds 1 ∧
    stageIndex ["a", "|", "b", "2>&1", ">", "f"] 3 = 1 ∧
    ((parse_command ["a", "|", "b", "2>&1", ">", "f"])[
      stageIndex ["a", "|", "b", "2>&1", ">", "f"] 3]?).map Command.merge_err = some true ∧
    ((parse_command (["a", "|", "b"] ++ "2>&1" :: [">", "f"]))[
      stageIndex (["a", "|", "b"] ++ "2>&1" :: [">", "f"]) ["a", "|", "b"].length]?).map
        Command.merge_err = some true ∧
    parse_command (["ls"] ++ ["2>&1"] ++ [">", "out"]) =
      [{ argv := ["ls"], stdout_file := some "out", merge_err := true }] :=
  ⟨(apply_redirects_merge.1 env0
      { argv := ["ls"], stdout_file := some "out", stderr_file := some "err", merge_err := true }
      none sys0 rfl (by decide) (by decide)).1,
   by decide,
   apply_redirects_merge.2.1 ["a", "|", "b", "2>&1", ">", "f"] 3 (by decide) (by decide),
   apply_redirects_merge.2.2.1 ["a", "|", "b"] [">", "f"] (by decide),
   apply_redirects_merge.2.2.2.1 ["ls"] [">", "out"]
      { argv := ["ls"], stdout_file := some "out" } (by decide) (by decide)⟩

/-! ## apply_redirects with the three standard streams open -/

/-- The descriptor that a successful `open` returns was closed before. -/
theorem sys_open_some_closed (env : Env) (s : Sys) (path : String) (flags : OFlag) (fd : Nat)
    (h : (sys_open env s path flags).1 = some fd) : s.fds fd = none := by
  unfold sys_open at h
  simp only at h
  split_ifs at h
  cases hl : lowestFree s with
  | none => rw [hl] at h; simp at h
  | some n =>
    rw [hl] at h
    simp only [Option.some.injEq] at h
    subst h
    exact lowestFree_closed s n hl

/-- One block succeeds exactly when its call of `open` succeeds. -/
theorem redirectTo_ok_of_open (env : Env) (s : Sys) (what path : String) (flags : OFlag)
    (target fd : Nat) (h : (sys_open env s path flags).1 = some fd) :
    (redirectTo env s what path flags target).1 = true := by
  cases hr : (redirectTo env s what path flags target).1 with
  | true => rfl
  | false =>
    have := (redirectTo_fail_iff env s what path flags target).1 hr
    rw [this] at h
    simp at h

/-- One block on an open target: the target is the new file after a success and
what it was after a failure. -/
theorem redirectOpt_target (env : Env) (s : Sys) (what : String) (file : Option String)
    (flags : OFlag) (target : Nat) (ht : (s.fds target).isSome = true) :
    (redirectOpt env s what file flags target).2.fds target =
      if (redirectOpt env s what file flags target).1 = true then
        streamAfter file flags s.opens.length (s.fds target)
      else s.fds target := by
  cases file with
  | none => simp [redirectOpt, streamAfter]
  | some p =>
    simp only [redirectOpt, streamAfter]
    cases hr : (redirectTo env s what p flags target).1 with
    | true =>
      rw [if_pos rfl]
      exact redirectTo_success env s what p flags target hr ht
    | false =>
      rw [if_neg (by simp)]
      have hf := (redirectTo_fail_iff env s what p flags target).1 hr
      rw [redirectTo_fail_fds env s what p flags target hf]

theorem streamAfter_isSome (file : Option String) (flags : OFlag) (serial : Nat)
    (before : Option OpenFile) (h : before.isSome = true) :
    (streamAfter file flags serial before).isSome = true := by
  cases file with
  | none => exact h
  | some p => rfl

theorem redirectOpt_target_open (env : Env) (s : Sys) (what : String) (file : Option String)
    (flags : OFlag) (target : Nat) (ht : (s.fds target).isSome = true) :
    ((redirectOpt env s what file flags target).2.fds target).isSome = true := by
  rw [redirectOpt_target env s what file flags target ht]
  split_ifs
  · exact streamAfter_isSome _ _ _ _ ht
  · exact ht

/-- Descriptor 0 after `apply_redirects` is what the block for stdin left. -/
theorem apply_redirects_fds0 (env : Env) (cmd : Command) (backup : Option FdBackup) (s : Sys) :
    (apply_redirects env cmd backup s).2.2.fds 0 = (afterStdin env cmd backup s).2.fds 0 := by
  rw [apply_redirects_eq]
  split_ifs <;>
    simp only [sys_dup2_frame _ 1 2 0 (by decide), afterStderr_frame _ _ _ _ 0 (by decide),
      afterStdout_frame _ _ _ _ 0 (by decide)]

/-- Descriptor 1 after `apply_redirects` is what the block for stdout left, when
the block for stdin went through. -/
theorem apply_redirects_fds1 (env : Env) (cmd : Command) (backup : Option FdBackup) (s : Sys)
    (h0 : (afterStdin env cmd backup s).1 = true) :
    (apply_redirects env cmd backup s).2.2.fds 1 = (afterStdout env cmd backup s).2.fds 1 := by
  rw [apply_redirects_eq, if_neg (by simp [h0])]
  split_ifs <;>
    simp only [sys_dup2_frame _ 1 2 1 (by decide), afterStderr_frame _ _ _ _ 1 (by decide)]

/-- The three standard streams at the steps of `apply_redirects`, when they are
open at the call. -/
theorem apply_redirects_steps (env : Env) (cmd : Command) (backup : Option FdBackup) (s : Sys)
    (H0 : (s.fds 0).isSome = true) (H1 : (s.fds 1).isSome = true)
    (H2 : (s.fds 2).isSome = true) :
    ((afterStdin env cmd backup s).2.fds 0 =
        if (afterStdin env cmd backup s).1 = true then
          streamAfter cmd.stdin_file OFlag.rdonly s.opens.length (s.fds 0)
        else s.fds 0) ∧
      (afterStdin env cmd backup s).2.fds 1 = s.fds 1 ∧
      (afterStdin env cmd backup s).2.fds 2 = s.fds 2 ∧
      ((afterStdout env cmd backup s).2.fds 1 =
        if (afterStdout env cmd backup s).1 = true then
          streamAfter cmd.stdout_file (openFlags cmd)
            (s.opens ++ openEntry cmd.stdin_file OFlag.rdonly).length (s.fds 1)
        else s.fds 1) ∧
      (afterStdout env cmd backup s).2.fds 2 = s.fds 2 ∧
      ((afterStderr env cmd backup s).2.fds 2 =
        if (afterStderr env cmd backup s).1 = true then
          streamAfter cmd.stderr_file (openFlags cmd)
            (s.opens ++ openEntry cmd.stdin_file OFlag.rdonly ++
              openEntry cmd.stdout_file (openFlags cmd)).length (s.fds 2)
        else s.fds 2) := by
  have K0 := redirectStart_keeps_open backup s 0 H0
  have K1 := redirectStart_keeps_open backup s 1 H1
  have K2 := redirectStart_keeps_open backup s 2 H2
  have a1 : (afterStdin env cmd backup s).2.fds 1 = s.fds 1 := by
    rw [afterStdin_frame _ _ _ _ 1 (by decide), K1]
  have a2 : (afterStdin env cmd backup s).2.fds 2 = s.fds 2 := by
    rw [afterStdin_frame _ _ _ _ 2 (by decide), K2]
  have b2 : (afterStdout env cmd backup s).2.fds 2 = s.fds 2 := by
    rw [afterStdout_frame _ _ _ _ 2 (by decide), a2]
  refine ⟨?_, a1, a2, ?_, b2, ?_⟩
  · have h := redirectOpt_target env (redirectStart backup s) "open stdin" cmd.stdin_file
      OFlag.rdonly 0 (by rw [K0]; exact H0)
    rw [K0, redirectStart_opens] at h
    exact h
  · have h := redirectOpt_target env (afterStdin env cmd backup s).2 "open stdout"
      cmd.stdout_file (openFlags cmd) 1 (by rw [a1]; exact H1)
    rw [a1, afterStdin_opens] at h
    exact h
  · have h := redirectOpt_target env (afterStdout env cmd backup s).2 "open stderr"
      cmd.stderr_file (openFlags cmd) 2 (by rw [b2]; exact H2)
    rw [b2, afterStdout_opens, afterStdin_opens] at h
    exact h

/-- A closed descriptor is none of the open ones. -/
theorem closed_ne_open (t : Sys) (fd : Nat) (h : t.fds fd = none)
    (h0 : (t.fds 0).isSome = true) (h1 : (t.fds 1).isSome = true)
    (h2 : (t.fds 2).isSome = true) : fd ≠ 0 ∧ fd ≠ 1 ∧ fd ≠ 2 := by
  refine ⟨?_, ?_, ?_⟩ <;>
  · rintro rfl
    simp [h] at h0 h1 h2

/-- C16, as stated, fails when a standard stream is closed at the call.  With
descriptor 1 closed and a backup asked for, `dup(0)` returns descriptor 1: after
the failed `open` of stdin, stream 1 is a copy of stream 0 and not unchanged.
With descriptor 2 closed the same happens to stream 2.  With descriptor 0 closed
and no backup, `open` of stdin returns descriptor 0, `dup2(0, 0)` changes
nothing and `close(0)` closes the file: stream 0 is closed and not the file. -/
theorem apply_redirects_closed_stream :
    (apply_redirects envNoOpen { argv := ["cat"], stdin_file := some "missing" } (some {})
      sysNoStdout).1 = false ∧
    sysNoStdout.fds 1 = none ∧
    (apply_redirects envNoOpen { argv := ["cat"], stdin_file := some "missing" } (some {})
      sysNoStdout).2.2.fds 1 = some (OpenFile.inherited 0) ∧
    sysNoStderr.fds 2 = none ∧
    (apply_redirects envNoOpen { argv := ["cat"], stdin_file := some "missing" } (some {})
      sysNoStderr).2.2.fds 2 = some (OpenFile.inherited 0) ∧
    (apply_redirects env0 { argv := ["cat"], stdin_file := some "in" } none sysNoStdin).1 = true ∧
    (apply_redirects env0 { argv := ["cat"], stdin_file := some "in" } none
      sysNoStdin).2.2.fds 0 = none := by
  decide

/-- C16, amended: with the standard streams 0, 1 and 2 open at the call,
`apply_redirects` stops at the first failure, in the order stdin, stdout,
stderr, merge.  (1) When the `open` of `stdin_file` fails, the result is failure,
the streams 0, 1 and 2 are unchanged, the descriptor table is the one the
redirections started from, and the only `open` made is the one of `stdin_file`.
(2) When the block for stdin went through and the `open` of `stdout_file` fails,
the result is failure, no `open` is made for `stderr_file`, and the streams 1 and
2 are unchanged, so no merge took place.  (3) When the blocks for stdin and
stdout went through and the `open` of `stderr_file` fails, the result is failure
and stream 2 is unchanged.  (4), (5), (6) The descriptor that a successful
`open` returns is duplicated onto its standard stream and closed again: at the
end, on every path, the stream is the file just opened (stream 2 is the file of
stream 1 when the merge is asked for) and the descriptor is closed.  (7) On every
path no descriptor other than 0, 1 and 2 differs from the start of the
redirections. -/
theorem apply_redirects_first_failure :
    (∀ (env : Env) (cmd : Command) (backup : Option FdBackup) (s : Sys) (p : String),
      (s.fds 0).isSome = true → (s.fds 1).isSome = true → (s.fds 2).isSome = true →
      cmd.stdin_file = some p →
      (sys_open env (redirectStart backup s) p OFlag.rdonly).1 = none →
        (apply_redirects env cmd backup s).1 = false ∧
        (apply_redirects env cmd backup s).2.2.fds 0 = s.fds 0 ∧
        (apply_redirects env cmd backup s).2.2.fds 1 = s.fds 1 ∧
        (apply_redirects env cmd backup s).2.2.fds 2 = s.fds 2 ∧
        (apply_redirects env cmd backup s).2.2.fds = (redirectStart backup s).fds ∧
        (apply_redirects env cmd backup s).2.2.opens = s.opens ++ [(p, OFlag.rdonly)]) ∧
    (∀ (env : Env) (cmd : Command) (backup : Option FdBackup) (s : Sys) (q : String),
      (s.fds 0).isSome = true → (s.fds 1).isSome = true → (s.fds 2).isSome = true →
      (afterStdin env cmd backup s).1 = true →
      cmd.stdout_file = some q →
      (sys_open env (afterStdin env cmd backup s).2 q (openFlags cmd)).1 = none →
        (apply_redirects env cmd backup s).1 = false ∧
        (apply_redirects env cmd backup s).2.2.fds 0 =
          streamAfter cmd.stdin_file OFlag.rdonly s.opens.length (s.fds 0) ∧
        (apply_redirects env cmd backup s).2.2.fds 1 = s.fds 1 ∧
        (apply_redirects env cmd backup s).2.2.fds 2 = s.fds 2 ∧
        (apply_redirects env cmd backup s).2.2.opens =
          s.opens ++ openEntry cmd.stdin_file OFlag.rdonly ++ [(q, openFlags cmd)]) ∧
    (∀ (env : Env) (cmd : Command) (backup : Option FdBackup) (s : Sys) (e : String),
      (s.fds 0).isSome = true → (s.fds 1).isSome = true → (s.fds 2).isSome = true →
      (afterStdin env cmd backup s).1 = true → (afterStdout env cmd backup s).1 = true →
      cmd.stderr_file = some e →
      (sys_open env (afterStdout env cmd backup s).2 e (openFlags cmd)).1 = none →
        (apply_redirects env cmd backup s).1 = false ∧
        (apply_redirects env cmd backup s).2.2.fds 2 = s.fds 2) ∧
    (∀ (env : Env) (cmd : Command) (backup : Option FdBackup) (s : Sys) (p : String)
      (fd : Nat),
      (s.fds 0).isSome = true → (s.fds 1).isSome = true → (s.fds 2).isSome = true →
      cmd.stdin_file = some p →
      (sys_open env (redirectStart backup s) p OFlag.rdonly).1 = some fd →
        (apply_redirects env cmd backup s).2.2.fds 0 =
          some (OpenFile.file p OFlag.rdonly s.opens.length) ∧
        (apply_redirects env cmd backup s).2.2.fds fd = none) ∧
    (∀ (env : Env) (cmd : Command) (backup : Option FdBackup) (s : Sys) (q : String)
      (fd : Nat),
      (s.fds 0).isSome = true → (s.fds 1).isSome = true → (s.fds 2).isSome = true →
      (afterStdin env cmd backup s).1 = true →
      cmd.stdout_file = some q →
      (sys_open env (afterStdin env cmd backup s).2 q (openFlags cmd)).1 = some fd →
        (apply_redirects env cmd backup s).2.2.fds 1 =
          some (OpenFile.file q (openFlags cmd)
            (s.opens ++ openEntry cmd.stdin_file OFlag.rdonly).length) ∧
        (apply_redirects env cmd backup s).2.2.fds fd = none) ∧
    (∀ (env : Env) (cmd : Command) (backup : Option FdBackup) (s : Sys) (e : String)
      (fd : Nat),
      (s.fds 0).isSome = true → (s.fds 1).isSome = true → (s.fds 2).isSome = true →
      (afterStdin env cmd backup s).1 = true → (afterStdout env cmd backup s).1 = true →
      cmd.stderr_file = some e →
      (sys_open env (afterStdout env cmd backup s).2 e (openFlags cmd)).1 = some fd →
        (apply_redirects env cmd backup s).1 = true ∧
        (apply_redirects env cmd backup s).2.2.fds 2 =
          (if cmd.merge_err = true then (apply_redirects env cmd backup s).2.2.fds 1
           else some (OpenFile.file e (openFlags cmd)
            (s.opens ++ openEntry cmd.stdin_file OFlag.rdonly ++
              openEntry cmd.stdout_file (openFlags cmd)).length)) ∧
        (apply_redirects env cmd backup s).2.2.fds fd = none) ∧
    (∀ (env : Env) (cmd : Command) (backup : Option FdBackup) (s : Sys) (x : Nat),
      x ≠ 0 → x ≠ 1 → x ≠ 2 →
        (apply_redirects env cmd backup s).2.2.fds x = (redirectStart backup s).fds x) := by
  refine ⟨?_, ?_, ?_, ?_, ?_, ?_, ?_⟩
  · intro env cmd backup s p H0 H1 H2 hin hfail
    have hst : afterStdin env cmd backup s =
        redirectTo env (redirectStart backup s) "open stdin" p OFlag.rdonly 0 := by
      unfold afterStdin
      rw [hin]
      rfl
    have h0 : (afterStdin env cmd backup s).1 = false := by
      rw [hst]
      exact (redirectTo_fail_iff _ _ _ _ _ _).2 hfail
    have hfds : (afterStdin env cmd backup s).2.fds = (redirectStart backup s).fds := by
      rw [hst]
      exact redirectTo_fail_fds _ _ _ _ _ _ hfail
    have hfin : (apply_redirects env cmd backup s).2.2 = (afterStdin env cmd backup s).2 := by
      rw [apply_redirects_eq, if_pos h0]
    rw [hfin]
    refine ⟨by rw [apply_redirects_eq, if_pos h0], ?_, ?_, ?_, hfds, ?_⟩
    · rw [hfds, redirectStart_keeps_open backup s 0 H0]
    · rw [hfds, redirectStart_keeps_open backup s 1 H1]
    · rw [hfds, redirectStart_keeps_open backup s 2 H2]
    · rw [afterStdin_opens, hin]
      rfl
  · intro env cmd backup s q H0 H1 H2 hin hout hfail
    obtain ⟨s0, s1, s2, t1, t2, _⟩ := apply_redirects_steps env cmd backup s H0 H1 H2
    have h0 : ¬ (afterStdin env cmd backup s).1 = false := by simp [hin]
    have hst : afterStdout env cmd backup s =
        redirectTo env (afterStdin env cmd backup s).2 "open stdout" q (openFlags cmd) 1 := by
      unfold afterStdout
      rw [hout]
      rfl
    have h1 : (afterStdout env cmd backup s).1 = false := by
      rw [hst]
      exact (redirectTo_fail_iff _ _ _ _ _ _).2 hfail
    have hfin : (apply_redirects env cmd backup s).2.2 = (afterStdout env cmd backup s).2 := by
      rw [apply_redirects_eq, if_neg h0, if_pos h1]
    refine ⟨by rw [apply_redirects_eq, if_neg h0, if_pos h1], ?_, ?_, ?_, ?_⟩
    · rw [apply_redirects_fds0, s0, if_pos hin]
    · rw [hfin, t1, if_neg (by simp [h1])]
    · rw [hfin, t2]
    · rw [hfin, afterStdout_opens, afterStdin_opens, hout]
      rfl
  · intro env cmd backup s e H0 H1 H2 hin hout herr hfail
    obtain ⟨_, _, _, _, _, u2⟩ := apply_redirects_steps env cmd backup s H0 H1 H2
    have h0 : ¬ (afterStdin env cmd backup s).1 = false := by simp [hin]
    have h1 : ¬ (afterStdout env cmd backup s).1 = false := by simp [hout]
    have hst : afterStderr env cmd backup s =
        redirectTo env (afterStdout env cmd backup s).2 "open stderr" e (openFlags cmd) 2 := by
      unfold afterStderr
      rw [herr]
      rfl
    have h2 : (afterStderr env cmd backup s).1 = false := by
      rw [hst]
      exact (redirectTo_fail_iff _ _ _ _ _ _).2 hfail
    have hfin : (apply_redirects env cmd backup s).2.2 = (afterStderr env cmd backup s).2 := by
      rw [apply_redirects_eq, if_neg h0, if_neg h1, if_pos h2]
    refine ⟨by rw [apply_redirects_eq, if_neg h0, if_neg h1, if_pos h2], ?_⟩
    rw [hfin, u2, if_neg (by simp [h2])]
  · intro env cmd backup s p fd H0 H1 H2 hin hopen
    obtain ⟨s0, _, _, _, _, _⟩ := apply_redirects_steps env cmd backup s H0 H1 H2
    have hst : afterStdin env cmd backup s =
        redirectTo env (redirectStart backup s) "open stdin" p OFlag.rdonly 0 := by
      unfold afterStdin
      rw [hin]
      rfl
    have hok : (afterStdin env cmd backup s).1 = true := by
      rw [hst]
      exact redirectTo_ok_of_open _ _ _ _ _ _ fd hopen
    have hclosed := sys_open_some_closed _ _ _ _ _ hopen
    obtain ⟨n0, n1, n2⟩ := closed_ne_open (redirectStart backup s) fd hclosed
      (by rw [redirectStart_keeps_open backup s 0 H0]; exact H0)
      (by rw [redirectStart_keeps_open backup s 1 H1]; exact H1)
      (by rw [redirectStart_keeps_open backup s 2 H2]; exact H2)
    refine ⟨?_, ?_⟩
    · rw [apply_redirects_fds0, s0, if_pos hok, hin]
      rfl
    · rw [apply_redirects_frame_any env cmd backup s fd n0 n1 n2, hclosed]
  · intro env cmd backup s q fd H0 H1 H2 hin hout hopen
    obtain ⟨s0, s1, s2, t1, _, _⟩ := apply_redirects_steps env cmd backup s H0 H1 H2
    have hst : afterStdout env cmd backup s =
        redirectTo env (afterStdin env cmd backup s).2 "open stdout" q (openFlags cmd) 1 := by
      unfold afterStdout
      rw [hout]
      rfl
    have hok : (afterStdout env cmd backup s).1 = true := by
      rw [hst]
      exact redirectTo_ok_of_open _ _ _ _ _ _ fd hopen
    have hclosed := sys_open_some_closed _ _ _ _ _ hopen
    have a0 : ((afterStdin env cmd backup s).2.fds 0).isSome = true := by
      rw [s0, if_pos hin]
      exact streamAfter_isSome _ _ _ _ H0
    obtain ⟨n0, n1, n2⟩ := closed_ne_open (afterStdin env cmd backup s).2 fd hclosed a0
      (by rw [s1]; exact H1) (by rw [s2]; exact H2)
    refine ⟨?_, ?_⟩
    · rw [apply_redirects_fds1 env cmd backup s hin, t1, if_pos hok, hout]
      rfl
    · rw [apply_redirects_frame_any env cmd backup s fd n0 n1 n2,
        ← afterStdin_frame env cmd backup s fd n0, hclosed]
  · intro env cmd backup s e fd H0 H1 H2 hin hout herr hopen
    obtain ⟨s0, s1, s2, t1, t2, u2⟩ := apply_redirects_steps env cmd backup s H0 H1 H2
    have h0 : ¬ (afterStdin env cmd backup s).1 = false := by simp [hin]
    have h1 : ¬ (afterStdout env cmd backup s).1 = false := by simp [hout]
    have hst : afterStderr env cmd backup s =
        redirectTo env (afterStdout env cmd backup s).2 "open stderr" e (openFlags cmd) 2 := by
      unfold afterStderr
      rw [herr]
      rfl
    have hok : (afterStderr env cmd backup s).1 = true := by
      rw [hst]
      exact redirectTo_ok_of_open _ _ _ _ _ _ fd hopen
    have h2 : ¬ (afterStderr env cmd backup s).1 = false := by simp [hok]
    have hclosed := sys_open_some_closed _ _ _ _ _ hopen
    have a0 : ((afterStdin env cmd backup s).2.fds 0).isSome = true := by
      rw [s0, if_pos hin]
      exact streamAfter_isSome _ _ _ _ H0
    have b0 : ((afterStdout env cmd backup s).2.fds 0).isSome = true := by
      rw [afterStdout_frame _ _ _ _ 0 (by decide)]
      exact a0
    have b1 : ((afterStdout env cmd backup s).2.fds 1).isSome = true := by
      rw [t1, if_pos hout]
      exact streamAfter_isSome _ _ _ _ H1
    obtain ⟨n0, n1, n2⟩ := closed_ne_open (afterStdout env cmd backup s).2 fd hclosed b0 b1
      (by rw [t2]; exact H2)
    have c1 : (afterStderr env cmd backup s).2.fds 1 = (afterStdout env cmd backup s).2.fds 1 :=
      afterStderr_frame _ _ _ _ 1 (by decide)
    have c2 : (afterStderr env cmd backup s).2.fds 2 =
        some (OpenFile.file e (openFlags cmd)
          (s.opens ++ openEntry cmd.stdin_file OFlag.rdonly ++
            openEntry cmd.stdout_file (openFlags cmd)).length) := by
      rw [u2, if_pos hok, herr]
      rfl
    refine ⟨by rw [apply_redirects_eq, if_neg h0, if_neg h1, if_neg h2], ?_, ?_⟩
    · by_cases hm : cmd.merge_err = true
      · rw [if_pos hm]
        obtain ⟨d, hd⟩ := Option.isSome_iff_exists.1 (by rw [← c1] at b1; exact b1)
        have e2 := sys_dup2_fds_of_open (afterStderr env cmd backup s).2 1 2 d hd 2
        have e1 := sys_dup2_fds_of_open (afterStderr env cmd backup s).2 1 2 d hd 1
        simp only [if_true] at e2
        rw [if_neg (by decide)] at e1
        rw [apply_redirects_eq, if_neg h0, if_neg h1, if_neg h2]
        simp only [hm, if_true]
        rw [e2, e1, hd]
      · rw [if_neg hm]
        rw [apply_redirects_eq, if_neg h0, if_neg h1, if_neg h2]
        simp only [hm, if_false, Bool.false_eq_true]
        exact c2
    · rw [apply_redirects_frame_any env cmd backup s fd n0 n1 n2,
        ← afterStdin_frame env cmd backup s fd n0, ← afterStdout_frame env cmd backup s fd n1,
        hclosed]
  · intro env cmd backup s x h0 h1 h2
    exact apply_redirects_frame_any env cmd backup s x h0 h1 h2

/-- C16, amended, in a shell with its three streams and a backup asked for: at
`cat < missing > out` with every `open` refused stream 1 is unchanged and one
`open` is made; at `cat < in > out 2> err 2>&1` with the second `open` refused
two are made; with no `open` refused stream 0 is the file `in`, stream 1 the
file `out`, and the descriptor that `open` returned is closed. -/
theorem apply_redirects_first_failure_witness :
    (apply_redirects envNoOpen
      { argv := ["cat"], stdin_file := some "missing", stdout_file := some "out" }
      (some {}) sys0).2.2.fds 1 = sys0.fds 1 ∧
    (apply_redirects envNoOpen
      { argv := ["cat"], stdin_file := some "missing", stdout_file := some "out" }
      (some {}) sys0).2.2.opens = sys0.opens ++ [("missing", OFlag.rdonly)] ∧
    (apply_redirects envSecondOpenFails
      { argv := ["cat"], stdin_file := some "in", stdout_file := some "out",
        stderr_file := some "err", merge_err := true }
      (some {}) sys0).2.2.opens =
        sys0.opens ++ openEntry (some "in") OFlag.rdonly ++ [("out", OFlag.trunc)] ∧
    (apply_redirects env0
      { argv := ["cat"], stdin_file := some "in", stdout_file := some "out" }
      (some {}) sys0).2.2.fds 0 = some (OpenFile.file "in" OFlag.rdonly 0) ∧
    (apply_redirects env0
      { argv := ["cat"], stdin_file := some "in", stdout_file := some "out" }
      (some {}) sys0).2.2.fds 6 = none ∧
    (apply_redirects env0
      { argv := ["cat"], stdin_file := some "in", stdout_file := some "out" }
      (some {}) sys0).2.2.fds 1 = some (OpenFile.file "out" OFlag.trunc 1) :=
  ⟨(apply_redirects_first_failure.1 envNoOpen
      { argv := ["cat"], stdin_file := some "missing", stdout_file := some "out" }
      (some {}) sys0 "missing" (by decide) (by decide) (by decide) rfl (by decide)).2.2.1,
   (apply_redirects_first_failure.1 envNoOpen
      { argv := ["cat"], stdin_file := some "missing", stdout_file := some "out" }
      (some {}) sys0 "missing" (by decide) (by decide) (by decide) rfl (by decide)).2.2.2.2.2,
   (apply_redirects_first_failure.2.1 envSecondOpenFails
      { argv := ["cat"], stdin_file := some "in", stdout_file := some "out",
        stderr_file := some "err", merge_err := true }
      (some {}) sys0 "out" (by decide) (by decide) (by decide) (by decide) rfl
      (by decide)).2.2.2.2,
   (apply_redirects_first_failure.2.2.2.1 env0
      { argv := ["cat"], stdin_file := some "in", stdout_file := some "out" }
      (some {}) sys0 "in" 6 (by decide) (by decide) (by decide) rfl (by decide)).1,
   (apply_redirects_first_failure.2.2.2.1 env0
      { argv := ["cat"], stdin_file := some "in", stdout_file := some "out" }
      (some {}) sys0 "in" 6 (by decide) (by decide) (by decide) rfl (by decide)).2,
   (apply_redirects_first_failure.2.2.2.2.1 env0
      { argv := ["cat"], stdin_file := some "in", stdout_file := some "out" }
      (some {}) sys0 "out" 6 (by decide) (by decide) (by decide) (by decide) rfl
      (by decide)).1⟩

/-! ## The line buffer and the per-word cap -/

end Mash
